import Mathlib

/-!
# Webserv: request parser, router and response builder

A shallow embedding of `srcs/http/Request.cpp`, `srcs/http/Router.cpp`,
`srcs/http/Response.cpp` and of the records of `includes/Dico.hpp`.

* A `std::string` is a list of bytes (`Str`); a byte is a natural number.
* A `std::map<std::string, std::string>` is an association list kept in key
  order (`StrMap`).
* `size_t` values are natural numbers, reduced modulo `2 ^ 64` where the C++
  arithmetic can wrap.
* The `while` loops of the parser are structural recursions on a fuel
  argument; running out of fuel is `none`.
-/

namespace Webserv

/-! ## Strings -/

/-- A byte string (`std::string`). -/
abbrev Str := List Nat

/-- The bytes of a string literal. -/
def str (s : String) : Str := s.toList.map Char.toNat

/-- The two bytes CR LF. -/
def CRLF : Str := [13, 10]

/-- Number of values of a `size_t`. -/
def SIZE_MOD : Nat := 2 ^ 64

/-- The value `LONG_MAX` of a 64-bit `long`. -/
def LONG_MAX : Int := 2 ^ 63 - 1

/-- The value `LONG_MIN` of a 64-bit `long`. -/
def LONG_MIN : Int := -(2 ^ 63)

/-- The conversion `static_cast<size_t>(long)`. -/
def toSizeT (x : Int) : Nat := (x % (2 ^ 64 : Int)).toNat

/-- The call `s.find("\r\n")`: index of the first CR LF, `none` for `npos`. -/
def findCRLF : Str → Option Nat
  | [] => none
  | [_] => none
  | a :: b :: rest =>
    if a = 13 ∧ b = 10 then some 0
    else (findCRLF (b :: rest)).map (· + 1)

/-- The call `s.find(c)` for a single character. -/
def findChar (c : Nat) : Str → Option Nat
  | [] => none
  | a :: rest => if a = c then some 0 else (findChar c rest).map (· + 1)

/-- The call `s.rfind(c)`: index of the last occurrence of `c`. -/
def rfindChar (c : Nat) : Str → Option Nat
  | [] => none
  | a :: rest =>
    match rfindChar c rest with
    | some i => some (i + 1)
    | none => if a = c then some 0 else none

/-- The call `s.find(pat)` as a test: does `pat` occur in `s`? -/
def containsSub (pat : Str) : Str → Bool
  | [] => pat.isPrefixOf []
  | a :: rest => pat.isPrefixOf (a :: rest) || containsSub pat rest

/-- The call `s.substr(pos, n)`. -/
def substr (s : Str) (pos n : Nat) : Str := (s.drop pos).take n

/-- The call `s.substr(pos)`. -/
def substrFrom (s : Str) (pos : Nat) : Str := s.drop pos

/-- The call `s.erase(0, n)`. -/
def erase0 (s : Str) (n : Nat) : Str := s.drop n

/-- The C function `isspace` in the C locale. -/
def isSpace (c : Nat) : Bool := c = 32 || (9 ≤ c && c ≤ 13)

/-- The C function `tolower` in the C locale. -/
def toLower (c : Nat) : Nat := if 65 ≤ c ∧ c ≤ 90 then c + 32 else c

/-- The decimal digits of `n`, most significant first, prepended to `acc`. -/
def natToDecAux : Nat → Nat → Str → Str
  | 0, _, acc => acc
  | fuel + 1, n, acc =>
    if n < 10 then (48 + n) :: acc
    else natToDecAux fuel (n / 10) ((48 + n % 10) :: acc)

/-- What `oss << n` writes for an unsigned `n`. -/
def natToDec (n : Nat) : Str := natToDecAux (n + 1) n []

/-- What `oss << n` writes for an `int`. -/
def intToDec (n : Int) : Str :=
  if n < 0 then 45 :: natToDec n.natAbs else natToDec n.natAbs

/-- The order `operator<` of `std::string`. -/
def strLt : Str → Str → Bool
  | [], [] => false
  | [], _ :: _ => true
  | _ :: _, [] => false
  | a :: as, b :: bs => if a < b then true else if b < a then false else strLt as bs

/-! ## Maps -/

/-- A `std::map<std::string, std::string>`: its entries in key order. -/
abbrev StrMap := List (Str × Str)

/-- The assignment `m[k] = v`. -/
def mapSet (k v : Str) : StrMap → StrMap
  | [] => [(k, v)]
  | (k1, v1) :: m =>
    if k = k1 then (k1, v) :: m
    else if strLt k k1 then (k, v) :: (k1, v1) :: m
    else (k1, v1) :: mapSet k v m

/-- The call `m.find(k)`: the mapped value, `none` for `end()`. -/
def mapFind (k : Str) : StrMap → Option Str
  | [] => none
  | (k1, v1) :: m => if k1 = k then some v1 else mapFind k m

/-! ## Records of Dico.hpp -/

/-- The `location` block of a configuration. -/
structure LocationConfig where
  path_url : Str
  root_dir : Str
  methods : List Str
  index : Str
  autoindex : Bool
  cgi_handlers : StrMap
  upload_dir : Str
  redirect_url : Str
  redirect_code : Int
  max_body_size : Nat
  deriving DecidableEq, Repr

/-- The `server` block of a configuration. -/
structure ServerConfig where
  ip_address : Str
  listen_port : Int
  server_name : Str
  root_dir : Str
  error_pages : List (Int × Str)
  max_body_size : Nat
  locations : List LocationConfig
  deriving DecidableEq, Repr

/-- The states of the request parser. -/
inductive RequestState where
  | REQUEST_LINE
  | HEADERS
  | BODY
  | CHUNKED_BODY
  | COMPLETE
  | ERROR
  deriving DecidableEq, Repr

/-- The record `Request`. -/
structure Request where
  method : Str
  uri : Str
  query_string : Str
  version : Str
  headers : StrMap
  body : Str
  content_length : Nat
  is_chunked : Bool
  state : RequestState
  read_buffer : Str
  body_bytes_received : Nat
  error_code : Int
  deriving DecidableEq, Repr

/-- The record `Response`. -/
structure Response where
  status_code : Int
  status_message : Str
  headers : StrMap
  body : Str
  send_buffer : Str
  bytes_sent : Nat
  is_ready : Bool
  is_complete : Bool
  deriving DecidableEq, Repr

/-- Constant `WebservConfig::MAX_URI_LENGTH`. -/
def MAX_URI_LENGTH : Nat := 2048

/-- Function `HttpStatus::getMessage`. -/
def getMessage (code : Int) : Str :=
  if code = 200 then str "OK"
  else if code = 201 then str "Created"
  else if code = 204 then str "No Content"
  else if code = 301 then str "Moved Permanently"
  else if code = 302 then str "Found"
  else if code = 400 then str "Bad Request"
  else if code = 403 then str "Forbidden"
  else if code = 404 then str "Not Found"
  else if code = 405 then str "Method Not Allowed"
  else if code = 408 then str "Request Timeout"
  else if code = 413 then str "Payload Too Large"
  else if code = 414 then str "URI Too Long"
  else if code = 500 then str "Internal Server Error"
  else if code = 501 then str "Not Implemented"
  else if code = 502 then str "Bad Gateway"
  else if code = 504 then str "Gateway Timeout"
  else str "Unknown"

/-- Function `MimeTypes::getType`. -/
def getType (extension : Str) : Str :=
  if extension = str ".html" ∨ extension = str ".htm" then str "text/html"
  else if extension = str ".css" then str "text/css"
  else if extension = str ".js" then str "application/javascript"
  else if extension = str ".json" then str "application/json"
  else if extension = str ".xml" then str "application/xml"
  else if extension = str ".txt" then str "text/plain"
  else if extension = str ".png" then str "image/png"
  else if extension = str ".jpg" ∨ extension = str ".jpeg" then str "image/jpeg"
  else if extension = str ".gif" then str "image/gif"
  else if extension = str ".ico" then str "image/x-icon"
  else if extension = str ".svg" then str "image/svg+xml"
  else if extension = str ".webp" then str "image/webp"
  else if extension = str ".woff" then str "font/woff"
  else if extension = str ".woff2" then str "font/woff2"
  else if extension = str ".ttf" then str "font/ttf"
  else if extension = str ".pdf" then str "application/pdf"
  else if extension = str ".zip" then str "application/zip"
  else if extension = str ".tar" then str "application/x-tar"
  else if extension = str ".gz" then str "application/gzip"
  else if extension = str ".mp3" then str "audio/mpeg"
  else if extension = str ".mp4" then str "video/mp4"
  else if extension = str ".webm" then str "video/webm"
  else str "application/octet-stream"

/-- Function `MimeTypes::getExtension`. -/
def getExtension (path : Str) : Str :=
  match rfindChar 46 path with
  | none => []
  | some pos => substrFrom path pos

/-- The freshly constructed `Request`. -/
def Request.fresh : Request where
  method := []
  uri := []
  query_string := []
  version := str "HTTP/1.1"
  headers := []
  body := []
  content_length := 0
  is_chunked := false
  state := RequestState.REQUEST_LINE
  read_buffer := []
  body_bytes_received := 0
  error_code := 0

/-- The freshly constructed `Response`. -/
def Response.fresh : Response where
  status_code := 200
  status_message := str "OK"
  headers := []
  body := []
  send_buffer := []
  bytes_sent := 0
  is_ready := false
  is_complete := false

/-! ## Request.cpp -/

/-- Extraction `iss >> token` of a `std::string`: skips leading whitespace and
reads up to the next whitespace; fails (`none`) when no character is read.
Returns the token and the rest of the stream. -/
def extractToken (s : Str) : Option (Str × Str) :=
  let s1 := s.dropWhile isSpace
  let tok := s1.takeWhile (fun c => !isSpace c)
  if tok = [] then none else some (tok, s1.dropWhile (fun c => !isSpace c))

/-- The extraction `iss >> method >> uri >> version`. -/
def extract3 (line : Str) : Option (Str × Str × Str) :=
  match extractToken line with
  | none => none
  | some (method, r1) =>
    match extractToken r1 with
    | none => none
    | some (uri, r2) =>
      match extractToken r2 with
      | none => none
      | some (version, _) => some (method, uri, version)

/-- Method `Request::parseRequestLine`. -/
def Request.parseRequestLine (line : Str) (r : Request) : Bool × Request :=
  if line.length > MAX_URI_LENGTH then (false, { r with error_code := 414 })
  else
    match extract3 line with
    | none => (false, { r with error_code := 400 })
    | some (method, uri, version) =>
      if method ≠ str "GET" ∧ method ≠ str "POST" ∧ method ≠ str "DELETE" then
        (false, { r with error_code := 405 })
      else if version ≠ str "HTTP/1.0" ∧ version ≠ str "HTTP/1.1" then
        (false, { r with error_code := 400 })
      else
        match findChar 63 uri with
        | some pos =>
          (true, { r with method := method, version := version,
                          uri := substr uri 0 pos, query_string := substrFrom uri (pos + 1) })
        | none =>
          (true, { r with method := method, version := version,
                          uri := uri, query_string := [] })

/-- The call `value.find_first_not_of(" \t")`. -/
def findFirstNotSpaceTab : Str → Option Nat
  | [] => none
  | c :: rest =>
    if c = 32 ∨ c = 9 then (findFirstNotSpaceTab rest).map (· + 1) else some 0

/-- The digit loop of `strtol` in base 10: the magnitude read so far. -/
def decDigits : Str → Nat → Nat
  | [], acc => acc
  | c :: rest, acc =>
    if 48 ≤ c ∧ c ≤ 57 then decDigits rest (acc * 10 + (c - 48)) else acc

/-- The value of a hexadecimal digit. -/
def hexDigitVal (c : Nat) : Option Nat :=
  if 48 ≤ c ∧ c ≤ 57 then some (c - 48)
  else if 97 ≤ c ∧ c ≤ 102 then some (c - 87)
  else if 65 ≤ c ∧ c ≤ 70 then some (c - 55)
  else none

/-- The digit loop of `strtol` in base 16: the magnitude read so far. -/
def hexDigits : Str → Nat → Nat
  | [], acc => acc
  | c :: rest, acc =>
    match hexDigitVal c with
    | some d => hexDigits rest (acc * 16 + d)
    | none => acc

/-- The result of `strtol` for a sign and a magnitude: out-of-range values are
clamped to `LONG_MIN` and `LONG_MAX`. -/
def clampLong (neg : Bool) (mag : Nat) : Int :=
  if neg then (if mag > 2 ^ 63 then LONG_MIN else -(mag : Int))
  else (if (mag : Int) > LONG_MAX then LONG_MAX else (mag : Int))

/-- The C function `atol` (`strtol` in base 10). -/
def atol (s : Str) : Int :=
  match s.dropWhile isSpace with
  | 45 :: rest => clampLong true (decDigits rest 0)
  | 43 :: rest => clampLong false (decDigits rest 0)
  | s1 => clampLong false (decDigits s1 0)

/-- The optional `0x` of `strtol` in base 16, then the digit loop. -/
def hexBody : Str → Nat
  | 48 :: x :: rest => if x = 120 ∨ x = 88 then hexDigits rest 0 else hexDigits (48 :: x :: rest) 0
  | s => hexDigits s 0

/-- The call `strtol(s, NULL, 16)`. -/
def strtol16 (s : Str) : Int :=
  match s.dropWhile isSpace with
  | 45 :: rest => clampLong true (hexBody rest)
  | 43 :: rest => clampLong false (hexBody rest)
  | s1 => clampLong false (hexBody s1)

/-- Method `Request::parseHeader`. -/
def Request.parseHeader (line : Str) (r : Request) : Bool × Request :=
  match findChar 58 line with
  | none => (false, { r with error_code := 400 })
  | some pos =>
    let name := substr line 0 pos
    let value0 := substrFrom line (pos + 1)
    let value :=
      match findFirstNotSpaceTab value0 with
      | some start => substrFrom value0 start
      | none => value0
    let name_lower := name.map toLower
    let r1 := { r with headers := mapSet name value r.headers }
    if name_lower = str "content-length" then
      (true, { r1 with content_length := toSizeT (atol value) })
    else if name_lower = str "transfer-encoding" then
      if containsSub (str "chunked") (value.map toLower) then
        (true, { r1 with is_chunked := true })
      else (true, r1)
    else (true, r1)

/-- Method `Request::parseBody`. -/
def Request.parseBody (r : Request) : Bool × Request :=
  let remaining := (r.content_length + SIZE_MOD - r.body_bytes_received % SIZE_MOD) % SIZE_MOD
  let available := r.read_buffer.length
  let to_read := min remaining available
  let r1 := { r with body := r.body ++ substr r.read_buffer 0 to_read,
                     read_buffer := erase0 r.read_buffer to_read,
                     body_bytes_received := (r.body_bytes_received + to_read) % SIZE_MOD }
  if r1.body_bytes_received ≥ r1.content_length then
    (true, { r1 with state := RequestState.COMPLETE })
  else (false, r1)

/-- Method `Request::parseChunkedBody`; the fuel bounds the iterations of its
`while (true)` loop. -/
def Request.parseChunkedBody : Nat → Request → Option (Bool × Request)
  | 0, _ => none
  | fuel + 1, r =>
    match findCRLF r.read_buffer with
    | none => some (false, r)
    | some pos =>
      let size_str := substr r.read_buffer 0 pos
      let chunk_size := toSizeT (strtol16 size_str)
      if chunk_size = 0 then
        let buf1 := erase0 r.read_buffer (pos + 2)
        let buf2 := if buf1.length ≥ 2 ∧ substr buf1 0 2 = CRLF then erase0 buf1 2 else buf1
        some (true, { r with read_buffer := buf2, state := RequestState.COMPLETE })
      else if r.read_buffer.length < (pos + 2 + chunk_size + 2) % SIZE_MOD then
        some (false, r)
      else
        Request.parseChunkedBody fuel
          { r with body := r.body ++ substr r.read_buffer (pos + 2) chunk_size,
                   read_buffer := erase0 r.read_buffer ((pos + 2 + chunk_size + 2) % SIZE_MOD) }

/-- The state loop of `Request::parse`; the fuel bounds its iterations. -/
def Request.parseLoop : Nat → Request → Option (Bool × Request)
  | 0, _ => none
  | fuel + 1, r =>
    match r.state with
    | RequestState.COMPLETE => some (true, r)
    | RequestState.ERROR => some (false, r)
    | RequestState.REQUEST_LINE =>
      match findCRLF r.read_buffer with
      | none => some (false, r)
      | some pos =>
        let line := substr r.read_buffer 0 pos
        let r1 := { r with read_buffer := erase0 r.read_buffer (pos + 2) }
        match Request.parseRequestLine line r1 with
        | (false, r2) => some (false, { r2 with state := RequestState.ERROR })
        | (true, r2) => Request.parseLoop fuel { r2 with state := RequestState.HEADERS }
    | RequestState.HEADERS =>
      match findCRLF r.read_buffer with
      | none => some (false, r)
      | some pos =>
        if pos = 0 then
          let r1 := { r with read_buffer := erase0 r.read_buffer 2 }
          if r1.content_length > 0 then
            Request.parseLoop fuel { r1 with state := RequestState.BODY }
          else if r1.is_chunked then
            Request.parseLoop fuel { r1 with state := RequestState.CHUNKED_BODY }
          else
            Request.parseLoop fuel { r1 with state := RequestState.COMPLETE }
        else
          let line := substr r.read_buffer 0 pos
          let r1 := { r with read_buffer := erase0 r.read_buffer (pos + 2) }
          match Request.parseHeader line r1 with
          | (false, r2) => some (false, { r2 with state := RequestState.ERROR })
          | (true, r2) => Request.parseLoop fuel r2
    | RequestState.BODY =>
      match Request.parseBody r with
      | (false, r1) => some (false, r1)
      | (true, r1) => Request.parseLoop fuel r1
    | RequestState.CHUNKED_BODY =>
      match Request.parseChunkedBody fuel r with
      | none => none
      | some (false, r1) => some (false, r1)
      | some (true, r1) => Request.parseLoop fuel r1

/-- Method `Request::parse` with an explicit bound on the loop iterations. -/
def Request.parseFuel (fuel : Nat) (raw_data : Str) (r : Request) : Option (Bool × Request) :=
  Request.parseLoop fuel { r with read_buffer := r.read_buffer ++ raw_data }

/-- Method `Request::parse`: appends the data to the buffer and runs the state
loop. Every iteration that does not return consumes buffered bytes or moves
the state forward, so the buffer length plus four bounds the iterations of a
terminating call; `none` stands for a call that does not return. -/
def Request.parse (raw_data : Str) (r : Request) : Option (Bool × Request) :=
  Request.parseFuel (r.read_buffer.length + raw_data.length + 4) raw_data r

/-- Successive calls of `parse` on the fragments of a list, in order. -/
def Request.parseAll : List Str → Request → Option Request
  | [], r => some r
  | d :: ds, r =>
    match Request.parse d r with
    | none => none
    | some (_, r1) => Request.parseAll ds r1

/-- Method `Request::getHeader`. -/
def Request.getHeader (name : Str) (r : Request) : Str :=
  match mapFind name r.headers with
  | some v => v
  | none => []

/-- Method `Request::reset`: the assignments of `reset()` of the record. -/
def Request.reset (r : Request) : Request :=
  { r with method := [],
           uri := [],
           query_string := [],
           version := str "HTTP/1.1",
           headers := [],
           body := [],
           content_length := 0,
           is_chunked := false,
           state := RequestState.REQUEST_LINE,
           read_buffer := [],
           body_bytes_received := 0,
           error_code := 0 }

/-! ## Router.cpp -/

/-- The kinds of response of the router. -/
inductive RouteType where
  | ROUTE_FILE
  | ROUTE_DIRECTORY
  | ROUTE_CGI
  | ROUTE_REDIRECT
  | ROUTE_ERROR
  deriving DecidableEq, Repr

/-- The record `RouteResult`. -/
structure RouteResult where
  type : RouteType
  filepath : Str
  cgi_interpreter : Str
  error_code : Int
  redirect_url : Str
  redirect_code : Int
  deriving DecidableEq, Repr

/-- The default-constructed `RouteResult`. -/
def RouteResult.fresh : RouteResult where
  type := RouteType.ROUTE_ERROR
  filepath := []
  cgi_interpreter := []
  error_code := 500
  redirect_url := []
  redirect_code := 0

/-- What `stat` reports for a path. -/
inductive FileKind where
  | absent
  | regular
  | directory
  deriving DecidableEq, Repr

/-- The filesystem as seen through `stat`. -/
abbrev FileSystem := Str → FileKind

/-- Method `Router::isDirectory`. -/
def isDirectory (fs : FileSystem) (path : Str) : Bool := fs path = FileKind.directory

/-- Method `Router::fileExists`. -/
def fileExists (fs : FileSystem) (path : Str) : Bool := fs path = FileKind.regular

/-- The two tests of the loop body of `Router::findBestMatch` for one location
path: `uri.compare(0, path.size(), path) == 0`, then the boundary test. -/
def locMatches (uri path : Str) : Bool :=
  (substr uri 0 path.length == path) &&
    (uri.length == path.length || path == str "/" || uri.getD path.length 0 == 47)

/-- The two tests of `locMatches` with the character access
`uri[path.size()]` checked: `none` stands for an access at an index that is
not below `uri.size()`. The tests are evaluated in the order of the source,
`||` and `&&` skipping their right operand when the left one decides. -/
def locMatchesChecked (uri path : Str) : Option Bool :=
  if substr uri 0 path.length == path then
    if uri.length == path.length then some true
    else if path == str "/" then some true
    else
      match uri.get? path.length with
      | some c => some (c == 47)
      | none => none
  else some false

/-- The loop of `Router::findBestMatch` from index `i` on; `best` is the
pointer `best_match`, held as the index of the entry together with the entry. -/
def findBestMatchLoop (uri : Str) :
    List LocationConfig → Nat → Option (Nat × LocationConfig) → Nat → Option (Nat × LocationConfig)
  | [], _, best, _ => best
  | loc :: rest, i, best, best_length =>
    if locMatches uri loc.path_url ∧ loc.path_url.length > best_length then
      findBestMatchLoop uri rest (i + 1) (some (i, loc)) loc.path_url.length
    else
      findBestMatchLoop uri rest (i + 1) best best_length

/-- Method `Router::findBestMatch`. -/
def findBestMatch (uri : Str) (server : ServerConfig) : Option (Nat × LocationConfig) :=
  findBestMatchLoop uri server.locations 0 none 0

/-- Method `Router::matchLocation`; a null `server` is `none`. The result is the
index of the selected entry of `server.locations` together with the entry. -/
def matchLocation (uri : Str) (server : Option ServerConfig) : Option (Nat × LocationConfig) :=
  match server with
  | none => none
  | some sv => findBestMatch uri sv

/-- Method `Router::isMethodAllowed` for a non-null location. -/
def isMethodAllowed (method : Str) (loc : LocationConfig) : Bool :=
  loc.methods.any (fun m => m == method)

/-- Method `Router::resolvePath` for a non-null location. -/
def resolvePath (uri : Str) (loc : LocationConfig) : Str :=
  let root0 := if loc.root_dir = [] then str "./www" else loc.root_dir
  let root :=
    if root0 ≠ [] ∧ root0.getD (root0.length - 1) 0 = 47 then substr root0 0 (root0.length - 1)
    else root0
  let relative_path :=
    if loc.path_url = str "/" then uri
    else if uri.length > loc.path_url.length then substrFrom uri loc.path_url.length
    else str "/"
  let relative_path1 :=
    if relative_path = [] ∨ relative_path.getD 0 0 ≠ 47 then str "/" ++ relative_path
    else relative_path
  root ++ relative_path1

/-- Method `Router::isCGI` for a non-null location. -/
def isCGI (path : Str) (loc : LocationConfig) : Bool :=
  if loc.cgi_handlers = [] then false
  else (mapFind (getExtension path) loc.cgi_handlers).isSome

/-- Method `Router::getCGIInterpreter` for a non-null location. -/
def getCGIInterpreter (filepath : Str) (loc : LocationConfig) : Str :=
  match mapFind (getExtension filepath) loc.cgi_handlers with
  | some v => v
  | none => []

/-- Method `Router::route`; the filesystem consulted by `stat` is a parameter. -/
def route (fs : FileSystem) (request : Request) (server : Option ServerConfig) : RouteResult :=
  let result := RouteResult.fresh
  match matchLocation request.uri server with
  | none => { result with type := RouteType.ROUTE_ERROR, error_code := 404 }
  | some (_, loc) =>
    if loc.redirect_url ≠ [] then
      { result with type := RouteType.ROUTE_REDIRECT,
                    redirect_url := loc.redirect_url,
                    redirect_code := if loc.redirect_code > 0 then loc.redirect_code else 302 }
    else if !isMethodAllowed request.method loc then
      { result with type := RouteType.ROUTE_ERROR, error_code := 405 }
    else
      let filepath := resolvePath request.uri loc
      let result1 := { result with filepath := filepath }
      if isCGI filepath loc then
        { result1 with type := RouteType.ROUTE_CGI,
                       cgi_interpreter := getCGIInterpreter filepath loc }
      else if isDirectory fs filepath then
        let index_path0 :=
          if filepath.getD (filepath.length - 1) 0 ≠ 47 then filepath ++ str "/" else filepath
        let index_path := index_path0 ++ loc.index
        if fileExists fs index_path then
          { result1 with type := RouteType.ROUTE_FILE, filepath := index_path }
        else if loc.autoindex then
          { result1 with type := RouteType.ROUTE_DIRECTORY }
        else
          { result1 with type := RouteType.ROUTE_ERROR, error_code := 403 }
      else if fileExists fs filepath then
        { result1 with type := RouteType.ROUTE_FILE }
      else
        { result1 with type := RouteType.ROUTE_ERROR, error_code := 404 }

/-! ## Response.cpp -/

/-- Method `Response::setStatus(int)`. -/
def Response.setStatus (code : Int) (r : Response) : Response :=
  { r with status_code := code, status_message := getMessage code }

/-- Method `Response::setStatus(int, const std::string&)`. -/
def Response.setStatusMsg (code : Int) (message : Str) (r : Response) : Response :=
  { r with status_code := code, status_message := message }

/-- Method `Response::setHeader`. -/
def Response.setHeader (name value : Str) (r : Response) : Response :=
  { r with headers := mapSet name value r.headers }

/-- Method `Response::setBody`. -/
def Response.setBody (body : Str) (r : Response) : Response :=
  { r with body := body }

/-- What opening and reading a file gives: its contents, `none` when the file
cannot be opened. -/
abbrev FileReader := Str → Option Str

/-- Method `Response::setBodyFromFile`; the files that `std::ifstream` can open
are a parameter. -/
def Response.setBodyFromFile (files : FileReader) (filepath : Str) (r : Response) : Response :=
  match files filepath with
  | none => { r.setStatus 404 with body := [] }
  | some contents =>
    let r1 := { r with body := contents }
    let ext := getExtension filepath
    r1.setHeader (str "Content-Type") (getType ext)

/-- Method `Response::buildStatusLine`. -/
def Response.buildStatusLine (r : Response) : Str :=
  str "HTTP/1.1 " ++ intToDec r.status_code ++ str " " ++ r.status_message ++ str "\r\n"

/-- The loop of `Response::buildHeaders` over the entries of the map: each
entry is written to the stream `oss`. -/
def buildHeadersLoop : StrMap → Str → Str
  | [], oss => oss
  | (first, second) :: rest, oss =>
    buildHeadersLoop rest (oss ++ first ++ str ": " ++ second ++ str "\r\n")

/-- Method `Response::buildHeaders`. -/
def Response.buildHeaders (r : Response) : Str :=
  let oss := buildHeadersLoop r.headers []
  let oss1 :=
    if mapFind (str "Content-Length") r.headers = none then
      oss ++ str "Content-Length: " ++ natToDec r.body.length ++ str "\r\n"
    else oss
  oss1 ++ str "\r\n"

/-- Method `Response::build`. -/
def Response.build (r : Response) : Response :=
  { r with send_buffer := r.buildStatusLine ++ r.buildHeaders ++ r.body,
           bytes_sent := 0,
           is_ready := true,
           is_complete := false }

/-- Method `Response::addBytesSent`; the sum is a `size_t`. -/
def Response.addBytesSent (bytes : Nat) (r : Response) : Response :=
  let r1 := { r with bytes_sent := (r.bytes_sent + bytes) % SIZE_MOD }
  if r1.bytes_sent ≥ r1.send_buffer.length then { r1 with is_complete := true } else r1

/-- Method `Response::markComplete`. -/
def Response.markComplete (r : Response) : Response :=
  { r with is_complete := true }

/-- Method `Response::reset`: the assignments of `reset()` of the record. -/
def Response.reset (r : Response) : Response :=
  { r with status_code := 200,
           status_message := str "OK",
           headers := [],
           body := [],
           send_buffer := [],
           bytes_sent := 0,
           is_ready := false,
           is_complete := false }

/-- Static method `Response::error`. -/
def Response.error (code : Int) : Response :=
  let res := Response.fresh
  let res1 := res.setStatus code
  let res2 := res1.setHeader (str "Content-Type") (str "text/html")
  let oss :=
    str "<!DOCTYPE html>\n" ++
    str "<html>\n" ++
    str "<head><title>" ++ intToDec code ++ str " " ++ getMessage code ++
      str "</title></head>\n" ++
    str "<body>\n" ++
    str "<h1>" ++ intToDec code ++ str " " ++ getMessage code ++ str "</h1>\n" ++
    str "</body>\n" ++
    str "</html>\n"
  let res3 := res2.setBody oss
  res3.build

/-- Successive calls of `addBytesSent`, in order. -/
def Response.addBytesSentAll : List Nat → Response → Response
  | [], r => r
  | n :: ns, r => Response.addBytesSentAll ns (r.addBytesSent n)

/-! ## Default configurations -/

/-- The default-constructed `LocationConfig`. -/
def LocationConfig.fresh : LocationConfig where
  path_url := []
  root_dir := []
  methods := [str "GET"]
  index := str "index.html"
  autoindex := false
  cgi_handlers := []
  upload_dir := []
  redirect_url := []
  redirect_code := 0
  max_body_size := 1048576

/-- The default-constructed `ServerConfig`. -/
def ServerConfig.fresh : ServerConfig where
  ip_address := str "0.0.0.0"
  listen_port := 8080
  server_name := []
  root_dir := str "./www"
  error_pages := []
  max_body_size := 1048576
  locations := []

/-! ## Notions used in the statements and proofs -/

/-- The matching rule of a location path against a uri. -/
def MatchRule (uri path : Str) : Prop :=
  path <+: uri ∧ (uri = path ∨ path = str "/" ∨ uri.get? path.length = some 47)

instance (uri path : Str) : Decidable (MatchRule uri path) := by
  unfold MatchRule
  infer_instance

/-- Decimal notation of a natural number, most significant digit first. -/
def decimal (n : Nat) : Str :=
  if n = 0 then [48] else ((Nat.digits 10 n).map (· + 48)).reverse

/-- Decimal notation of an integer, with a minus sign when negative. -/
def decimalInt (n : Int) : Str :=
  if n < 0 then 45 :: decimal n.natAbs else decimal n.natAbs

/-- The lines of a byte string: the pieces between successive CR LF pairs;
`cur` is the beginning, already read, of the current line. -/
def splitCRLF : Str → Str → List Str
  | [], cur => [cur]
  | [a], cur => [cur ++ [a]]
  | a :: b :: rest, cur =>
    if a = 13 ∧ b = 10 then cur :: splitCRLF rest []
    else splitCRLF (b :: rest) (cur ++ [a])

/-- The header section of a serialized message: the lines after the first
line, up to the first empty line. -/
def headerSection (buf : Str) : List Str :=
  ((splitCRLF buf []).drop 1).takeWhile (fun l => decide (l ≠ []))

/-- The name of a header line: the text before its first ':'. -/
def lineName (l : Str) : Option Str :=
  (findChar 58 l).map (fun p => l.take p)

/-- A header line named Content-Length. -/
def isContentLengthLine (l : Str) : Bool :=
  decide (lineName l = some (str "Content-Length"))

/-- Position of a state on the chain
REQUEST_LINE -> HEADERS -> (BODY | CHUNKED_BODY) -> COMPLETE. -/
def chainRank : RequestState → Nat
  | RequestState.REQUEST_LINE => 0
  | RequestState.HEADERS => 1
  | RequestState.BODY => 2
  | RequestState.CHUNKED_BODY => 2
  | RequestState.COMPLETE => 3
  | RequestState.ERROR => 4

/-- The moves of the parse state allowed by the specification: staying,
moving forward along the chain, or leaving a non-terminal state for ERROR. -/
def StateMove (s t : RequestState) : Prop :=
  s = t ∨
  (s ≠ RequestState.ERROR ∧ t ≠ RequestState.ERROR ∧ chainRank s < chainRank t) ∨
  (s ≠ RequestState.COMPLETE ∧ s ≠ RequestState.ERROR ∧ t = RequestState.ERROR)

instance (s t : RequestState) : Decidable (StateMove s t) := by
  unfold StateMove
  infer_instance

/-- Successive calls of `parseHeader` on the lines of a list, in order. -/
def Request.parseHeaders : List Str → Request → Request
  | [], r => r
  | l :: ls, r => Request.parseHeaders ls (Request.parseHeader l r).2

/-- The fields of a Request that `parseRequestLine` and `parseHeader` never
touch are equal in two Requests. -/
def SameBodyState (r r2 : Request) : Prop :=
  r2.state = r.state ∧ r2.read_buffer = r.read_buffer ∧ r2.body = r.body ∧
  r2.body_bytes_received = r.body_bytes_received

/-- A header line as the parser accepts it: it contains ':' and no CR LF. -/
def HeaderLine (l : Str) : Prop := 58 ∈ l ∧ findCRLF l = none

instance (l : Str) : Decidable (HeaderLine l) := by
  unfold HeaderLine
  infer_instance

/-- The lines of a list, each followed by CR LF. -/
def joinLines (ls : List Str) : Str := (ls.map (fun l => l ++ CRLF)).flatten

/-- The character of a hexadecimal digit, with letters in upper or lower case. -/
def hexChar (upper : Bool) (d : Nat) : Nat :=
  if d < 10 then d + 48 else if upper then d + 55 else d + 87

/-- Hexadecimal notation of a natural number, most significant digit first. -/
def hexadecimal (upper : Bool) (n : Nat) : Str :=
  if n = 0 then [48] else ((Nat.digits 16 n).map (hexChar upper)).reverse

/-- The name of a header line, in lower case. -/
def lowerName (l : Str) : Option Str := (lineName l).map (fun n => n.map toLower)

/-- The text of a header line after its first ':'. -/
def afterColon (l : Str) : Str :=
  match findChar 58 l with
  | some p => l.drop (p + 1)
  | none => []

/-- One chunk of a chunked body: the hexadecimal length of the payload, CR LF,
the payload, CR LF. -/
def encodeChunk (upper : Bool) (p : Str) : Str :=
  hexadecimal upper p.length ++ CRLF ++ p ++ CRLF

/-- A chunked body: the chunks of the payloads, then the zero chunk and the
final CR LF. -/
def encodeChunked (upper : Bool) (ps : List Str) : Str :=
  (ps.map (encodeChunk upper)).flatten ++ str "0\r\n\r\n"

/-- The whitespace-separated tokens of a line after the token `cur` begun so
far. -/
def tokensAux : Str → Str → List Str
  | [], cur => if cur = [] then [] else [cur]
  | c :: rest, cur =>
    if isSpace c then (if cur = [] then tokensAux rest [] else cur :: tokensAux rest [])
    else tokensAux rest (cur ++ [c])

/-- The whitespace-separated tokens of a line. -/
def tokens (line : Str) : List Str := tokensAux line []

/-- A request line with at least three tokens, the first one a method among
GET, POST, DELETE and the third one a version among HTTP/1.0, HTTP/1.1. -/
def RequestLineOK (line : Str) : Prop :=
  match tokens line with
  | m :: _ :: v :: _ =>
    (m = str "GET" ∨ m = str "POST" ∨ m = str "DELETE") ∧
    (v = str "HTTP/1.0" ∨ v = str "HTTP/1.1")
  | _ => False

instance (line : Str) : Decidable (RequestLineOK line) := by
  unfold RequestLineOK
  split <;> infer_instance

/-- The head of a message: a request line that is `RequestLineOK` and at most
`MAX_URI_LENGTH` bytes long, header lines that each contain ':', and the blank
line; each line is ended by the first CR LF after its beginning. -/
def AcceptedHead (s : Str) : Prop :=
  ∃ (line : Str) (hs : List Str) (rest : Str),
    s = line ++ CRLF ++ joinLines hs ++ CRLF ++ rest ∧
    findCRLF line = none ∧ line.length ≤ MAX_URI_LENGTH ∧ RequestLineOK line ∧
    ∀ h ∈ hs, HeaderLine h

/-- The request line and some header lines, as in `AcceptedHead`, without the
blank line. -/
def AcceptedLines (s : Str) : Prop :=
  ∃ (line : Str) (hs : List Str),
    s = line ++ CRLF ++ joinLines hs ∧
    findCRLF line = none ∧ line.length ≤ MAX_URI_LENGTH ∧ RequestLineOK line ∧
    ∀ h ∈ hs, HeaderLine h

/-- What the parser has consumed of the input `inp` in the state of `r`: the
input is the consumed bytes followed by the carry-over buffer, nothing is
consumed in state REQUEST_LINE, the consumed bytes are accepted lines in state
HEADERS and begin with an accepted head in the states BODY, CHUNKED_BODY and
COMPLETE. -/
def ParseInv (inp : Str) (r : Request) : Prop :=
  ∃ consumed : Str, inp = consumed ++ r.read_buffer ∧
    (r.state = RequestState.REQUEST_LINE → consumed = []) ∧
    (r.state = RequestState.HEADERS → AcceptedLines consumed) ∧
    (r.state = RequestState.BODY ∨ r.state = RequestState.CHUNKED_BODY ∨
      r.state = RequestState.COMPLETE → AcceptedHead consumed)

/-- Fuel that suffices for the state loop on `r` whenever the loop ends. -/
def loopFuel (r : Request) : Nat :=
  r.read_buffer.length +
    (if r.state = RequestState.COMPLETE ∨ r.state = RequestState.ERROR then 1 else 2)

/-- A call of a public operation of `Response`. -/
inductive ResponseOp where
  | setStatus (code : Int)
  | setStatusMsg (code : Int) (message : Str)
  | setHeader (name value : Str)
  | setBody (body : Str)
  | setBodyFromFile (filepath : Str)
  | build
  | addBytesSent (bytes : Nat)
  | markComplete
  | reset
  deriving DecidableEq, Repr

/-- The effect of one call of a public operation. -/
def Response.apply (files : FileReader) (op : ResponseOp) (r : Response) : Response :=
  match op with
  | ResponseOp.setStatus code => r.setStatus code
  | ResponseOp.setStatusMsg code message => r.setStatusMsg code message
  | ResponseOp.setHeader name value => r.setHeader name value
  | ResponseOp.setBody body => r.setBody body
  | ResponseOp.setBodyFromFile filepath => r.setBodyFromFile files filepath
  | ResponseOp.build => r.build
  | ResponseOp.addBytesSent bytes => r.addBytesSent bytes
  | ResponseOp.markComplete => r.markComplete
  | ResponseOp.reset => r.reset

/-- The effect of successive calls of public operations, in order. -/
def Response.run (files : FileReader) : List ResponseOp → Response → Response
  | [], r => r
  | op :: ops, r => Response.run files ops (Response.apply files op r)

/-- No call of a list is `markComplete`, and no `addBytesSent` call of the run
from `r` takes `bytes_sent` to `2 ^ 64` or beyond. -/
def Response.plainRun (files : FileReader) : List ResponseOp → Response → Prop
  | [], _ => True
  | op :: ops, r =>
    (match op with
      | ResponseOp.markComplete => False
      | ResponseOp.addBytesSent bytes => r.bytes_sent + bytes < SIZE_MOD
      | _ => True) ∧
    Response.plainRun files ops (Response.apply files op r)

instance plainRunDecidable (files : FileReader) :
    (ops : List ResponseOp) → (r : Response) → Decidable (Response.plainRun files ops r)
  | [], _ => isTrue trivial
  | op :: ops, r =>
    match plainRunDecidable files ops (Response.apply files op r) with
    | isTrue h2 =>
      match op with
      | ResponseOp.markComplete => isFalse (fun h => h.1)
      | ResponseOp.addBytesSent bytes =>
        if h1 : r.bytes_sent + bytes < SIZE_MOD then isTrue ⟨h1, h2⟩
        else isFalse (fun h => h1 h.1)
      | ResponseOp.setStatus _ => isTrue ⟨trivial, h2⟩
      | ResponseOp.setStatusMsg _ _ => isTrue ⟨trivial, h2⟩
      | ResponseOp.setHeader _ _ => isTrue ⟨trivial, h2⟩
      | ResponseOp.setBody _ => isTrue ⟨trivial, h2⟩
      | ResponseOp.setBodyFromFile _ => isTrue ⟨trivial, h2⟩
      | ResponseOp.build => isTrue ⟨trivial, h2⟩
      | ResponseOp.reset => isTrue ⟨trivial, h2⟩
    | isFalse h2 => isFalse (fun h => h2 h.2)

/-- A root directory with one trailing '/' removed if present. -/
def stripSlash (root : Str) : Str :=
  if root.getLast? = some 47 then root.dropLast else root

/-- The remainder of a uri for a location path: the uri without the first
bytes that the path covers (the whole uri when the path is "/"), replaced by
"/" when empty and given a leading '/' when it does not begin with one. -/
def uriRemainder (uri path : Str) : Str :=
  let rem := if path = str "/" then uri else uri.drop path.length
  if rem = [] then str "/"
  else if rem.head? = some 47 then rem
  else str "/" ++ rem

/-- The path of the index file of a directory: the path of the directory, a
'/' if it does not end with one, then the index name. -/
def indexPath (dir index : Str) : Str :=
  (if dir.getLast? = some 47 then dir else dir ++ str "/") ++ index

/-- The input holds a first CR LF and more than `MAX_URI_LENGTH` bytes before
it: its request line is too long. -/
def LongRequestLine (input : Str) : Prop :=
  match findCRLF input with
  | some p => MAX_URI_LENGTH < p
  | none => False

instance (input : Str) : Decidable (LongRequestLine input) := by
  unfold LongRequestLine
  split <;> infer_instance

/-- A value without its leading spaces and tabs. -/
def trimLeft (v : Str) : Str := v.dropWhile (fun c => decide (c = 32 ∨ c = 9))

/-- The value that `parseHeader` computes for a header line: the local
variable `value` after the trimming step. -/
def headerValue (l : Str) : Str :=
  match findFirstNotSpaceTab (afterColon l) with
  | some start => substrFrom (afterColon l) start
  | none => afterColon l

/-- The state that the blank line after the headers selects. -/
def nextState (r : Request) : RequestState :=
  if r.content_length > 0 then RequestState.BODY
  else if r.is_chunked = true then RequestState.CHUNKED_BODY
  else RequestState.COMPLETE

/-- A call of `parse` or of `reset` on a Request. -/
inductive RequestOp where
  | parse (raw_data : Str)
  | reset
  deriving DecidableEq, Repr

/-- The effect of one call; `none` stands for a call of `parse` that does not
return. -/
def Request.applyOp (op : RequestOp) (r : Request) : Option Request :=
  match op with
  | RequestOp.parse raw_data => (Request.parse raw_data r).map Prod.snd
  | RequestOp.reset => some r.reset

/-- The effect of successive calls of `parse` and `reset`, in order. -/
def Request.run : List RequestOp → Request → Option Request
  | [], r => some r
  | op :: ops, r =>
    match Request.applyOp op r with
    | none => none
    | some r1 => Request.run ops r1

/-- The value of the last line of a list whose name is exactly `n`. -/
def lastValue (n : Str) (ls : List Str) : Option Str :=
  ((ls.filter (fun l => decide (lineName l = some n))).getLast?).map headerValue

/-- Whether `build` was called since the construction or the last `reset`;
`b` is the answer before the calls of the list. -/
def builtSinceReset : List ResponseOp → Bool → Bool
  | [], b => b
  | ResponseOp.build :: ops, _ => builtSinceReset ops true
  | ResponseOp.reset :: ops, _ => builtSinceReset ops false
  | _ :: ops, b => builtSinceReset ops b

/-- The table of `MimeTypes::getType`: extensions and their types. -/
def mimeTable : List (Str × Str) :=
  [(str ".html", str "text/html"), (str ".htm", str "text/html"),
   (str ".css", str "text/css"), (str ".js", str "application/javascript"),
   (str ".json", str "application/json"), (str ".xml", str "application/xml"),
   (str ".txt", str "text/plain"), (str ".png", str "image/png"),
   (str ".jpg", str "image/jpeg"), (str ".jpeg", str "image/jpeg"),
   (str ".gif", str "image/gif"), (str ".ico", str "image/x-icon"),
   (str ".svg", str "image/svg+xml"), (str ".webp", str "image/webp"),
   (str ".woff", str "font/woff"), (str ".woff2", str "font/woff2"),
   (str ".ttf", str "font/ttf"), (str ".pdf", str "application/pdf"),
   (str ".zip", str "application/zip"), (str ".tar", str "application/x-tar"),
   (str ".gz", str "application/gzip"), (str ".mp3", str "audio/mpeg"),
   (str ".mp4", str "video/mp4"), (str ".webm", str "video/webm")]

/-- The steps of the state loop, and a change of the carry-over buffer, keep
the property `P` of a Request. -/
def StepInvariant (P : Request → Prop) : Prop :=
  (∀ (r : Request) (buf : Str), P r → P { r with read_buffer := buf }) ∧
  (∀ (r : Request) (line buf : Str), r.state = RequestState.REQUEST_LINE → P r →
    P { (Request.parseRequestLine line { r with read_buffer := buf }).2 with
        state := if (Request.parseRequestLine line { r with read_buffer := buf }).1 = true
          then RequestState.HEADERS else RequestState.ERROR }) ∧
  (∀ (r : Request) (buf : Str), r.state = RequestState.HEADERS → P r →
    P { r with read_buffer := buf, state := nextState r }) ∧
  (∀ (r : Request) (line buf : Str), r.state = RequestState.HEADERS → P r →
    P { (Request.parseHeader line { r with read_buffer := buf }).2 with
        state := if (Request.parseHeader line { r with read_buffer := buf }).1 = true
          then RequestState.HEADERS else RequestState.ERROR }) ∧
  (∀ r : Request, r.state = RequestState.BODY → P r → P (Request.parseBody r).2) ∧
  (∀ (r : Request) (f : Nat) (b : Bool) (r2 : Request),
    r.state = RequestState.CHUNKED_BODY → P r →
    Request.parseChunkedBody f r = some (b, r2) → P r2)

/-- What holds of the body counters in every state of the parser. -/
def BodyInv (r : Request) : Prop :=
  r.body_bytes_received ≤ r.content_length ∧ r.content_length < SIZE_MOD ∧
  (r.state = RequestState.REQUEST_LINE ∨ r.state = RequestState.HEADERS ∨
    r.state = RequestState.ERROR → r.body_bytes_received = 0 ∧ r.body = []) ∧
  (r.state = RequestState.BODY →
    r.body_bytes_received = r.body.length ∧ r.body_bytes_received < r.content_length) ∧
  (r.state = RequestState.CHUNKED_BODY → r.content_length = 0 ∧ r.is_chunked = true) ∧
  (r.state = RequestState.COMPLETE →
    (0 < r.content_length →
      r.body_bytes_received = r.content_length ∧ r.body_bytes_received = r.body.length) ∧
    (r.content_length = 0 → r.is_chunked = false → r.body = []))

/-- What holds of the error code in every state of the parser. -/
def ErrorInv (r : Request) : Prop :=
  (r.state = RequestState.ERROR ↔ r.error_code ≠ 0) ∧
  (r.error_code = 0 ∨ r.error_code = 400 ∨ r.error_code = 405 ∨ r.error_code = 414)

/-- The table of `HttpStatus::getMessage`: codes and their reason phrases. -/
def statusTable : List (Int × Str) :=
  [(200, str "OK"), (201, str "Created"), (204, str "No Content"),
   (301, str "Moved Permanently"), (302, str "Found"), (400, str "Bad Request"),
   (403, str "Forbidden"), (404, str "Not Found"), (405, str "Method Not Allowed"),
   (408, str "Request Timeout"), (413, str "Payload Too Large"), (414, str "URI Too Long"),
   (500, str "Internal Server Error"), (501, str "Not Implemented"),
   (502, str "Bad Gateway"), (504, str "Gateway Timeout")]

/-- The file name of a path: its last '/'-separated component. -/
def fileName (path : Str) : Str :=
  match rfindChar 47 path with
  | some p => path.drop (p + 1)
  | none => path

/-- The extension of the file name of a path: the suffix of the file name from
its last '.', empty when the file name holds no '.'. -/
def fileExtension (path : Str) : Str :=
  match rfindChar 46 (fileName path) with
  | some p => (fileName path).drop p
  | none => []

/-- A buffer begins with a chunk-size line on which the chunk loop makes no
progress: the size is not zero and the number of bytes to remove, the length
of the line plus 2 plus the size plus 2 as a `size_t`, is zero. -/
def stuckLine (s : Str) : Bool :=
  match findCRLF s with
  | some pos =>
    decide (toSizeT (strtol16 (substr s 0 pos)) ≠ 0 ∧
      (pos + 2 + toSizeT (strtol16 (substr s 0 pos)) + 2) % SIZE_MOD = 0)
  | none => false

/-! ## Router and Response: theorems -/

theorem locMatches_iff (uri path : Str) : locMatches uri path = true ↔ MatchRule uri path := by
  unfold locMatches MatchRule substr
  simp only [List.drop_zero, Bool.and_eq_true, Bool.or_eq_true, beq_iff_eq]
  constructor
  · rintro ⟨h1, h2⟩
    have hp : path <+: uri := by rw [← h1]; exact List.take_prefix _ _
    refine ⟨hp, ?_⟩
    rcases h2 with (h | h) | h
    · left
      exact (List.IsPrefix.eq_of_length hp h.symm).symm
    · right; left; exact h
    · by_cases hlt : path.length < uri.length
      · right; right
        rw [List.getD_eq_getElem _ _ hlt] at h
        simp [List.get?_eq_getElem?, List.getElem?_eq_getElem hlt, h]
      · rw [List.getD_eq_default _ _ (by omega)] at h
        omega
  · rintro ⟨hp, h2⟩
    refine ⟨List.prefix_iff_eq_take.mp hp |>.symm, ?_⟩
    rcases h2 with h | h | h
    · left; left; rw [h]
    · left; right; exact h
    · right
      rw [List.get?_eq_getElem?] at h
      have hlt : path.length < uri.length := by
        by_contra hc
        rw [List.getElem?_eq_none (by omega)] at h
        exact absurd h (by simp)
      rw [List.getD_eq_getElem _ _ hlt]
      rw [List.getElem?_eq_getElem hlt] at h
      exact Option.some.inj h

theorem findBestMatchLoop_spec (uri : Str) :
    ∀ (ls : List LocationConfig) (i : Nat) (best : Option (Nat × LocationConfig)) (bl : Nat)
      (j : Nat) (L : LocationConfig),
      findBestMatchLoop uri ls i best bl = some (j, L) →
      (best = some (j, L) ∧ ∀ M ∈ ls, MatchRule uri M.path_url → M.path_url.length ≤ bl) ∨
      (∃ k, j = i + k ∧ ls[k]? = some L ∧ MatchRule uri L.path_url ∧ bl < L.path_url.length ∧
        (∀ M ∈ ls, MatchRule uri M.path_url → M.path_url.length ≤ L.path_url.length) ∧
        (∀ k2 M, ls[k2]? = some M → MatchRule uri M.path_url →
          M.path_url.length = L.path_url.length → k ≤ k2)) := by
  intro ls
  induction ls with
  | nil =>
    intro i best bl j L h
    left
    simp only [findBestMatchLoop] at h
    exact ⟨h, by simp⟩
  | cons loc rest ih =>
    intro i best bl j L h
    rw [findBestMatchLoop] at h
    split at h
    · rename_i hc
      obtain ⟨hm, hlen⟩ := hc
      rw [locMatches_iff] at hm
      right
      rcases ih (i + 1) _ _ j L h with ⟨hb, hall⟩ | ⟨k, hj, hk, hmL, hlt, hall, hfirst⟩
      · simp only [Option.some.injEq, Prod.mk.injEq] at hb
        obtain ⟨rfl, rfl⟩ := hb
        refine ⟨0, rfl, by simp, hm, hlen, ?_, fun _ _ _ _ _ => Nat.zero_le _⟩
        intro M hM hMm
        rcases List.mem_cons.mp hM with rfl | hM
        · exact le_refl _
        · exact hall M hM hMm
      · refine ⟨k + 1, by omega, by simpa using hk, hmL, by omega, ?_, ?_⟩
        · intro M hM hMm
          rcases List.mem_cons.mp hM with rfl | hM
          · omega
          · exact hall M hM hMm
        · intro k2 M hk2 hMm hMl
          cases k2 with
          | zero =>
            simp only [List.getElem?_cons_zero, Option.some.injEq] at hk2
            subst hk2
            omega
          | succ k3 =>
            have := hfirst k3 M (by simpa using hk2) hMm hMl
            omega
    · rename_i hc
      have hloc : MatchRule uri loc.path_url → loc.path_url.length ≤ bl := by
        intro hm
        by_contra hgt
        exact hc ⟨(locMatches_iff _ _).mpr hm, by omega⟩
      rcases ih (i + 1) _ _ j L h with ⟨hb, hall⟩ | ⟨k, hj, hk, hmL, hlt, hall, hfirst⟩
      · left
        refine ⟨hb, ?_⟩
        intro M hM hMm
        rcases List.mem_cons.mp hM with rfl | hM
        · exact hloc hMm
        · exact hall M hM hMm
      · right
        refine ⟨k + 1, by omega, by simpa using hk, hmL, hlt, ?_, ?_⟩
        · intro M hM hMm
          rcases List.mem_cons.mp hM with rfl | hM
          · have := hloc hMm; omega
          · exact hall M hM hMm
        · intro k2 M hk2 hMm hMl
          cases k2 with
          | zero =>
            simp only [List.getElem?_cons_zero, Option.some.injEq] at hk2
            subst hk2
            have := hloc hMm
            omega
          | succ k3 =>
            have := hfirst k3 M (by simpa using hk2) hMm hMl
            omega

/-- Claim C2. Whenever `matchLocation` returns the entry `L` at index `i` of
`server.locations`: (1) `L.path_url` matches the uri under the matching rule
(a prefix of the uri; the uri equals it, or it is "/", or the next character of
the uri is '/'); (2) no matching entry has a strictly longer `path_url`;
(3) among the matching entries of that length, `L` is the first in
configuration order. With locations "/" and "/images", in either order,
"/images/a.png" selects "/images" and "/imagesx" selects "/". -/
theorem matchLocation_longest_first :
    (∀ (uri : Str) (server : ServerConfig) (i : Nat) (L : LocationConfig),
      matchLocation uri (some server) = some (i, L) →
      server.locations[i]? = some L ∧
      MatchRule uri L.path_url ∧
      (∀ M ∈ server.locations, MatchRule uri M.path_url →
        M.path_url.length ≤ L.path_url.length) ∧
      (∀ j M, server.locations[j]? = some M → MatchRule uri M.path_url →
        M.path_url.length = L.path_url.length → i ≤ j)) ∧
    (∀ (server : ServerConfig) (l0 l1 : LocationConfig),
      l0.path_url = str "/" → l1.path_url = str "/images" →
      (server.locations = [l0, l1] →
        matchLocation (str "/images/a.png") (some server) = some (1, l1) ∧
        matchLocation (str "/imagesx") (some server) = some (0, l0)) ∧
      (server.locations = [l1, l0] →
        matchLocation (str "/images/a.png") (some server) = some (0, l1) ∧
        matchLocation (str "/imagesx") (some server) = some (1, l0))) := by
  refine ⟨?_, ?_⟩
  · intro uri server i L h
    simp only [matchLocation, findBestMatch] at h
    rcases findBestMatchLoop_spec uri _ 0 none 0 i L h with ⟨hb, _⟩ | ⟨k, hj, hk, hm, _, hall, hfirst⟩
    · exact absurd hb (by simp)
    · have hik : i = k := by omega
      subst hik
      exact ⟨hk, hm, hall, hfirst⟩
  · intro server l0 l1 h0 h1
    constructor
    · intro hl
      simp only [matchLocation, findBestMatch, hl, findBestMatchLoop, h0, h1]
      constructor
      · rw [if_pos (by decide), if_pos (by decide)]
      · rw [if_pos (by decide), if_neg (by decide)]
    · intro hl
      simp only [matchLocation, findBestMatch, hl, findBestMatchLoop, h0, h1]
      constructor
      · rw [if_pos (by decide), if_neg (by decide)]
      · rw [if_neg (by decide), if_pos (by decide)]

theorem natToDecAux_eq (fuel : Nat) :
    ∀ (n : Nat) (acc : Str), 0 < n → n < fuel →
      natToDecAux fuel n acc = ((Nat.digits 10 n).map (· + 48)).reverse ++ acc := by
  induction fuel with
  | zero => intro n acc _ h; omega
  | succ f ih =>
    intro n acc hpos hlt
    rw [natToDecAux]
    by_cases h10 : n < 10
    · rw [if_pos h10, Nat.digits_of_lt 10 n (by omega) h10]
      simp [Nat.add_comm]
    · rw [if_neg h10]
      have hdiv : 0 < n / 10 := Nat.div_pos (by omega) (by omega)
      have hlt2 : n / 10 < f := by
        have := Nat.div_lt_self hpos (by omega : 1 < 10)
        omega
      rw [ih (n / 10) _ hdiv hlt2]
      rw [Nat.digits_def' (by omega : 1 < 10) hpos]
      simp [Nat.add_comm]

theorem natToDec_eq_decimal (n : Nat) : natToDec n = decimal n := by
  unfold natToDec decimal
  by_cases h : n = 0
  · subst h; rfl
  · rw [if_neg h, natToDecAux_eq (n + 1) n [] (by omega) (by omega)]
    simp

theorem intToDec_eq_decimalInt (n : Int) : intToDec n = decimalInt n := by
  unfold intToDec decimalInt
  simp only [natToDec_eq_decimal]

theorem buildHeadersLoop_eq (hs : StrMap) :
    ∀ oss : Str, buildHeadersLoop hs oss =
      oss ++ (hs.map (fun h => h.1 ++ str ": " ++ h.2 ++ str "\r\n")).flatten := by
  induction hs with
  | nil => intro oss; simp [buildHeadersLoop]
  | cons h rest ih =>
    intro oss
    obtain ⟨a, b⟩ := h
    rw [buildHeadersLoop, ih]
    simp [List.append_assoc]

theorem mapFind_eq_none_iff (k : Str) (m : StrMap) :
    mapFind k m = none ↔ ∀ h ∈ m, h.1 ≠ k := by
  induction m with
  | nil => simp [mapFind]
  | cons h rest ih =>
    obtain ⟨a, b⟩ := h
    rw [mapFind]
    by_cases hk : a = k
    · simp [hk]
    · simp [hk, ih]

/-- Claim C8. After `build()` the send buffer is the status line
"HTTP/1.1 " ++ decimal(status_code) ++ " " ++ status_message ++ CRLF, then one
line name ++ ": " ++ value ++ CRLF for every header of the map (in the order of
the map), then "Content-Length: " ++ decimal(body length) ++ CRLF only if no
header is named Content-Length, then CRLF, then the body; `bytes_sent` is 0
and the ready flag is true. -/
theorem build_send_buffer (r : Response) :
    (r.build).send_buffer =
      str "HTTP/1.1 " ++ decimalInt r.status_code ++ str " " ++ r.status_message ++ str "\r\n"
        ++ (r.headers.map (fun h => h.1 ++ str ": " ++ h.2 ++ str "\r\n")).flatten
        ++ (if ∃ h ∈ r.headers, h.1 = str "Content-Length" then []
            else str "Content-Length: " ++ decimal r.body.length ++ str "\r\n")
        ++ str "\r\n" ++ r.body ∧
    (r.build).bytes_sent = 0 ∧ (r.build).is_ready = true := by
  refine ⟨?_, rfl, rfl⟩
  simp only [Response.build, Response.buildStatusLine, Response.buildHeaders,
    buildHeadersLoop_eq, intToDec_eq_decimalInt, natToDec_eq_decimal, List.nil_append]
  by_cases hcl : ∃ h ∈ r.headers, h.1 = str "Content-Length"
  · have hne : ¬ mapFind (str "Content-Length") r.headers = none := by
      rw [mapFind_eq_none_iff]
      push_neg
      exact hcl
    rw [if_pos hcl, if_neg hne]
    simp [List.append_assoc]
  · have hn : mapFind (str "Content-Length") r.headers = none := by
      rw [mapFind_eq_none_iff]
      push_neg at hcl
      exact hcl
    rw [if_neg hcl, if_pos hn]
    simp [List.append_assoc]

/-- Claim C3. When the matched location has a non-empty `redirect_url`, `route`
returns a `ROUTE_REDIRECT` result carrying that url, with the location's
`redirect_code` if it is positive and 302 otherwise, for every method, every
list of allowed methods, every CGI map and every filesystem. -/
theorem route_redirect (fs : FileSystem) (request : Request) (server : Option ServerConfig)
    (i : Nat) (loc : LocationConfig)
    (hmatch : matchLocation request.uri server = some (i, loc))
    (hredir : loc.redirect_url ≠ []) :
    (route fs request server).type = RouteType.ROUTE_REDIRECT ∧
    (route fs request server).redirect_url = loc.redirect_url ∧
    (route fs request server).redirect_code =
      (if loc.redirect_code > 0 then loc.redirect_code else 302) := by
  simp [route, hmatch, hredir]

theorem addBytesSentAll_complete_mono (ns : List Nat) :
    ∀ r : Response, r.is_complete = true → (r.addBytesSentAll ns).is_complete = true := by
  induction ns with
  | nil => intro r h; exact h
  | cons n rest ih =>
    intro r h
    rw [Response.addBytesSentAll]
    apply ih
    unfold Response.addBytesSent
    simp only
    split <;> simp [h]

theorem addBytesSentAll_spec (ns : List Nat) :
    ∀ r : Response, r.bytes_sent + ns.sum < SIZE_MOD →
      (r.addBytesSentAll ns).bytes_sent = r.bytes_sent + ns.sum ∧
      (r.addBytesSentAll ns).send_buffer = r.send_buffer ∧
      ((r.addBytesSentAll ns).is_complete = true ↔
        (r.is_complete = true ∨ (ns ≠ [] ∧ r.send_buffer.length ≤ r.bytes_sent + ns.sum))) := by
  induction ns with
  | nil => intro r _; simp [Response.addBytesSentAll]
  | cons n rest ih =>
    intro r h
    rw [List.sum_cons] at h
    have hmod : (r.bytes_sent + n) % SIZE_MOD = r.bytes_sent + n := Nat.mod_eq_of_lt (by omega)
    have hb : (r.addBytesSent n).bytes_sent = r.bytes_sent + n := by
      unfold Response.addBytesSent
      simp only
      split <;> simp [hmod]
    have hs : (r.addBytesSent n).send_buffer = r.send_buffer := by
      unfold Response.addBytesSent
      simp only
      split <;> simp
    have hc : (r.addBytesSent n).is_complete = true ↔
        (r.is_complete = true ∨ r.send_buffer.length ≤ r.bytes_sent + n) := by
      unfold Response.addBytesSent
      simp only [hmod]
      split
      · rename_i hge; simp; right; exact hge
      · rename_i hge; simp; intro h2; omega
    obtain ⟨h1, h2, h3⟩ := ih (r.addBytesSent n) (by rw [hb]; omega)
    rw [Response.addBytesSentAll, List.sum_cons]
    refine ⟨by rw [h1, hb]; omega, by rw [h2, hs], ?_⟩
    rw [h3, hc, hs, hb]
    constructor
    · rintro ((h | h) | ⟨_, h⟩)
      · left; exact h
      · right; exact ⟨by simp, by omega⟩
      · right; exact ⟨by simp, by omega⟩
    · rintro (h | ⟨_, h⟩)
      · left; left; exact h
      · by_cases hr : rest = []
        · subst hr; left; right; simpa using h
        · right; exact ⟨hr, by omega⟩

theorem sum_take_le (ns : List Nat) (k : Nat) : (ns.take k).sum ≤ ns.sum := by
  induction ns generalizing k with
  | nil => simp
  | cons n rest ih =>
    cases k with
    | zero => simp
    | succ k => simp only [List.take_succ_cons, List.sum_cons]; have := ih k; omega

/-- Claim C10 (amended). For a built Response and calls `addBytesSent(n_1)`, ...,
`addBytesSent(n_k)` whose sum stays below `2 ^ 64` (no `size_t` wrap-around):
`bytes_sent` after the calls is the sum; after any number of the calls the
complete flag is true exactly when the cumulative sum has reached the length of
the send buffer, so it is true from the first such call on; and for every
Response and every sequence of calls, a flag that is true stays true. -/
theorem addBytesSent_accumulates (r0 : Response) (ns : List Nat) (hsum : ns.sum < SIZE_MOD) :
    (r0.build.addBytesSentAll ns).bytes_sent = ns.sum ∧
    (∀ k, 1 ≤ k → k ≤ ns.length →
      ((r0.build.addBytesSentAll (ns.take k)).is_complete = true ↔
        r0.build.send_buffer.length ≤ (ns.take k).sum)) ∧
    (∀ (r : Response) (ms : List Nat), r.is_complete = true →
      (r.addBytesSentAll ms).is_complete = true) := by
  have hb : r0.build.bytes_sent = 0 := rfl
  have hc : r0.build.is_complete = false := rfl
  refine ⟨?_, ?_, fun r ms h => addBytesSentAll_complete_mono ms r h⟩
  · have := (addBytesSentAll_spec ns r0.build (by rw [hb]; omega)).1
    rw [this, hb]; omega
  · intro k hk1 hk2
    have hle := sum_take_le ns k
    have := (addBytesSentAll_spec (ns.take k) r0.build (by rw [hb]; omega)).2.2
    rw [this, hb, hc]
    have hne : ns.take k ≠ [] := by
      intro h
      have hl : (ns.take k).length = k := by rw [List.length_take]; omega
      rw [h] at hl
      simp at hl
      omega
    simp [hne]

theorem addBytesSent_accumulates_witness :
    (Response.fresh.build.addBytesSentAll [10, 28]).bytes_sent = [10, 28].sum ∧
    (∀ k, 1 ≤ k → k ≤ [10, 28].length →
      ((Response.fresh.build.addBytesSentAll ([10, 28].take k)).is_complete = true ↔
        Response.fresh.build.send_buffer.length ≤ ([10, 28].take k).sum)) ∧
    (∀ (r : Response) (ms : List Nat), r.is_complete = true →
      (r.addBytesSentAll ms).is_complete = true) :=
  addBytesSent_accumulates Response.fresh [10, 28] (by decide)

/-- Claim C10, counterexample. On the Response built from a fresh one (a send
buffer of 38 bytes), `addBytesSent(5)` then `addBytesSent(2 ^ 64 - 1)` leave
`bytes_sent` at 4, not at the sum, and the complete flag false although the
cumulative sum exceeds the buffer length. -/
theorem addBytesSent_wraps :
    (Response.fresh.build.addBytesSentAll [5, 2 ^ 64 - 1]).bytes_sent = 4 ∧
    (Response.fresh.build.addBytesSentAll [5, 2 ^ 64 - 1]).bytes_sent ≠ [5, 2 ^ 64 - 1].sum ∧
    Response.fresh.build.send_buffer.length ≤ [5, 2 ^ 64 - 1].sum ∧
    (Response.fresh.build.addBytesSentAll [5, 2 ^ 64 - 1]).is_complete = false := by
  decide

theorem splitCRLF_line (l : Str) (hl : 10 ∉ l) (rest : Str) :
    ∀ cur : Str, splitCRLF (l ++ 13 :: 10 :: rest) cur = (cur ++ l) :: splitCRLF rest [] := by
  induction l with
  | nil => intro cur; simp [splitCRLF]
  | cons a l2 ih =>
    intro cur
    have ha : a ≠ 10 := fun h => hl (by simp [h])
    have hl2 : 10 ∉ l2 := fun h => hl (by simp [h])
    cases l2 with
    | nil =>
      simp only [List.cons_append, List.nil_append]
      rw [splitCRLF, if_neg (by omega), splitCRLF, if_pos (by simp)]
    | cons b l3 =>
      have hb : b ≠ 10 := fun h => hl2 (by simp [h])
      simp only [List.cons_append]
      rw [splitCRLF, if_neg (by omega)]
      have := ih hl2 (cur ++ [a])
      simp only [List.cons_append] at this
      rw [this]
      simp

theorem findChar_append_of_not_mem (c : Nat) (l : Str) (hl : c ∉ l) (rest : Str) :
    findChar c (l ++ c :: rest) = some l.length := by
  induction l with
  | nil => simp [findChar]
  | cons a l2 ih =>
    have ha : a ≠ c := fun h => hl (by simp [h])
    have hl2 : c ∉ l2 := fun h => hl (by simp [h])
    simp [findChar, ha, ih hl2]

theorem decimal_ge (n : Nat) : ∀ c ∈ decimal n, 48 ≤ c := by
  intro c hc
  unfold decimal at hc
  split at hc
  · simp at hc; omega
  · simp only [List.mem_reverse, List.mem_map] at hc
    obtain ⟨d, _, rfl⟩ := hc
    omega

theorem decimalInt_ge (n : Int) : ∀ c ∈ decimalInt n, 45 ≤ c := by
  intro c hc
  unfold decimalInt at hc
  split at hc
  · rcases List.mem_cons.mp hc with rfl | h
    · exact le_refl _
    · have := decimal_ge _ c h; omega
  · have := decimal_ge _ c hc; omega

theorem splitCRLF_lines (ls : List Str) (hls : ∀ l ∈ ls, 10 ∉ l) (rest : Str) :
    splitCRLF ((ls.map (fun l => l ++ str "\r\n")).flatten ++ rest) [] =
      ls ++ splitCRLF rest [] := by
  induction ls with
  | nil => simp
  | cons l ls2 ih =>
    have h1 : 10 ∉ l := hls l (by simp)
    have h2 : ∀ l ∈ ls2, 10 ∉ l := fun x hx => hls x (by simp [hx])
    have hcr : str "\r\n" = [13, 10] := by decide
    simp only [List.map_cons, List.flatten_cons, List.append_assoc, hcr, List.cons_append,
      List.nil_append]
    rw [splitCRLF_line l h1]
    simp only [List.nil_append, List.cons_append, List.cons.injEq, true_and]
    have := ih h2
    simp only [hcr, List.append_assoc, List.cons_append, List.nil_append] at this
    exact this

/-- The serialization written by `build()`, as a sequence of lines. -/
theorem send_buffer_lines (r : Response) :
    (r.build).send_buffer =
      (((str "HTTP/1.1 " ++ decimalInt r.status_code ++ str " " ++ r.status_message) ::
        (r.headers.map (fun h => h.1 ++ str ": " ++ h.2) ++
          (if mapFind (str "Content-Length") r.headers = none then
            [str "Content-Length: " ++ decimal r.body.length] else []))).map
        (fun l => l ++ str "\r\n")).flatten ++ (str "\r\n" ++ r.body) := by
  simp only [Response.build, Response.buildStatusLine, Response.buildHeaders,
    buildHeadersLoop_eq, intToDec_eq_decimalInt, natToDec_eq_decimal, List.nil_append]
  split <;> simp [List.append_assoc, Function.comp_def]

theorem headerSection_build (r : Response)
    (hmsg : 10 ∉ r.status_message)
    (hhdr : ∀ h ∈ r.headers, 10 ∉ h.1 ∧ 10 ∉ h.2) :
    headerSection (r.build).send_buffer =
      r.headers.map (fun h => h.1 ++ str ": " ++ h.2) ++
        (if mapFind (str "Content-Length") r.headers = none then
          [str "Content-Length: " ++ decimal r.body.length] else []) := by
  have hcr : str "\r\n" = [13, 10] := by decide
  rw [send_buffer_lines, headerSection, splitCRLF_lines]
  · rw [hcr]
    simp only [List.cons_append, List.nil_append, splitCRLF, if_true, and_self, List.drop_succ_cons,
      List.drop_zero]
    rw [List.takeWhile_append_of_pos]
    · simp
    · intro l hl
      simp only [decide_eq_true_eq]
      rcases List.mem_append.mp hl with h | h
      · obtain ⟨x, _, rfl⟩ := List.mem_map.mp h
        simp [str]
      · split at h
        · simp only [List.mem_singleton] at h
          subst h
          simp [str]
        · simp at h
  · intro l hl
    have h32 : (10 : Nat) ∉ str "HTTP/1.1 " := by decide
    have hsp : (10 : Nat) ∉ str " " := by decide
    have hcs : (10 : Nat) ∉ str ": " := by decide
    have hclp : (10 : Nat) ∉ str "Content-Length: " := by decide
    rcases List.mem_cons.mp hl with rfl | hl
    · simp only [List.mem_append, not_or]
      refine ⟨⟨⟨h32, ?_⟩, hsp⟩, hmsg⟩
      intro h
      have := decimalInt_ge _ _ h
      omega
    · rcases List.mem_append.mp hl with h | h
      · obtain ⟨x, hx, rfl⟩ := List.mem_map.mp h
        simp only [List.mem_append, not_or]
        exact ⟨⟨(hhdr x hx).1, hcs⟩, (hhdr x hx).2⟩
      · split at h
        · simp only [List.mem_singleton] at h
          subst h
          simp only [List.mem_append, not_or]
          refine ⟨hclp, ?_⟩
          intro h
          have := decimal_ge _ _ h
          omega
        · simp at h

/-- Claim C9 (amended). For every Response with no header named Content-Length,
whose status message, header names and header values contain no line feed and
whose header names contain no ':', the header section of the buffer produced
by `build()` contains exactly one line named Content-Length, and that line is
"Content-Length: " followed by the decimal byte length of the body. -/
theorem build_one_content_length (r : Response)
    (hno : mapFind (str "Content-Length") r.headers = none)
    (hmsg : 10 ∉ r.status_message)
    (hhdr : ∀ h ∈ r.headers, 10 ∉ h.1 ∧ 58 ∉ h.1 ∧ 10 ∉ h.2) :
    (headerSection (r.build).send_buffer).filter isContentLengthLine =
      [str "Content-Length: " ++ decimal r.body.length] := by
  rw [headerSection_build r hmsg (fun h hh => ⟨(hhdr h hh).1, (hhdr h hh).2.2⟩), if_pos hno,
    List.filter_append]
  have hnone : (r.headers.map (fun h => h.1 ++ str ": " ++ h.2)).filter isContentLengthLine = [] := by
    rw [List.filter_eq_nil_iff]
    intro l hl
    obtain ⟨x, hx, rfl⟩ := List.mem_map.mp hl
    have hcs : str ": " = [58, 32] := by decide
    have hname : x.1 ≠ str "Content-Length" := (mapFind_eq_none_iff _ _).mp hno x hx
    simp only [isContentLengthLine, lineName, hcs, List.append_assoc, List.cons_append,
      List.nil_append]
    rw [findChar_append_of_not_mem 58 x.1 (hhdr x hx).2.1]
    simpa using hname
  have hone : isContentLengthLine (str "Content-Length: " ++ decimal r.body.length) = true := by
    have hpre : str "Content-Length: " = str "Content-Length" ++ 58 :: [32] := by decide
    have hnm : (58 : Nat) ∉ str "Content-Length" := by decide
    simp only [isContentLengthLine, lineName, hpre, List.append_assoc, List.cons_append,
      List.nil_append]
    rw [findChar_append_of_not_mem 58 _ hnm]
    simp
  rw [hnone, List.nil_append, List.filter_cons_of_pos hone, List.filter_nil]

theorem build_one_content_length_witness :
    (headerSection
      (((Response.fresh.setHeader (str "Content-Type") (str "text/html")).setBody
        (str "hi")).build).send_buffer).filter isContentLengthLine =
      [str "Content-Length: " ++ decimal (str "hi").length] :=
  build_one_content_length
    ((Response.fresh.setHeader (str "Content-Type") (str "text/html")).setBody (str "hi"))
    (by decide) (by decide) (by decide)

/-- Claim C9, counterexample. No header is named Content-Length, yet the header
section written by `build()` has two lines named Content-Length: when a header
value carries CR LF and a further line, when a header name carries a ':' after
"Content-Length", and when the status message carries CR LF and a further
line. -/
theorem build_two_content_length :
    (mapFind (str "Content-Length")
        (Response.fresh.setHeader (str "X") (str "a\r\nContent-Length: 9")).headers = none ∧
      ((headerSection
        ((Response.fresh.setHeader (str "X") (str "a\r\nContent-Length: 9")).build).send_buffer).filter
          isContentLengthLine).length = 2) ∧
    (mapFind (str "Content-Length")
        (Response.fresh.setHeader (str "Content-Length:") (str "9")).headers = none ∧
      ((headerSection
        ((Response.fresh.setHeader (str "Content-Length:") (str "9")).build).send_buffer).filter
          isContentLengthLine).length = 2) ∧
    (mapFind (str "Content-Length")
        (Response.fresh.setStatusMsg 200 (str "OK\r\nContent-Length: 9")).headers = none ∧
      ((headerSection
        ((Response.fresh.setStatusMsg 200 (str "OK\r\nContent-Length: 9")).build).send_buffer).filter
          isContentLengthLine).length = 2) := by
  decide

theorem matchLocation_longest_first_witness :
    matchLocation (str "/images/a.png")
        (some { ServerConfig.fresh with
          locations := [{ LocationConfig.fresh with path_url := str "/" },
                        { LocationConfig.fresh with path_url := str "/images" },
                        { LocationConfig.fresh with path_url := str "/images", autoindex := true }] }) =
      some (1, { LocationConfig.fresh with path_url := str "/images" }) ∧
    ([{ LocationConfig.fresh with path_url := str "/" },
      { LocationConfig.fresh with path_url := str "/images" },
      { LocationConfig.fresh with path_url := str "/images", autoindex := true }][1]? =
        some { LocationConfig.fresh with path_url := str "/images" } ∧
      MatchRule (str "/images/a.png") (str "/images") ∧
      (∀ M ∈ [{ LocationConfig.fresh with path_url := str "/" },
              { LocationConfig.fresh with path_url := str "/images" },
              { LocationConfig.fresh with path_url := str "/images", autoindex := true }],
        MatchRule (str "/images/a.png") M.path_url →
          M.path_url.length ≤ (str "/images").length) ∧
      (∀ j M, [{ LocationConfig.fresh with path_url := str "/" },
               { LocationConfig.fresh with path_url := str "/images" },
               { LocationConfig.fresh with path_url := str "/images", autoindex := true }][j]? =
            some M →
          MatchRule (str "/images/a.png") M.path_url →
          M.path_url.length = (str "/images").length → 1 ≤ j)) :=
  ⟨by decide,
   matchLocation_longest_first.1 (str "/images/a.png")
     { ServerConfig.fresh with
       locations := [{ LocationConfig.fresh with path_url := str "/" },
                     { LocationConfig.fresh with path_url := str "/images" },
                     { LocationConfig.fresh with path_url := str "/images", autoindex := true }] }
     1 { LocationConfig.fresh with path_url := str "/images" } (by decide)⟩

theorem route_redirect_witness :
    (route (fun _ => FileKind.absent)
        { Request.fresh with method := str "DELETE", uri := str "/old/page.py",
                             state := RequestState.COMPLETE }
        (some { ServerConfig.fresh with
          locations := [{ LocationConfig.fresh with
            path_url := str "/old", redirect_url := str "/new", redirect_code := 301,
            cgi_handlers := [(str ".py", str "/usr/bin/python3")] }] })).type =
      RouteType.ROUTE_REDIRECT ∧
    (route (fun _ => FileKind.absent)
        { Request.fresh with method := str "DELETE", uri := str "/old/page.py",
                             state := RequestState.COMPLETE }
        (some { ServerConfig.fresh with
          locations := [{ LocationConfig.fresh with
            path_url := str "/old", redirect_url := str "/new", redirect_code := 301,
            cgi_handlers := [(str ".py", str "/usr/bin/python3")] }] })).redirect_url =
      str "/new" ∧
    (route (fun _ => FileKind.absent)
        { Request.fresh with method := str "DELETE", uri := str "/old/page.py",
                             state := RequestState.COMPLETE }
        (some { ServerConfig.fresh with
          locations := [{ LocationConfig.fresh with
            path_url := str "/old", redirect_url := str "/new", redirect_code := 301,
            cgi_handlers := [(str ".py", str "/usr/bin/python3")] }] })).redirect_code =
      (if (301 : Int) > 0 then 301 else 302) :=
  route_redirect (fun _ => FileKind.absent)
    { Request.fresh with method := str "DELETE", uri := str "/old/page.py",
                         state := RequestState.COMPLETE }
    (some { ServerConfig.fresh with
      locations := [{ LocationConfig.fresh with
        path_url := str "/old", redirect_url := str "/new", redirect_code := 301,
        cgi_handlers := [(str ".py", str "/usr/bin/python3")] }] })
    0 { LocationConfig.fresh with
        path_url := str "/old", redirect_url := str "/new", redirect_code := 301,
        cgi_handlers := [(str ".py", str "/usr/bin/python3")] }
    (by decide) (by decide)

theorem apply_keeps_invariant (files : FileReader) (op : ResponseOp) (r : Response)
    (hop : match op with
      | ResponseOp.markComplete => False
      | ResponseOp.addBytesSent bytes => r.bytes_sent + bytes < SIZE_MOD
      | _ => True)
    (hinv : r.is_complete = true → r.send_buffer.length ≤ r.bytes_sent) :
    (Response.apply files op r).is_complete = true →
      (Response.apply files op r).send_buffer.length ≤ (Response.apply files op r).bytes_sent := by
  cases op with
  | setStatus code => exact hinv
  | setStatusMsg code message => exact hinv
  | setHeader name value => exact hinv
  | setBody body => exact hinv
  | setBodyFromFile filepath =>
    simp only [Response.apply, Response.setBodyFromFile]
    split
    · exact hinv
    · exact hinv
  | build => intro h; simp [Response.apply, Response.build] at h
  | addBytesSent bytes =>
    simp only at hop
    simp only [Response.apply, Response.addBytesSent, Nat.mod_eq_of_lt hop]
    split
    · rename_i hge; intro _; exact hge
    · intro h
      have := hinv h
      show r.send_buffer.length ≤ r.bytes_sent + bytes
      omega
  | markComplete => exact absurd hop (by simp)
  | reset => intro h; simp [Response.apply, Response.reset, Response.fresh] at h

theorem run_keeps_invariant (files : FileReader) (ops : List ResponseOp) :
    ∀ r : Response, Response.plainRun files ops r →
      (r.is_complete = true → r.send_buffer.length ≤ r.bytes_sent) →
      (Response.run files ops r).is_complete = true →
        (Response.run files ops r).send_buffer.length ≤ (Response.run files ops r).bytes_sent := by
  induction ops with
  | nil => intro r _ h; exact h
  | cons op ops ih =>
    intro r hp hinv
    rw [Response.run]
    exact ih _ hp.2 (apply_keeps_invariant files op r hp.1 hinv)

/-- Claim C11 (amended). In every Response state reached from a freshly
constructed Response through setStatus, setHeader, setBody, setBodyFromFile,
build, addBytesSent and reset, without a call of markComplete and without an
addBytesSent call that takes `bytes_sent` to `2 ^ 64` or beyond, the complete
flag is true only if `bytes_sent` is at least the length of the send buffer. -/
theorem complete_only_if_all_sent (files : FileReader) (ops : List ResponseOp)
    (hops : Response.plainRun files ops Response.fresh)
    (hc : (Response.run files ops Response.fresh).is_complete = true) :
    (Response.run files ops Response.fresh).send_buffer.length ≤
      (Response.run files ops Response.fresh).bytes_sent :=
  run_keeps_invariant files ops Response.fresh hops (fun h => by simp [Response.fresh] at h) hc

theorem complete_only_if_all_sent_witness :
    (Response.run (fun _ => none)
        [ResponseOp.setBody (str "hi"), ResponseOp.build, ResponseOp.addBytesSent 30,
         ResponseOp.addBytesSent 10]
        Response.fresh).send_buffer.length ≤
      (Response.run (fun _ => none)
        [ResponseOp.setBody (str "hi"), ResponseOp.build, ResponseOp.addBytesSent 30,
         ResponseOp.addBytesSent 10]
        Response.fresh).bytes_sent :=
  complete_only_if_all_sent (fun _ => none)
    [ResponseOp.setBody (str "hi"), ResponseOp.build, ResponseOp.addBytesSent 30,
     ResponseOp.addBytesSent 10]
    (by decide) (by decide)

/-- Claim C11, counterexample. After `build()` and `markComplete()` on a fresh
Response the complete flag is true with `bytes_sent` 0 and a send buffer of 38
bytes; and after `build()`, `addBytesSent(40)` and `addBytesSent(2 ^ 64 - 10)`
the flag is true with `bytes_sent` wrapped to 30. -/
theorem complete_before_all_sent :
    ((Response.run (fun _ => none) [ResponseOp.build, ResponseOp.markComplete]
        Response.fresh).is_complete = true ∧
      (Response.run (fun _ => none) [ResponseOp.build, ResponseOp.markComplete]
        Response.fresh).bytes_sent = 0 ∧
      (Response.run (fun _ => none) [ResponseOp.build, ResponseOp.markComplete]
        Response.fresh).send_buffer.length = 38) ∧
    ((Response.run (fun _ => none)
        [ResponseOp.build, ResponseOp.addBytesSent 40, ResponseOp.addBytesSent (2 ^ 64 - 10)]
        Response.fresh).is_complete = true ∧
      (Response.run (fun _ => none)
        [ResponseOp.build, ResponseOp.addBytesSent 40, ResponseOp.addBytesSent (2 ^ 64 - 10)]
        Response.fresh).bytes_sent = 30 ∧
      (Response.run (fun _ => none)
        [ResponseOp.build, ResponseOp.addBytesSent 40, ResponseOp.addBytesSent (2 ^ 64 - 10)]
        Response.fresh).send_buffer.length = 38) := by
  decide

theorem findBestMatchLoop_none (uri : Str) :
    ∀ (ls : List LocationConfig) (i : Nat) (best : Option (Nat × LocationConfig)) (bl : Nat),
      findBestMatchLoop uri ls i best bl = none ↔
        (best = none ∧ ∀ M ∈ ls, MatchRule uri M.path_url → M.path_url.length ≤ bl) := by
  intro ls
  induction ls with
  | nil => intro i best bl; simp [findBestMatchLoop]
  | cons loc rest ih =>
    intro i best bl
    rw [findBestMatchLoop]
    split
    · rename_i hc
      rw [ih]
      constructor
      · rintro ⟨h, _⟩; exact absurd h (by simp)
      · rintro ⟨_, h⟩
        have := h loc (by simp) ((locMatches_iff _ _).mp hc.1)
        omega
    · rename_i hc
      rw [ih]
      constructor
      · rintro ⟨hb, h⟩
        refine ⟨hb, ?_⟩
        intro M hM hMm
        rcases List.mem_cons.mp hM with rfl | hM
        · by_contra hgt
          exact hc ⟨(locMatches_iff _ _).mpr hMm, by omega⟩
        · exact h M hM hMm
      · rintro ⟨hb, h⟩
        exact ⟨hb, fun M hM hMm => h M (by simp [hM]) hMm⟩

/-- Claim C12 (amended). `matchLocation` returns no location exactly when no
entry of `server.locations` with a non-empty `path_url` matches the uri under
the matching rule (so a location is returned as soon as one such entry
matches); and whenever it returns no location, for a null server too, `route`
returns Error(404) whatever the request method and the filesystem. -/
theorem matchLocation_none_iff :
    (∀ (uri : Str) (server : ServerConfig),
      matchLocation uri (some server) = none ↔
        ∀ M ∈ server.locations, MatchRule uri M.path_url → M.path_url = []) ∧
    (∀ (fs : FileSystem) (request : Request) (server : Option ServerConfig),
      matchLocation request.uri server = none →
        route fs request server =
          { RouteResult.fresh with type := RouteType.ROUTE_ERROR, error_code := 404 }) := by
  constructor
  · intro uri server
    simp only [matchLocation, findBestMatch, findBestMatchLoop_none, true_and,
      Nat.le_zero, List.length_eq_zero]
  · intro fs request server h
    simp only [route, h]

theorem matchLocation_none_iff_witness :
    (matchLocation (str "/imagesx")
        (some { ServerConfig.fresh with
          locations := [{ LocationConfig.fresh with path_url := str "/images" }] }) = none ↔
      ∀ M ∈ [{ LocationConfig.fresh with path_url := str "/images" }],
        MatchRule (str "/imagesx") M.path_url → M.path_url = []) ∧
    route (fun _ => FileKind.regular)
        { Request.fresh with method := str "GET", uri := str "/imagesx" }
        (some { ServerConfig.fresh with
          locations := [{ LocationConfig.fresh with path_url := str "/images" }] }) =
      { RouteResult.fresh with type := RouteType.ROUTE_ERROR, error_code := 404 } :=
  ⟨matchLocation_none_iff.1 (str "/imagesx")
    { ServerConfig.fresh with
      locations := [{ LocationConfig.fresh with path_url := str "/images" }] },
   matchLocation_none_iff.2 (fun _ => FileKind.regular)
    { Request.fresh with method := str "GET", uri := str "/imagesx" }
    (some { ServerConfig.fresh with
      locations := [{ LocationConfig.fresh with path_url := str "/images" }] })
    (by decide)⟩

/-- Claim C12, counterexample. An entry with an empty `path_url` matches the uri
"/x" under the matching rule, yet `matchLocation` returns no location and
`route` returns Error(404). -/
theorem matchLocation_empty_path :
    MatchRule (str "/x") (LocationConfig.fresh).path_url ∧
    matchLocation (str "/x")
        (some { ServerConfig.fresh with locations := [LocationConfig.fresh] }) = none ∧
    route (fun _ => FileKind.regular)
        { Request.fresh with method := str "GET", uri := str "/x" }
        (some { ServerConfig.fresh with locations := [LocationConfig.fresh] }) =
      { RouteResult.fresh with type := RouteType.ROUTE_ERROR, error_code := 404 } := by
  decide

theorem isMethodAllowed_iff (method : Str) (loc : LocationConfig) :
    isMethodAllowed method loc = true ↔ method ∈ loc.methods := by
  unfold isMethodAllowed
  simp only [List.any_eq_true, beq_iff_eq]
  constructor
  · rintro ⟨m, hm, rfl⟩; exact hm
  · intro h; exact ⟨method, h, rfl⟩

/-- Claim C13. When the matched location has an empty redirect target: if the
request method is not an element of the location's list of methods, `route`
returns Error(405) for every CGI map and every filesystem; and if the method
is in the list, `route` does not return Error(405). -/
theorem route_method_not_allowed (fs : FileSystem) (request : Request)
    (server : Option ServerConfig) (i : Nat) (loc : LocationConfig)
    (hmatch : matchLocation request.uri server = some (i, loc))
    (hredir : loc.redirect_url = []) :
    (request.method ∉ loc.methods →
      route fs request server =
        { RouteResult.fresh with type := RouteType.ROUTE_ERROR, error_code := 405 }) ∧
    (request.method ∈ loc.methods →
      ¬ ((route fs request server).type = RouteType.ROUTE_ERROR ∧
         (route fs request server).error_code = 405)) := by
  constructor
  · intro h
    have hm : isMethodAllowed request.method loc = false := by
      rw [← Bool.not_eq_true, isMethodAllowed_iff]; exact h
    simp [route, hmatch, hredir, hm]
  · intro h
    have hm : isMethodAllowed request.method loc = true := (isMethodAllowed_iff _ _).mpr h
    simp only [route, hmatch, hredir, hm, ne_eq, not_true_eq_false, if_false, Bool.not_true,
      Bool.false_eq_true]
    repeat' split
    all_goals simp [RouteResult.fresh]

theorem route_method_not_allowed_witness :
    route (fun _ => FileKind.regular)
        { Request.fresh with method := str "DELETE", uri := str "/cgi/run.py" }
        (some { ServerConfig.fresh with
          locations := [{ LocationConfig.fresh with
            path_url := str "/cgi", methods := [str "GET", str "POST"],
            cgi_handlers := [(str ".py", str "/usr/bin/python3")] }] }) =
      { RouteResult.fresh with type := RouteType.ROUTE_ERROR, error_code := 405 } ∧
    ¬ ((route (fun _ => FileKind.absent)
        { Request.fresh with method := str "POST", uri := str "/cgi/none" }
        (some { ServerConfig.fresh with
          locations := [{ LocationConfig.fresh with
            path_url := str "/cgi", methods := [str "GET", str "POST"],
            cgi_handlers := [(str ".py", str "/usr/bin/python3")] }] })).type =
          RouteType.ROUTE_ERROR ∧
       (route (fun _ => FileKind.absent)
        { Request.fresh with method := str "POST", uri := str "/cgi/none" }
        (some { ServerConfig.fresh with
          locations := [{ LocationConfig.fresh with
            path_url := str "/cgi", methods := [str "GET", str "POST"],
            cgi_handlers := [(str ".py", str "/usr/bin/python3")] }] })).error_code = 405) :=
  ⟨(route_method_not_allowed (fun _ => FileKind.regular)
      { Request.fresh with method := str "DELETE", uri := str "/cgi/run.py" }
      (some { ServerConfig.fresh with
        locations := [{ LocationConfig.fresh with
          path_url := str "/cgi", methods := [str "GET", str "POST"],
          cgi_handlers := [(str ".py", str "/usr/bin/python3")] }] })
      0 { LocationConfig.fresh with
          path_url := str "/cgi", methods := [str "GET", str "POST"],
          cgi_handlers := [(str ".py", str "/usr/bin/python3")] }
      (by decide) (by decide)).1 (by decide),
   (route_method_not_allowed (fun _ => FileKind.absent)
      { Request.fresh with method := str "POST", uri := str "/cgi/none" }
      (some { ServerConfig.fresh with
        locations := [{ LocationConfig.fresh with
          path_url := str "/cgi", methods := [str "GET", str "POST"],
          cgi_handlers := [(str ".py", str "/usr/bin/python3")] }] })
      0 { LocationConfig.fresh with
          path_url := str "/cgi", methods := [str "GET", str "POST"],
          cgi_handlers := [(str ".py", str "/usr/bin/python3")] }
      (by decide) (by decide)).2 (by decide)⟩

theorem getD_last_eq (l : Str) (h : l ≠ []) :
    (l.getD (l.length - 1) 0 = 47) ↔ l.getLast? = some 47 := by
  have hlen : 0 < l.length := List.length_pos.mpr h
  rw [List.getLast?_eq_getElem?, List.getD_eq_getElem _ _ (by omega),
    List.getElem?_eq_getElem (by omega)]
  simp

theorem getD_head_eq (l : Str) (h : l ≠ []) :
    (l.getD 0 0 = 47) ↔ l.head? = some 47 := by
  cases l with
  | nil => exact absurd rfl h
  | cons a t => simp

theorem ensure_slash (rel : Str) :
    (if rel = [] ∨ rel.getD 0 0 ≠ 47 then str "/" ++ rel else rel) =
      (if rel = [] then str "/" else if rel.head? = some 47 then rel else str "/" ++ rel) := by
  by_cases h : rel = []
  · subst h; simp
  · rw [if_neg h]
    by_cases h2 : rel.head? = some 47
    · rw [if_pos h2, if_neg]
      push_neg
      exact ⟨h, (getD_head_eq rel h).mpr h2⟩
    · rw [if_neg h2, if_pos]
      right
      exact fun hc => h2 ((getD_head_eq rel h).mp hc)

/-- Claim C14. For every location with a non-empty `root_dir` and every uri,
in particular every uri that the location matches, `resolvePath(uri, loc)` is
the root without one trailing '/' followed by the remainder of the uri: the uri
without the bytes of the `path_url` prefix (the whole uri when `path_url` is
"/"), replaced by "/" when empty and given a leading '/' when it lacks one. -/
theorem resolvePath_eq (uri : Str) (loc : LocationConfig) (hroot : loc.root_dir ≠ []) :
    resolvePath uri loc = stripSlash loc.root_dir ++ uriRemainder uri loc.path_url := by
  unfold resolvePath stripSlash uriRemainder
  simp only [if_neg hroot]
  congr 1
  · by_cases hl : loc.root_dir.getLast? = some 47
    · rw [if_pos hl, if_pos ⟨hroot, (getD_last_eq _ hroot).mpr hl⟩]
      simp [substr, List.dropLast_eq_take]
    · rw [if_neg hl, if_neg]
      rintro ⟨_, hc⟩
      exact hl ((getD_last_eq _ hroot).mp hc)
  · rw [ensure_slash]
    by_cases hp : loc.path_url = str "/"
    · simp only [hp, if_true]
    · simp only [hp, if_false]
      by_cases hlen : uri.length > loc.path_url.length
      · simp only [hlen, if_true, substrFrom]
      · have hd : List.drop loc.path_url.length uri = [] :=
          List.drop_eq_nil_of_le (by omega)
        simp only [hlen, if_false, hd, if_true]
        decide

theorem resolvePath_eq_witness :
    resolvePath (str "/images/photo.jpg")
        { LocationConfig.fresh with path_url := str "/images", root_dir := str "./www/img" } =
      stripSlash (str "./www/img") ++ uriRemainder (str "/images/photo.jpg") (str "/images") ∧
    resolvePath (str "/images/photo.jpg")
        { LocationConfig.fresh with path_url := str "/images", root_dir := str "./www/img" } =
      str "./www/img/photo.jpg" :=
  ⟨resolvePath_eq (str "/images/photo.jpg")
    { LocationConfig.fresh with path_url := str "/images", root_dir := str "./www/img" }
    (by decide), by decide⟩

theorem isCGI_eq (path : Str) (loc : LocationConfig) :
    isCGI path loc = (mapFind (getExtension path) loc.cgi_handlers).isSome := by
  unfold isCGI
  split
  · rename_i h; rw [h]; rfl
  · rfl

/-- Claim C15. For a request that passes location matching, the redirect check
and the method check: if the extension of the resolved path is a key of the
location's `cgi_handlers`, `route` returns a ROUTE_CGI result whose filepath
is the resolved path and whose `cgi_interpreter` is the value mapped to the
extension, for every filesystem; and if the extension is not a key, the result
is not ROUTE_CGI. -/
theorem route_cgi (fs : FileSystem) (request : Request) (server : Option ServerConfig)
    (i : Nat) (loc : LocationConfig)
    (hmatch : matchLocation request.uri server = some (i, loc))
    (hredir : loc.redirect_url = [])
    (hmeth : request.method ∈ loc.methods) :
    (∀ interp : Str,
      mapFind (getExtension (resolvePath request.uri loc)) loc.cgi_handlers = some interp →
      route fs request server =
        { RouteResult.fresh with
          type := RouteType.ROUTE_CGI, filepath := resolvePath request.uri loc,
          cgi_interpreter := interp }) ∧
    (mapFind (getExtension (resolvePath request.uri loc)) loc.cgi_handlers = none →
      (route fs request server).type ≠ RouteType.ROUTE_CGI) := by
  have hm : isMethodAllowed request.method loc = true := (isMethodAllowed_iff _ _).mpr hmeth
  constructor
  · intro interp h
    have hc : isCGI (resolvePath request.uri loc) loc = true := by rw [isCGI_eq, h]; rfl
    simp [route, hmatch, hredir, hm, hc, getCGIInterpreter, h]
  · intro h
    have hc : isCGI (resolvePath request.uri loc) loc = false := by rw [isCGI_eq, h]; rfl
    simp only [route, hmatch, hredir, hm, hc, ne_eq, not_true_eq_false, if_false, Bool.not_true,
      Bool.false_eq_true]
    repeat' split
    all_goals simp

theorem route_cgi_witness :
    route (fun _ => FileKind.absent)
        { Request.fresh with method := str "GET", uri := str "/cgi/run.py" }
        (some { ServerConfig.fresh with
          locations := [{ LocationConfig.fresh with
            path_url := str "/cgi", root_dir := str "/srv", methods := [str "GET"],
            cgi_handlers := [(str ".py", str "/usr/bin/python3")] }] }) =
      { RouteResult.fresh with
        type := RouteType.ROUTE_CGI,
        filepath := resolvePath (str "/cgi/run.py")
          { LocationConfig.fresh with
            path_url := str "/cgi", root_dir := str "/srv", methods := [str "GET"],
            cgi_handlers := [(str ".py", str "/usr/bin/python3")] },
        cgi_interpreter := str "/usr/bin/python3" } ∧
    (route (fun _ => FileKind.regular)
        { Request.fresh with method := str "GET", uri := str "/cgi/run.sh" }
        (some { ServerConfig.fresh with
          locations := [{ LocationConfig.fresh with
            path_url := str "/cgi", root_dir := str "/srv", methods := [str "GET"],
            cgi_handlers := [(str ".py", str "/usr/bin/python3")] }] })).type ≠
      RouteType.ROUTE_CGI :=
  ⟨(route_cgi (fun _ => FileKind.absent)
      { Request.fresh with method := str "GET", uri := str "/cgi/run.py" }
      (some { ServerConfig.fresh with
        locations := [{ LocationConfig.fresh with
          path_url := str "/cgi", root_dir := str "/srv", methods := [str "GET"],
          cgi_handlers := [(str ".py", str "/usr/bin/python3")] }] })
      0 { LocationConfig.fresh with
          path_url := str "/cgi", root_dir := str "/srv", methods := [str "GET"],
          cgi_handlers := [(str ".py", str "/usr/bin/python3")] }
      (by decide) (by decide) (by decide)).1 (str "/usr/bin/python3") (by decide),
   (route_cgi (fun _ => FileKind.regular)
      { Request.fresh with method := str "GET", uri := str "/cgi/run.sh" }
      (some { ServerConfig.fresh with
        locations := [{ LocationConfig.fresh with
          path_url := str "/cgi", root_dir := str "/srv", methods := [str "GET"],
          cgi_handlers := [(str ".py", str "/usr/bin/python3")] }] })
      0 { LocationConfig.fresh with
          path_url := str "/cgi", root_dir := str "/srv", methods := [str "GET"],
          cgi_handlers := [(str ".py", str "/usr/bin/python3")] }
      (by decide) (by decide) (by decide)).2 (by decide)⟩

/-- Claim C16. For a request that passes the matching, redirect, method and
CGI checks, with the filesystem a function from paths to absent, regular file
or directory: if the resolved path is a directory, `route` returns
File(index path) when the index file is a regular file, otherwise Directory
when autoindex is enabled, otherwise Error(403); if the resolved path is a
regular file, it returns File(resolved path); otherwise it returns
Error(404). -/
theorem route_filesystem (fs : FileSystem) (request : Request) (server : Option ServerConfig)
    (i : Nat) (loc : LocationConfig)
    (hmatch : matchLocation request.uri server = some (i, loc))
    (hredir : loc.redirect_url = [])
    (hmeth : request.method ∈ loc.methods)
    (hcgi : mapFind (getExtension (resolvePath request.uri loc)) loc.cgi_handlers = none) :
    route fs request server =
      match fs (resolvePath request.uri loc) with
      | FileKind.directory =>
        if fs (indexPath (resolvePath request.uri loc) loc.index) = FileKind.regular then
          { RouteResult.fresh with
            type := RouteType.ROUTE_FILE,
            filepath := indexPath (resolvePath request.uri loc) loc.index }
        else if loc.autoindex = true then
          { RouteResult.fresh with
            type := RouteType.ROUTE_DIRECTORY, filepath := resolvePath request.uri loc }
        else
          { RouteResult.fresh with
            type := RouteType.ROUTE_ERROR, error_code := 403,
            filepath := resolvePath request.uri loc }
      | FileKind.regular =>
        { RouteResult.fresh with
          type := RouteType.ROUTE_FILE, filepath := resolvePath request.uri loc }
      | FileKind.absent =>
        { RouteResult.fresh with
          type := RouteType.ROUTE_ERROR, error_code := 404,
          filepath := resolvePath request.uri loc } := by
  have hm : isMethodAllowed request.method loc = true := (isMethodAllowed_iff _ _).mpr hmeth
  have hc : isCGI (resolvePath request.uri loc) loc = false := by rw [isCGI_eq, hcgi]; rfl
  have hidx : (if (resolvePath request.uri loc).getD ((resolvePath request.uri loc).length - 1) 0
      ≠ 47 then resolvePath request.uri loc ++ str "/" else resolvePath request.uri loc)
      ++ loc.index = indexPath (resolvePath request.uri loc) loc.index := by
    unfold indexPath
    by_cases hne : resolvePath request.uri loc = []
    · rw [hne]; rfl
    · by_cases hl : (resolvePath request.uri loc).getLast? = some 47
      · rw [if_pos hl, if_neg (by rw [ne_eq, not_not]; exact (getD_last_eq _ hne).mpr hl)]
      · rw [if_neg hl, if_pos (fun h => hl ((getD_last_eq _ hne).mp h))]
  simp only [route, hmatch, hredir, hm, hc, ne_eq, not_true_eq_false, if_false, Bool.not_true,
    Bool.false_eq_true, isDirectory, fileExists, decide_eq_true_eq]
  rw [hidx]
  cases hk : fs (resolvePath request.uri loc) with
  | absent => simp
  | regular => simp
  | directory => simp only [if_true]

theorem route_filesystem_witness :
    route
        (fun p => if p = str "/srv/docs" then FileKind.directory
                  else if p = str "/srv/docs/index.html" then FileKind.regular
                  else FileKind.absent)
        { Request.fresh with method := str "GET", uri := str "/docs" }
        (some { ServerConfig.fresh with
          locations := [{ LocationConfig.fresh with
            path_url := str "/", root_dir := str "/srv" }] }) =
      { RouteResult.fresh with
        type := RouteType.ROUTE_FILE, filepath := str "/srv/docs/index.html" } ∧
    route
        (fun p => if p = str "/srv/docs" then FileKind.directory
                  else if p = str "/srv/docs/index.html" then FileKind.regular
                  else FileKind.absent)
        { Request.fresh with method := str "GET", uri := str "/docs" }
        (some { ServerConfig.fresh with
          locations := [{ LocationConfig.fresh with
            path_url := str "/", root_dir := str "/srv" }] }) =
      match (fun p => if p = str "/srv/docs" then FileKind.directory
                  else if p = str "/srv/docs/index.html" then FileKind.regular
                  else FileKind.absent)
          (resolvePath (str "/docs")
            { LocationConfig.fresh with path_url := str "/", root_dir := str "/srv" }) with
      | FileKind.directory =>
        if (fun p => if p = str "/srv/docs" then FileKind.directory
                  else if p = str "/srv/docs/index.html" then FileKind.regular
                  else FileKind.absent)
            (indexPath (resolvePath (str "/docs")
              { LocationConfig.fresh with path_url := str "/", root_dir := str "/srv" })
              (str "index.html")) = FileKind.regular then
          { RouteResult.fresh with
            type := RouteType.ROUTE_FILE,
            filepath := indexPath (resolvePath (str "/docs")
              { LocationConfig.fresh with path_url := str "/", root_dir := str "/srv" })
              (str "index.html") }
        else if false = true then
          { RouteResult.fresh with
            type := RouteType.ROUTE_DIRECTORY,
            filepath := resolvePath (str "/docs")
              { LocationConfig.fresh with path_url := str "/", root_dir := str "/srv" } }
        else
          { RouteResult.fresh with
            type := RouteType.ROUTE_ERROR, error_code := 403,
            filepath := resolvePath (str "/docs")
              { LocationConfig.fresh with path_url := str "/", root_dir := str "/srv" } }
      | FileKind.regular =>
        { RouteResult.fresh with
          type := RouteType.ROUTE_FILE,
          filepath := resolvePath (str "/docs")
            { LocationConfig.fresh with path_url := str "/", root_dir := str "/srv" } }
      | FileKind.absent =>
        { RouteResult.fresh with
          type := RouteType.ROUTE_ERROR, error_code := 404,
          filepath := resolvePath (str "/docs")
            { LocationConfig.fresh with path_url := str "/", root_dir := str "/srv" } } :=
  ⟨by decide,
   route_filesystem
    (fun p => if p = str "/srv/docs" then FileKind.directory
              else if p = str "/srv/docs/index.html" then FileKind.regular
              else FileKind.absent)
    { Request.fresh with method := str "GET", uri := str "/docs" }
    (some { ServerConfig.fresh with
      locations := [{ LocationConfig.fresh with
        path_url := str "/", root_dir := str "/srv" }] })
    0 { LocationConfig.fresh with path_url := str "/", root_dir := str "/srv" }
    (by decide) (by decide) (by decide) (by decide)⟩

theorem mapFind_mapSet_same (k v : Str) (m : StrMap) : mapFind k (mapSet k v m) = some v := by
  induction m with
  | nil => simp [mapSet, mapFind]
  | cons e m ih =>
    obtain ⟨k1, v1⟩ := e
    rw [mapSet]
    split
    · rename_i h; simp [mapFind, h]
    · rename_i h
      split
      · simp [mapFind]
      · rw [mapFind, if_neg (fun e => h e.symm)]
        exact ih

theorem mapFind_mapSet_other (k k2 v : Str) (m : StrMap) (h : k2 ≠ k) :
    mapFind k2 (mapSet k v m) = mapFind k2 m := by
  induction m with
  | nil => simp [mapSet, mapFind, Ne.symm h]
  | cons e m ih =>
    obtain ⟨k1, v1⟩ := e
    rw [mapSet]
    split
    · rename_i h1
      subst h1
      simp [mapFind, Ne.symm h]
    · split
      · rw [mapFind, if_neg (Ne.symm h)]
      · rw [mapFind, mapFind, ih]

/-- Claim C28. For every Request state, `reset()` yields the freshly
constructed Request, field for field: empty method, uri, query_string, headers,
body and read_buffer, version "HTTP/1.1", content_length 0, is_chunked false,
state REQUEST_LINE, body_bytes_received 0 and error_code 0; hence `parse`, on
one input or on successive fragments, gives after `reset()` what it gives on a
fresh Request. -/
theorem reset_eq_fresh (r : Request) :
    r.reset = Request.fresh ∧
    (r.reset.method = [] ∧ r.reset.uri = [] ∧ r.reset.query_string = [] ∧
      r.reset.headers = [] ∧ r.reset.body = [] ∧ r.reset.read_buffer = [] ∧
      r.reset.version = str "HTTP/1.1" ∧ r.reset.content_length = 0 ∧
      r.reset.is_chunked = false ∧ r.reset.state = RequestState.REQUEST_LINE ∧
      r.reset.body_bytes_received = 0 ∧ r.reset.error_code = 0) ∧
    (∀ raw : Str, Request.parse raw r.reset = Request.parse raw Request.fresh) ∧
    (∀ frags : List Str,
      Request.parseAll frags r.reset = Request.parseAll frags Request.fresh) :=
  ⟨rfl, ⟨rfl, rfl, rfl, rfl, rfl, rfl, rfl, rfl, rfl, rfl, rfl, rfl⟩,
    fun _ => rfl, fun _ => rfl⟩

theorem apply_ready (files : FileReader) (op : ResponseOp) (r : Response)
    (h : r.send_buffer ≠ [] → r.is_ready = true) :
    (Response.apply files op r).send_buffer ≠ [] → (Response.apply files op r).is_ready = true := by
  cases op with
  | setStatus code => exact h
  | setStatusMsg code message => exact h
  | setHeader name value => exact h
  | setBody body => exact h
  | setBodyFromFile filepath =>
    simp only [Response.apply, Response.setBodyFromFile]
    split
    · exact h
    · exact h
  | build => intro _; rfl
  | addBytesSent bytes =>
    simp only [Response.apply, Response.addBytesSent]
    split
    · exact h
    · exact h
  | markComplete => exact h
  | reset => intro hne; exact absurd rfl hne

theorem apply_is_ready (files : FileReader) (op : ResponseOp) (r : Response) :
    (Response.apply files op r).is_ready =
      match op with
      | ResponseOp.build => true
      | ResponseOp.reset => false
      | _ => r.is_ready := by
  cases op with
  | setBodyFromFile filepath =>
    simp only [Response.apply, Response.setBodyFromFile]
    split <;> rfl
  | addBytesSent bytes =>
    simp only [Response.apply, Response.addBytesSent]
    split <;> rfl
  | _ => rfl

theorem run_ready (files : FileReader) (ops : List ResponseOp) :
    ∀ r : Response, (r.send_buffer ≠ [] → r.is_ready = true) →
      ((Response.run files ops r).send_buffer ≠ [] → (Response.run files ops r).is_ready = true) ∧
      (Response.run files ops r).is_ready = builtSinceReset ops r.is_ready := by
  induction ops with
  | nil => intro r h; exact ⟨h, rfl⟩
  | cons op ops ih =>
    intro r h
    rw [Response.run]
    obtain ⟨h1, h2⟩ := ih (Response.apply files op r) (apply_ready files op r h)
    refine ⟨h1, ?_⟩
    rw [h2, apply_is_ready]
    cases op <;> rfl

/-- Claim C29. In every Response state reached from a freshly constructed
Response through setStatus, setHeader, setBody, setBodyFromFile, build,
addBytesSent, markComplete and reset, a non-empty send buffer implies that the
ready flag is true; and the ready flag is true exactly when `build()` was
called since the construction or the last `reset()`. -/
theorem send_buffer_only_after_build (files : FileReader) (ops : List ResponseOp) :
    ((Response.run files ops Response.fresh).send_buffer ≠ [] →
      (Response.run files ops Response.fresh).is_ready = true) ∧
    (Response.run files ops Response.fresh).is_ready = builtSinceReset ops false :=
  run_ready files ops Response.fresh (fun h => absurd rfl h)

theorem send_buffer_only_after_build_witness :
    (Response.run (fun _ => none)
        [ResponseOp.build, ResponseOp.reset, ResponseOp.setBody (str "hi"), ResponseOp.build,
         ResponseOp.addBytesSent 5, ResponseOp.markComplete]
        Response.fresh).is_ready = true ∧
    (Response.run (fun _ => none)
        [ResponseOp.build, ResponseOp.reset, ResponseOp.setBody (str "hi"), ResponseOp.build,
         ResponseOp.addBytesSent 5, ResponseOp.markComplete]
        Response.fresh).is_ready =
      builtSinceReset
        [ResponseOp.build, ResponseOp.reset, ResponseOp.setBody (str "hi"), ResponseOp.build,
         ResponseOp.addBytesSent 5, ResponseOp.markComplete] false :=
  ⟨(send_buffer_only_after_build (fun _ => none)
      [ResponseOp.build, ResponseOp.reset, ResponseOp.setBody (str "hi"), ResponseOp.build,
       ResponseOp.addBytesSent 5, ResponseOp.markComplete]).1 (by decide),
   (send_buffer_only_after_build (fun _ => none)
      [ResponseOp.build, ResponseOp.reset, ResponseOp.setBody (str "hi"), ResponseOp.build,
       ResponseOp.addBytesSent 5, ResponseOp.markComplete]).2⟩

theorem lookup_cons_getD (ext k v d : Str) (t : List (Str × Str)) :
    (List.lookup ext ((k, v) :: t)).getD d = if ext = k then v else (List.lookup ext t).getD d := by
  by_cases h : ext = k
  · simp [List.lookup, h]
  · have : (ext == k) = false := by simpa using h
    simp [List.lookup, h, this]

theorem ite_or_eq (p q : Prop) [Decidable p] [Decidable q] (a b : Str) :
    (if p ∨ q then a else b) = if p then a else if q then a else b := by
  by_cases hp : p <;> by_cases hq : q <;> simp [hp, hq]

theorem getType_eq_lookup (ext : Str) :
    getType ext = (mimeTable.lookup ext).getD (str "application/octet-stream") := by
  unfold getType mimeTable
  simp only [lookup_cons_getD, ite_or_eq]
  rfl

/-- Claim C30. With the file read a function from paths to optional contents:
when the file cannot be opened, `setBodyFromFile(path)` sets `status_code` to
404 and `status_message` to "Not Found", empties the body and changes nothing
else, the headers included; when it can be opened, the body becomes the whole
contents, the Content-Type header becomes `getType(getExtension(path))`, the
other headers, the status and every other field are unchanged; and `getType`
gives the type of the table for an extension of the table and
"application/octet-stream" for every other one. -/
theorem setBodyFromFile_spec (files : FileReader) (filepath : Str) (r : Response) :
    (files filepath = none →
      r.setBodyFromFile files filepath =
        { r with status_code := 404, status_message := str "Not Found", body := [] }) ∧
    (∀ contents : Str, files filepath = some contents →
      r.setBodyFromFile files filepath =
        { r with
          body := contents,
          headers := mapSet (str "Content-Type") (getType (getExtension filepath)) r.headers } ∧
      mapFind (str "Content-Type") (r.setBodyFromFile files filepath).headers =
        some (getType (getExtension filepath)) ∧
      (∀ k : Str, k ≠ str "Content-Type" →
        mapFind k (r.setBodyFromFile files filepath).headers = mapFind k r.headers) ∧
      (r.setBodyFromFile files filepath).status_code = r.status_code ∧
      (r.setBodyFromFile files filepath).status_message = r.status_message) ∧
    (∀ ext : Str,
      getType ext = (mimeTable.lookup ext).getD (str "application/octet-stream")) := by
  refine ⟨?_, ?_, getType_eq_lookup⟩
  · intro h
    simp only [Response.setBodyFromFile, h, Response.setStatus]
    rfl
  · intro contents h
    have e : r.setBodyFromFile files filepath =
        { r with
          body := contents,
          headers := mapSet (str "Content-Type") (getType (getExtension filepath)) r.headers } := by
      simp only [Response.setBodyFromFile, h, Response.setHeader]
    rw [e]
    exact ⟨rfl, mapFind_mapSet_same _ _ _, fun k hk => mapFind_mapSet_other _ _ _ _ hk, rfl, rfl⟩

theorem setBodyFromFile_spec_witness :
    (Response.fresh.setBodyFromFile
        (fun p => if p = str "/www/style.css" then some (str "body{}") else none)
        (str "/www/missing.html") =
      { Response.fresh with
        status_code := 404, status_message := str "Not Found", body := [] }) ∧
    (((Response.fresh.setHeader (str "Content-Type") (str "x/y")).setHeader (str "Server")
          (str "webserv")).setBodyFromFile
        (fun p => if p = str "/www/style.css" then some (str "body{}") else none)
        (str "/www/style.css") =
      { Response.fresh with
        body := str "body{}",
        headers := [(str "Content-Type", str "text/css"), (str "Server", str "webserv")] }) ∧
    getType (str ".bin") = str "application/octet-stream" :=
  ⟨(setBodyFromFile_spec
      (fun p => if p = str "/www/style.css" then some (str "body{}") else none)
      (str "/www/missing.html") Response.fresh).1 (by decide),
   ((setBodyFromFile_spec
      (fun p => if p = str "/www/style.css" then some (str "body{}") else none)
      (str "/www/style.css")
      ((Response.fresh.setHeader (str "Content-Type") (str "x/y")).setHeader (str "Server")
        (str "webserv"))).2.1 (str "body{}") (by decide)).1.trans (by decide),
   ((setBodyFromFile_spec (fun _ => none) [] Response.fresh).2.2 (str ".bin")).trans
     (by decide)⟩

theorem lookup_cons_getD_int (a k : Int) (v d : Str) (t : List (Int × Str)) :
    (List.lookup a ((k, v) :: t)).getD d = if a = k then v else (List.lookup a t).getD d := by
  by_cases h : a = k
  · simp [List.lookup, h]
  · have : (a == k) = false := by simpa using h
    simp [List.lookup, h, this]

theorem getMessage_eq_lookup (code : Int) :
    getMessage code = (statusTable.lookup code).getD (str "Unknown") := by
  unfold getMessage statusTable
  simp only [lookup_cons_getD_int]
  rfl

/-- Claim C32. `setStatus(code)` sets `status_code` to the code and
`status_message` to the reason phrase of the fixed table of sixteen codes (200
OK, ..., 504 Gateway Timeout), "Unknown" for every other code, and changes
nothing else; `setStatus(code, message)` sets `status_code` to the code and
`status_message` to the caller's message for every code, and changes nothing
else. -/
theorem setStatus_spec (r : Response) (code : Int) (message : Str) :
    r.setStatus code =
      { r with
        status_code := code,
        status_message := (statusTable.lookup code).getD (str "Unknown") } ∧
    r.setStatusMsg code message = { r with status_code := code, status_message := message } ∧
    (∀ p ∈ statusTable, (r.setStatus p.1).status_message = p.2) ∧
    ((∀ p ∈ statusTable, p.1 ≠ code) → (r.setStatus code).status_message = str "Unknown") := by
  refine ⟨?_, rfl, ?_, ?_⟩
  · simp only [Response.setStatus, getMessage_eq_lookup]
  · intro p hp
    show getMessage p.1 = p.2
    revert p
    decide
  · intro h
    show getMessage code = str "Unknown"
    unfold getMessage
    simp only [statusTable, List.mem_cons, List.mem_singleton, forall_eq_or_imp, forall_eq,
      List.not_mem_nil, false_implies, implies_true, and_true] at h
    obtain ⟨h1, h2, h3, h4, h5, h6, h7, h8, h9, h10, h11, h12, h13, h14, h15, h16⟩ := h
    simp only [Ne.symm h1, Ne.symm h2, Ne.symm h3, Ne.symm h4, Ne.symm h5, Ne.symm h6,
      Ne.symm h7, Ne.symm h8, Ne.symm h9, Ne.symm h10, Ne.symm h11, Ne.symm h12, Ne.symm h13,
      Ne.symm h14, Ne.symm h15, Ne.symm h16, if_false]

theorem setStatus_spec_witness :
    (Response.fresh.setStatus 404).status_message = str "Not Found" ∧
    (Response.fresh.setStatus 418).status_message = str "Unknown" ∧
    (Response.fresh.setStatusMsg 200 (str "Fine")).status_message = str "Fine" :=
  ⟨(setStatus_spec Response.fresh 404 []).2.2.1 (404, str "Not Found") (by decide),
   (setStatus_spec Response.fresh 418 []).2.2.2 (by decide),
   congrArg Response.status_message (setStatus_spec Response.fresh 200 (str "Fine")).2.1⟩

/-- Claim C31. For every integer code, `Response::error(code)` is a response
with `status_code` the code, `status_message` `getMessage(code)`, the ready
flag true, the complete flag false, `bytes_sent` 0, the single header
Content-Type "text/html", an HTML body that contains the decimal notation of
the code, a space and `getMessage(code)` (in its title and in its heading), and
a send buffer that is the serialization of these fields by `build()`: the
status line, the Content-Type line, a Content-Length line with the byte length
of the body, the blank line and the body. -/
theorem error_response (code : Int) :
    (Response.error code).status_code = code ∧
    (Response.error code).status_message = getMessage code ∧
    (Response.error code).is_ready = true ∧
    (Response.error code).is_complete = false ∧
    (Response.error code).bytes_sent = 0 ∧
    (Response.error code).headers = [(str "Content-Type", str "text/html")] ∧
    (Response.error code).body =
      str "<!DOCTYPE html>\n<html>\n<head><title>" ++
        (decimalInt code ++ str " " ++ getMessage code) ++
        str "</title></head>\n<body>\n<h1>" ++
        (decimalInt code ++ str " " ++ getMessage code) ++
        str "</h1>\n</body>\n</html>\n" ∧
    (decimalInt code ++ str " " ++ getMessage code) <:+: (Response.error code).body ∧
    (Response.error code).send_buffer =
      str "HTTP/1.1 " ++ decimalInt code ++ str " " ++ getMessage code ++ str "\r\n" ++
        str "Content-Type: text/html\r\n" ++
        str "Content-Length: " ++ decimal (Response.error code).body.length ++ str "\r\n" ++
        str "\r\n" ++ (Response.error code).body ∧
    (Response.error code).build = Response.error code := by
  have hbody : (Response.error code).body =
      str "<!DOCTYPE html>\n<html>\n<head><title>" ++
        (decimalInt code ++ str " " ++ getMessage code) ++
        str "</title></head>\n<body>\n<h1>" ++
        (decimalInt code ++ str " " ++ getMessage code) ++
        str "</h1>\n</body>\n</html>\n" := by
    simp only [Response.error, Response.build, Response.setBody, intToDec_eq_decimalInt]
    have e1 : str "<!DOCTYPE html>\n<html>\n<head><title>" =
        str "<!DOCTYPE html>\n" ++ str "<html>\n" ++ str "<head><title>" := by decide
    have e2 : str "</title></head>\n<body>\n<h1>" =
        str "</title></head>\n" ++ str "<body>\n" ++ str "<h1>" := by decide
    have e3 : str "</h1>\n</body>\n</html>\n" =
        str "</h1>\n" ++ str "</body>\n" ++ str "</html>\n" := by decide
    rw [e1, e2, e3]
    simp only [List.append_assoc]
  have hcl : mapFind (str "Content-Length")
      (mapSet (str "Content-Type") (str "text/html") []) = none := by decide
  refine ⟨rfl, rfl, rfl, rfl, rfl, rfl, hbody, ?_, ?_, ?_⟩
  · rw [hbody]
    exact ⟨str "<!DOCTYPE html>\n<html>\n<head><title>",
      str "</title></head>\n<body>\n<h1>" ++
        (decimalInt code ++ str " " ++ getMessage code) ++
        str "</h1>\n</body>\n</html>\n", by simp only [List.append_assoc]⟩
  · simp only [Response.error, Response.build, Response.setBody, Response.setHeader,
      Response.setStatus, Response.fresh, Response.buildStatusLine, Response.buildHeaders, hcl,
      if_true, intToDec_eq_decimalInt, natToDec_eq_decimal]
    have e4 : buildHeadersLoop (mapSet (str "Content-Type") (str "text/html") []) [] =
        str "Content-Type: text/html\r\n" := by decide
    rw [e4]
    simp only [List.append_assoc]
  · rfl

theorem resolvePath_root (uri : Str) (loc : LocationConfig) :
    resolvePath uri loc =
      stripSlash (if loc.root_dir = [] then str "./www" else loc.root_dir) ++
        uriRemainder uri loc.path_url := by
  unfold resolvePath stripSlash uriRemainder
  simp only
  generalize (if loc.root_dir = [] then str "./www" else loc.root_dir) = root0
  congr 1
  · by_cases hroot : root0 = []
    · subst hroot; simp
    · by_cases hl : root0.getLast? = some 47
      · rw [if_pos hl, if_pos ⟨hroot, (getD_last_eq _ hroot).mpr hl⟩]
        simp [substr, List.dropLast_eq_take]
      · rw [if_neg hl, if_neg]
        rintro ⟨_, hc⟩
        exact hl ((getD_last_eq _ hroot).mp hc)
  · rw [ensure_slash]
    by_cases hp : loc.path_url = str "/"
    · simp only [hp, if_true]
    · simp only [hp, if_false]
      by_cases hlen : uri.length > loc.path_url.length
      · simp only [hlen, if_true, substrFrom]
      · have hd : List.drop loc.path_url.length uri = [] :=
          List.drop_eq_nil_of_le (by omega)
        simp only [hlen, if_false, hd, if_true]
        decide

theorem uriRemainder_head (uri path : Str) :
    ∃ rem, uriRemainder uri path = 47 :: rem := by
  unfold uriRemainder
  simp only
  generalize (if path = str "/" then uri else List.drop path.length uri) = rel
  split
  · exact ⟨[], rfl⟩
  · split
    · rename_i h1 h2
      cases rel with
      | nil => exact absurd rfl h1
      | cons a t =>
        simp only [List.head?_cons, Option.some.injEq] at h2
        exact ⟨t, by rw [h2]⟩
    · exact ⟨rel, rfl⟩

/-- Claim C33. For a location with an empty `root_dir`, `resolvePath` takes
the fixed root "./www": the resolved path is "./www" followed by the remainder
of the uri, for every uri; and `route` never reads the `root_dir` of the
server, its result is the same for every value of that field. -/
theorem resolvePath_ignores_server_root :
    (∀ (uri : Str) (loc : LocationConfig), loc.root_dir = [] →
      resolvePath uri loc = str "./www" ++ uriRemainder uri loc.path_url) ∧
    (∀ (fs : FileSystem) (request : Request) (sv : ServerConfig) (root : Str),
      route fs request (some { sv with root_dir := root }) = route fs request (some sv)) := by
  constructor
  · intro uri loc h
    rw [resolvePath_root, if_pos h]
    rfl
  · intro fs request sv root
    rfl

theorem resolvePath_ignores_server_root_witness :
    resolvePath (str "/index.html") { LocationConfig.fresh with path_url := str "/" } =
      str "./www" ++ uriRemainder (str "/index.html") (str "/") ∧
    route (fun _ => FileKind.regular)
        { Request.fresh with method := str "GET", uri := str "/index.html" }
        (some { ServerConfig.fresh with
          root_dir := str "/srv/site",
          locations := [{ LocationConfig.fresh with path_url := str "/" }] }) =
      route (fun _ => FileKind.regular)
        { Request.fresh with method := str "GET", uri := str "/index.html" }
        (some { ServerConfig.fresh with
          locations := [{ LocationConfig.fresh with path_url := str "/" }] }) :=
  ⟨resolvePath_ignores_server_root.1 (str "/index.html")
      { LocationConfig.fresh with path_url := str "/" } (by decide),
   resolvePath_ignores_server_root.2 (fun _ => FileKind.regular)
      { Request.fresh with method := str "GET", uri := str "/index.html" }
      { ServerConfig.fresh with
        locations := [{ LocationConfig.fresh with path_url := str "/" }] }
      (str "/srv/site")⟩

/-- Claim C33, failing input. A server with `root_dir` "/srv/site" and a
location "/" without a root of its own: the uri "/index.html" is resolved to
"./www/index.html", not to "/srv/site/index.html"; on a filesystem that holds
only "/srv/site/index.html", `route` returns Error(404). -/
theorem server_root_not_used :
    ({ LocationConfig.fresh with path_url := str "/" } : LocationConfig).root_dir = [] ∧
    resolvePath (str "/index.html") { LocationConfig.fresh with path_url := str "/" } =
      str "./www/index.html" ∧
    str "/srv/site" ++ uriRemainder (str "/index.html") (str "/") = str "/srv/site/index.html" ∧
    route (fun p => if p = str "/srv/site/index.html" then FileKind.regular else FileKind.absent)
        { Request.fresh with method := str "GET", uri := str "/index.html" }
        (some { ServerConfig.fresh with
          root_dir := str "/srv/site",
          locations := [{ LocationConfig.fresh with path_url := str "/" }] }) =
      { RouteResult.fresh with
        type := RouteType.ROUTE_ERROR, error_code := 404,
        filepath := str "./www/index.html" } := by
  decide

theorem locMatchesChecked_eq (uri path : Str) :
    locMatchesChecked uri path = some (locMatches uri path) := by
  unfold locMatchesChecked locMatches
  by_cases h1 : (substr uri 0 path.length == path) = true
  · simp only [h1, if_true, Bool.true_and]
    by_cases h2 : (uri.length == path.length) = true
    · simp only [h2, if_true, Bool.true_or]
    · by_cases h3 : (path == str "/") = true
      · simp only [h2, h3, if_true, Bool.or_true, Bool.true_or]
        simp
      · have hp : path <+: uri := by
          have := beq_iff_eq.mp h1
          rw [← this]
          simp only [substr, List.drop_zero]
          exact List.take_prefix _ _
        have hle := hp.length_le
        have hne : uri.length ≠ path.length := by simpa using h2
        have hlt : path.length < uri.length := by omega
        simp only [h2, h3, Bool.false_eq_true, if_false, Bool.false_or]
        rw [List.get?_eq_getElem?, List.getElem?_eq_getElem hlt, List.getD_eq_getElem _ _ hlt]
  · simp only [h1, Bool.false_eq_true, if_false]
    simp only [Bool.not_eq_true] at h1
    simp [h1]

theorem resolvePath_ne_nil (uri : Str) (loc : LocationConfig) :
    resolvePath uri loc ≠ [] ∧
    ∃ rem, resolvePath uri loc =
      stripSlash (if loc.root_dir = [] then str "./www" else loc.root_dir) ++ 47 :: rem := by
  obtain ⟨rem, hrem⟩ := uriRemainder_head uri loc.path_url
  rw [resolvePath_root, hrem]
  exact ⟨by simp, rem, rfl⟩

/-- Claim C39. Every character access by index of the Router is in bounds. In
`findBestMatch` the tests of a location path, with the access
`uri[path.size()]` checked, never fail and give the result of the unchecked
tests: the access is evaluated only after the prefix comparison succeeded with
`uri.size()` different from `path.size()`, and then `path.size()` is below
`uri.size()`. And `resolvePath` returns, for every uri and location, a
non-empty string, the root followed by a remainder that begins with '/', so
that the access to its last character in `route` is in bounds. -/
theorem router_index_in_bounds :
    (∀ uri path : Str, locMatchesChecked uri path = some (locMatches uri path)) ∧
    (∀ uri path : Str, substr uri 0 path.length = path → uri.length ≠ path.length →
      path.length < uri.length) ∧
    (∀ (uri : Str) (loc : LocationConfig),
      resolvePath uri loc ≠ [] ∧
      (∃ rem, resolvePath uri loc =
        stripSlash (if loc.root_dir = [] then str "./www" else loc.root_dir) ++ 47 :: rem) ∧
      (resolvePath uri loc).length - 1 < (resolvePath uri loc).length ∧
      (resolvePath uri loc).get? ((resolvePath uri loc).length - 1) =
        some ((resolvePath uri loc).getD ((resolvePath uri loc).length - 1) 0)) := by
  refine ⟨locMatchesChecked_eq, ?_, ?_⟩
  · intro uri path h hne
    have hp : path <+: uri := by
      rw [← h]
      simp only [substr, List.drop_zero]
      exact List.take_prefix _ _
    have := hp.length_le
    omega
  · intro uri loc
    obtain ⟨hne, hrem⟩ := resolvePath_ne_nil uri loc
    have hlen : 0 < (resolvePath uri loc).length := List.length_pos.mpr hne
    have hlt : (resolvePath uri loc).length - 1 < (resolvePath uri loc).length := by omega
    refine ⟨hne, hrem, hlt, ?_⟩
    rw [List.get?_eq_getElem?, List.getElem?_eq_getElem hlt, List.getD_eq_getElem _ _ hlt]

theorem router_index_in_bounds_witness :
    locMatchesChecked (str "/images/photo.jpg") (str "/images") = some true ∧
    locMatchesChecked (str "/im") (str "/images") = some false ∧
    (str "/images").length < (str "/images/photo.jpg").length ∧
    resolvePath [] { LocationConfig.fresh with path_url := str "/x", root_dir := str "/" } ≠ [] :=
  ⟨(router_index_in_bounds.1 (str "/images/photo.jpg") (str "/images")).trans (by decide),
   (router_index_in_bounds.1 (str "/im") (str "/images")).trans (by decide),
   router_index_in_bounds.2.1 (str "/images/photo.jpg") (str "/images") (by decide) (by decide),
   (router_index_in_bounds.2.2 []
      { LocationConfig.fresh with path_url := str "/x", root_dir := str "/" }).1⟩

theorem rfindChar_none (c : Nat) (l : Str) : rfindChar c l = none ↔ c ∉ l := by
  induction l with
  | nil => simp [rfindChar]
  | cons a t ih =>
    rw [rfindChar]
    cases h : rfindChar c t with
    | none =>
      have ht := ih.mp h
      by_cases hac : a = c
      · simp [hac]
      · simp [hac, ht, Ne.symm hac]
    | some i =>
      have ht : c ∈ t := by
        by_contra hn
        rw [ih.mpr hn] at h
        simp at h
      simp [ht]

theorem rfindChar_append (c : Nat) (a b : Str) (hb : c ∉ b) :
    rfindChar c (a ++ c :: b) = some a.length := by
  induction a with
  | nil =>
    simp only [List.nil_append, rfindChar, (rfindChar_none c b).mpr hb, if_true, List.length_nil]
  | cons x a2 ih =>
    rw [List.cons_append, rfindChar, ih]
    rfl

theorem rfindChar_some (c : Nat) (l : Str) :
    ∀ p, rfindChar c l = some p → l = l.take p ++ c :: l.drop (p + 1) ∧ c ∉ l.drop (p + 1) := by
  induction l with
  | nil => intro p h; simp [rfindChar] at h
  | cons a t ih =>
    intro p h
    rw [rfindChar] at h
    cases ht : rfindChar c t with
    | none =>
      rw [ht] at h
      simp only at h
      split at h
      · rename_i hac
        simp only [Option.some.injEq] at h
        subst h
        subst hac
        simp only [List.take_zero, List.nil_append, Nat.zero_add, List.drop_succ_cons,
          List.drop_zero, true_and]
        exact (rfindChar_none _ t).mp ht
      · simp at h
    | some i =>
      rw [ht] at h
      simp only [Option.some.injEq] at h
      subst h
      obtain ⟨h1, h2⟩ := ih i ht
      simp only [List.take_succ_cons, List.drop_succ_cons, List.cons_append]
      exact ⟨by rw [← h1], h2⟩

theorem fileName_spec (path : Str) :
    47 ∉ fileName path ∧
    ((47 ∉ path ∧ fileName path = path) ∨ ∃ dir, path = dir ++ 47 :: fileName path) := by
  unfold fileName
  cases h : rfindChar 47 path with
  | none =>
    have := (rfindChar_none 47 path).mp h
    exact ⟨this, Or.inl ⟨this, rfl⟩⟩
  | some p =>
    obtain ⟨h1, h2⟩ := rfindChar_some 47 path p h
    exact ⟨h2, Or.inr ⟨path.take p, h1⟩⟩

theorem exists_last_occurrence (c : Nat) (l : Str) (h : c ∈ l) :
    ∃ a b, l = a ++ c :: b ∧ c ∉ b := by
  cases hr : rfindChar c l with
  | none => exact absurd h ((rfindChar_none c l).mp hr)
  | some p =>
    obtain ⟨h1, h2⟩ := rfindChar_some c l p hr
    exact ⟨_, _, h1, h2⟩

theorem getExtension_append (a b : Str) (hb : 46 ∉ b) :
    getExtension (a ++ 46 :: b) = 46 :: b := by
  unfold getExtension
  rw [rfindChar_append 46 a b hb]
  simp [substrFrom]

theorem fileExtension_eq (path : Str) : fileExtension path = getExtension (fileName path) := by
  unfold fileExtension getExtension
  cases rfindChar 46 (fileName path) <;> rfl

/-- Claim C34. What `getExtension` returns: nothing for a path without '.';
the extension of the file name (the suffix of the last '/'-separated component
from its last '.'), which holds no '/', when the file name holds a '.'; and,
when the last '.' of the path lies in a directory name, a text from that '.'
on that holds a '/', while the file name has no extension. -/
theorem getExtension_spec (path : Str) :
    (46 ∉ path → getExtension path = []) ∧
    (46 ∈ fileName path →
      getExtension path = fileExtension path ∧ 47 ∉ getExtension path) ∧
    (46 ∈ path → 46 ∉ fileName path →
      fileExtension path = [] ∧ 47 ∈ getExtension path) := by
  obtain ⟨hn, hcase⟩ := fileName_spec path
  rw [fileExtension_eq]
  generalize fileName path = name at hn hcase ⊢
  refine ⟨?_, ?_, ?_⟩
  · intro h
    unfold getExtension
    rw [(rfindChar_none 46 path).mpr h]
  · intro hdot
    obtain ⟨a, b, hab, hb⟩ := exists_last_occurrence 46 name hdot
    subst hab
    have h47 : 47 ∉ 46 :: b := by
      intro hm
      exact hn (by simp only [List.mem_append]; exact Or.inr hm)
    rcases hcase with ⟨_, hfn⟩ | ⟨dir, hdir⟩
    · rw [← hfn, getExtension_append a b hb]
      exact ⟨rfl, h47⟩
    · have hpath : path = (dir ++ 47 :: a) ++ 46 :: b := by
        rw [hdir]; simp [List.append_assoc]
      rw [hpath, getExtension_append _ b hb, getExtension_append a b hb]
      exact ⟨rfl, h47⟩
  · intro hdot hnodot
    have hfe : getExtension name = [] := by
      unfold getExtension
      rw [(rfindChar_none _ _).mpr hnodot]
    refine ⟨hfe, ?_⟩
    rcases hcase with ⟨_, hfn⟩ | ⟨dir, hdir⟩
    · rw [hfn] at hnodot
      exact absurd hdot hnodot
    · have hd : 46 ∈ dir := by
        rw [hdir] at hdot
        simp only [List.mem_append, List.mem_cons] at hdot
        rcases hdot with h | h | h
        · exact h
        · exact absurd h (by decide)
        · exact absurd h hnodot
      obtain ⟨a, b, hab, hb⟩ := exists_last_occurrence 46 dir hd
      have hno : 46 ∉ b ++ 47 :: name := by
        simp only [List.mem_append, List.mem_cons, not_or]
        exact ⟨hb, by decide, hnodot⟩
      have hpath : path = a ++ 46 :: (b ++ 47 :: name) := by
        rw [hdir, hab]; simp [List.append_assoc]
      rw [hpath, getExtension_append a _ hno]
      simp

theorem getExtension_spec_witness :
    getExtension (str "/www/README") = [] ∧
    (getExtension (str "/www/style.css") = fileExtension (str "/www/style.css") ∧
      47 ∉ getExtension (str "/www/style.css")) ∧
    getExtension (str "/www/style.css") = str ".css" ∧
    (fileExtension (str "/www.d/file") = [] ∧ 47 ∈ getExtension (str "/www.d/file")) :=
  ⟨(getExtension_spec (str "/www/README")).1 (by decide),
   (getExtension_spec (str "/www/style.css")).2.1 (by decide),
   by decide,
   (getExtension_spec (str "/www.d/file")).2.2 (by decide) (by decide)⟩

/-- Claim C34, failing input. The path "/www.d/file" has the file name "file",
which holds no '.', so its extension is empty; `getExtension` returns
".d/file", which holds a '/'. For a location that maps ".py" to an interpreter,
the path "./www/a.py/run" is not a CGI script and the path "./www/a.py" is. -/
theorem getExtension_directory_dot :
    fileName (str "/www.d/file") = str "file" ∧
    fileExtension (str "/www.d/file") = [] ∧
    getExtension (str "/www.d/file") = str ".d/file" ∧
    47 ∈ getExtension (str "/www.d/file") ∧
    getExtension (str "./www/a.py/run") = str ".py/run" ∧
    isCGI (str "./www/a.py/run")
      { LocationConfig.fresh with cgi_handlers := [(str ".py", str "/usr/bin/python3")] } =
      false ∧
    isCGI (str "./www/a.py")
      { LocationConfig.fresh with cgi_handlers := [(str ".py", str "/usr/bin/python3")] } =
      true := by
  decide

/-! ## Request parser: theorems -/

theorem StateMove.refl (s : RequestState) : StateMove s s := Or.inl rfl

theorem StateMove.trans {a b c : RequestState} (h1 : StateMove a b) (h2 : StateMove b c) :
    StateMove a c := by
  revert h1 h2
  cases a <;> cases b <;> cases c <;> decide

theorem parseRequestLine_state (line : Str) (r : Request) :
    (Request.parseRequestLine line r).2.state = r.state := by
  unfold Request.parseRequestLine
  repeat' split
  all_goals rfl

theorem parseHeader_state (line : Str) (r : Request) :
    (Request.parseHeader line r).2.state = r.state := by
  unfold Request.parseHeader
  split
  · rfl
  · simp only
    repeat' split
    all_goals rfl

theorem parseBody_state (r : Request) :
    (Request.parseBody r).2.state =
      if (Request.parseBody r).1 = true then RequestState.COMPLETE else r.state := by
  unfold Request.parseBody
  simp only
  split <;> simp

theorem parseChunkedBody_state (fuel : Nat) :
    ∀ (r : Request) (b : Bool) (r2 : Request),
      Request.parseChunkedBody fuel r = some (b, r2) →
      r2.state = if b = true then RequestState.COMPLETE else r.state := by
  induction fuel with
  | zero => intro r b r2 h; simp [Request.parseChunkedBody] at h
  | succ f ih =>
    intro r b r2 h
    rw [Request.parseChunkedBody] at h
    split at h
    · simp only [Option.some.injEq, Prod.mk.injEq] at h
      obtain ⟨rfl, rfl⟩ := h
      simp
    · simp only at h
      split at h
      · simp only [Option.some.injEq, Prod.mk.injEq] at h
        obtain ⟨rfl, rfl⟩ := h
        simp
      · split at h
        · simp only [Option.some.injEq, Prod.mk.injEq] at h
          obtain ⟨rfl, rfl⟩ := h
          simp
        · have := ih _ b r2 h
          simpa using this

theorem parseLoop_move (fuel : Nat) :
    ∀ (r : Request) (b : Bool) (r2 : Request),
      Request.parseLoop fuel r = some (b, r2) → StateMove r.state r2.state := by
  induction fuel with
  | zero => intro r b r2 h; simp [Request.parseLoop] at h
  | succ f ih =>
    intro r b r2 h
    rw [Request.parseLoop] at h
    split at h
    · -- COMPLETE
      simp only [Option.some.injEq, Prod.mk.injEq] at h
      obtain ⟨_, rfl⟩ := h
      exact StateMove.refl _
    · simp only [Option.some.injEq, Prod.mk.injEq] at h
      obtain ⟨_, rfl⟩ := h
      exact StateMove.refl _
    · -- REQUEST_LINE
      rename_i hs
      split at h
      · simp only [Option.some.injEq, Prod.mk.injEq] at h
        obtain ⟨_, rfl⟩ := h
        exact StateMove.refl _
      · simp only at h
        split at h
        · simp only [Option.some.injEq, Prod.mk.injEq] at h
          obtain ⟨_, rfl⟩ := h
          rw [hs]
          show StateMove RequestState.REQUEST_LINE RequestState.ERROR
          decide
        · have := ih _ b r2 h
          rw [hs]
          exact StateMove.trans (show StateMove RequestState.REQUEST_LINE RequestState.HEADERS by decide) this
    · -- HEADERS
      rename_i hs
      split at h
      · simp only [Option.some.injEq, Prod.mk.injEq] at h
        obtain ⟨_, rfl⟩ := h
        exact StateMove.refl _
      · simp only at h
        split at h
        · split at h
          · have := ih _ b r2 h
            rw [hs]
            exact StateMove.trans (show StateMove RequestState.HEADERS RequestState.BODY by decide) this
          · split at h
            · have := ih _ b r2 h
              rw [hs]
              exact StateMove.trans (show StateMove RequestState.HEADERS RequestState.CHUNKED_BODY by decide) this
            · have := ih _ b r2 h
              rw [hs]
              exact StateMove.trans (show StateMove RequestState.HEADERS RequestState.COMPLETE by decide) this
        · split at h
          · simp only [Option.some.injEq, Prod.mk.injEq] at h
            obtain ⟨_, rfl⟩ := h
            rw [hs]
            show StateMove RequestState.HEADERS RequestState.ERROR
            decide
          · rename_i r3 hp
            have := ih _ b r2 h
            have hst := congrArg (fun x => x.2.state) hp
            simp only [parseHeader_state] at hst
            rw [← hst] at this
            exact this
    · -- BODY
      rename_i hs
      split at h
      · rename_i r1 hp
        simp only [Option.some.injEq, Prod.mk.injEq] at h
        obtain ⟨_, rfl⟩ := h
        have hst := parseBody_state r
        rw [hp] at hst
        simp at hst
        rw [hst]
        exact StateMove.refl _
      · rename_i r1 hp
        have := ih _ b r2 h
        have hst := parseBody_state r
        rw [hp] at hst
        simp only [if_true] at hst
        rw [hst] at this
        rw [hs]
        exact StateMove.trans (show StateMove RequestState.BODY RequestState.COMPLETE by decide) this
    · -- CHUNKED_BODY
      rename_i hs
      split at h
      · simp at h
      · rename_i r1 hp
        simp only [Option.some.injEq, Prod.mk.injEq] at h
        obtain ⟨_, rfl⟩ := h
        have hst := parseChunkedBody_state _ _ _ _ hp
        simp at hst
        rw [hst]
        exact StateMove.refl _
      · rename_i r1 hp
        have := ih _ b r2 h
        have hst := parseChunkedBody_state _ _ _ _ hp
        simp only [if_true] at hst
        rw [hst] at this
        rw [hs]
        exact StateMove.trans (show StateMove RequestState.CHUNKED_BODY RequestState.COMPLETE by decide) this

theorem parseLoop_terminal (fuel : Nat) (r : Request)
    (h : r.state = RequestState.COMPLETE ∨ r.state = RequestState.ERROR) :
    Request.parseLoop (fuel + 1) r = some (decide (r.state = RequestState.COMPLETE), r) := by
  rw [Request.parseLoop]
  rcases h with h | h <;> simp [h]

/-- Claim C5. One call of `parse` that returns moves the state only forward
along REQUEST_LINE -> HEADERS -> (BODY | CHUNKED_BODY) -> COMPLETE, or from a
non-terminal state to ERROR; and in state COMPLETE or ERROR the call returns
(true exactly in state COMPLETE) and changes nothing but the carry-over buffer,
to which the data is appended. -/
theorem parse_state_moves (raw : Str) (r : Request) :
    (∀ (b : Bool) (r2 : Request), Request.parse raw r = some (b, r2) →
      StateMove r.state r2.state) ∧
    (r.state = RequestState.COMPLETE ∨ r.state = RequestState.ERROR →
      Request.parse raw r =
        some (decide (r.state = RequestState.COMPLETE),
          { r with read_buffer := r.read_buffer ++ raw })) := by
  constructor
  · intro b r2 h
    exact parseLoop_move _ { r with read_buffer := r.read_buffer ++ raw } b r2 h
  · intro h
    unfold Request.parse Request.parseFuel
    exact parseLoop_terminal _ _ h

theorem parse_state_moves_witness :
    (Request.parse (str "GET / HTTP/1.1\r\nHost: x\r\n\r\n") Request.fresh).isSome = true ∧
    (∀ (b : Bool) (r2 : Request),
      Request.parse (str "GET / HTTP/1.1\r\nHost: x\r\n\r\n") Request.fresh = some (b, r2) →
        StateMove Request.fresh.state r2.state) ∧
    Request.parse (str "more")
        { Request.fresh with state := RequestState.ERROR, error_code := 400 } =
      some (false, { Request.fresh with state := RequestState.ERROR, error_code := 400,
                                        read_buffer := str "more" }) :=
  ⟨by decide,
   (parse_state_moves (str "GET / HTTP/1.1\r\nHost: x\r\n\r\n") Request.fresh).1,
   (parse_state_moves (str "more")
     { Request.fresh with state := RequestState.ERROR, error_code := 400 }).2 (Or.inr rfl)⟩

theorem findCRLF_append_crlf (l : Str) (hl : findCRLF l = none) (rest : Str) :
    findCRLF (l ++ 13 :: 10 :: rest) = some l.length := by
  induction l with
  | nil => simp [findCRLF]
  | cons a l2 ih =>
    cases l2 with
    | nil =>
      simp only [List.cons_append, List.nil_append, List.length_singleton]
      rw [findCRLF, if_neg (by omega), findCRLF, if_pos ⟨rfl, rfl⟩]
      rfl
    | cons b l3 =>
      rw [findCRLF] at hl
      split at hl
      · simp at hl
      · rename_i hab
        simp only [Option.map_eq_none'] at hl
        simp only [List.cons_append]
        rw [findCRLF, if_neg hab]
        have := ih hl
        simp only [List.cons_append] at this
        rw [this]
        simp

theorem findCRLF_spec (s : Str) (pos : Nat) (h : findCRLF s = some pos) :
    s = s.take pos ++ 13 :: 10 :: s.drop (pos + 2) ∧ findCRLF (s.take pos) = none := by
  induction s generalizing pos with
  | nil => simp [findCRLF] at h
  | cons a s2 ih =>
    cases s2 with
    | nil => simp [findCRLF] at h
    | cons b s3 =>
      rw [findCRLF] at h
      split at h
      · rename_i hab
        simp only [Option.some.injEq] at h
        subst h
        obtain ⟨rfl, rfl⟩ := hab
        simp [findCRLF]
      · rename_i hab
        simp only [Option.map_eq_some'] at h
        obtain ⟨p, hp, rfl⟩ := h
        obtain ⟨h1, h2⟩ := ih p hp
        refine ⟨?_, ?_⟩
        · simp only [List.take_succ_cons, List.drop_succ_cons, List.cons_append, List.cons.injEq,
            true_and]
          exact h1
        · simp only [List.take_succ_cons]
          cases p with
          | zero => simp [findCRLF]
          | succ q =>
            simp only [List.take_succ_cons] at h2 ⊢
            rw [findCRLF, if_neg hab, h2]
            rfl

theorem parseChunkedBody_mono (f : Nat) :
    ∀ (r : Request) (x : Bool × Request), Request.parseChunkedBody f r = some x →
      ∀ g, f ≤ g → Request.parseChunkedBody g r = some x := by
  induction f with
  | zero => intro r x h; simp [Request.parseChunkedBody] at h
  | succ f ih =>
    intro r x h g hg
    obtain ⟨g2, rfl⟩ : ∃ g2, g = g2 + 1 := ⟨g - 1, by omega⟩
    rw [Request.parseChunkedBody] at h ⊢
    split at h
    · rename_i hc; exact h
    · rename_i pos hc
      simp only [hc]
      simp only at h
      split at h
      · rename_i h0; rw [if_pos h0]; exact h
      · rename_i h0
        rw [if_neg h0]
        split at h
        · rename_i h1; rw [if_pos h1]; exact h
        · rename_i h1
          rw [if_neg h1]
          exact ih _ x h g2 (by omega)

theorem parseLoop_mono (f : Nat) :
    ∀ (r : Request) (x : Bool × Request), Request.parseLoop f r = some x →
      ∀ g, f ≤ g → Request.parseLoop g r = some x := by
  induction f with
  | zero => intro r x h; simp [Request.parseLoop] at h
  | succ f ih =>
    intro r x h g hg
    obtain ⟨g2, rfl⟩ : ∃ g2, g = g2 + 1 := ⟨g - 1, by omega⟩
    have hfg : f ≤ g2 := by omega
    rw [Request.parseLoop] at h ⊢
    split at h
    · rename_i hs; exact h
    · rename_i hs; exact h
    · rename_i hs
      split at h
      · rename_i hc; exact h
      · rename_i pos hc
        simp only [hc]
        simp only at h
        split at h
        · rename_i r2 hp; exact h
        · rename_i r2 hp; exact ih _ x h g2 hfg
    · rename_i hs
      split at h
      · rename_i hc; exact h
      · rename_i pos hc
        simp only [hc]
        simp only at h
        split at h
        · rename_i hp0
          simp only [hp0, if_true] at h ⊢
          split at h
          · rename_i h1; rw [if_pos h1]; exact ih _ x h g2 hfg
          · rename_i h1
            rw [if_neg h1]
            split at h
            · rename_i h2; rw [if_pos h2]; exact ih _ x h g2 hfg
            · rename_i h2; rw [if_neg h2]; exact ih _ x h g2 hfg
        · rename_i hp0
          rw [if_neg hp0]
          split at h
          · rename_i r2 hp; exact h
          · rename_i r2 hp; exact ih _ x h g2 hfg
    · rename_i hs
      split at h
      · rename_i r1 hp; exact h
      · rename_i r1 hp; exact ih _ x h g2 hfg
    · rename_i hs
      split at h
      · simp at h
      · rename_i r1 hp
        rw [parseChunkedBody_mono f r _ hp g2 hfg]
        exact h
      · rename_i r1 hp
        rw [parseChunkedBody_mono f r _ hp g2 hfg]
        exact ih _ x h g2 hfg

theorem dropWhile_isSpace_of_head (tok rest : Str) (hne : tok ≠ [])
    (hns : ∀ c ∈ tok, isSpace c = false) :
    (tok ++ rest).dropWhile isSpace = tok ++ rest := by
  cases tok with
  | nil => exact absurd rfl hne
  | cons a t =>
    have := hns a (by simp)
    simp [List.dropWhile, this]

theorem takeWhile_notSpace (tok rest : Str) (hns : ∀ c ∈ tok, isSpace c = false)
    (hrest : rest = [] ∨ ∃ c r, rest = c :: r ∧ isSpace c = true) :
    (tok ++ rest).takeWhile (fun c => !isSpace c) = tok ∧
    (tok ++ rest).dropWhile (fun c => !isSpace c) = rest := by
  induction tok with
  | nil =>
    rcases hrest with rfl | ⟨c, r, rfl, hc⟩
    · simp
    · simp [List.takeWhile, List.dropWhile, hc]
  | cons a t ih =>
    have ha := hns a (by simp)
    have := ih (fun c hc => hns c (by simp [hc]))
    simp [List.takeWhile, List.dropWhile, ha, this]

theorem extractToken_tok (tok rest : Str) (hne : tok ≠ [])
    (hns : ∀ c ∈ tok, isSpace c = false)
    (hrest : rest = [] ∨ ∃ c r, rest = c :: r ∧ isSpace c = true) :
    extractToken (tok ++ rest) = some (tok, rest) := by
  unfold extractToken
  simp only [dropWhile_isSpace_of_head tok rest hne hns, (takeWhile_notSpace tok rest hns hrest).1,
    (takeWhile_notSpace tok rest hns hrest).2, if_neg hne]

theorem extractToken_space (s : Str) : extractToken (32 :: s) = extractToken s := by
  unfold extractToken
  simp [List.dropWhile, isSpace]

theorem extract3_line (m t v : Str) (hm : m ≠ []) (hms : ∀ c ∈ m, isSpace c = false)
    (ht : t ≠ []) (hts : ∀ c ∈ t, isSpace c = false)
    (hv : v ≠ []) (hvs : ∀ c ∈ v, isSpace c = false) :
    extract3 (m ++ str " " ++ t ++ str " " ++ v) = some (m, t, v) := by
  have hsp : str " " = [32] := by decide
  have e1 : extractToken (m ++ (32 :: (t ++ (32 :: v)))) = some (m, 32 :: (t ++ (32 :: v))) :=
    extractToken_tok m _ hm hms (Or.inr ⟨32, _, rfl, by decide⟩)
  have e2 : extractToken (t ++ (32 :: v)) = some (t, 32 :: v) :=
    extractToken_tok t _ ht hts (Or.inr ⟨32, _, rfl, by decide⟩)
  have e3 : extractToken (v ++ []) = some (v, []) :=
    extractToken_tok v [] hv hvs (Or.inl rfl)
  rw [List.append_nil] at e3
  unfold extract3
  simp only [hsp, List.append_assoc, List.cons_append, List.nil_append, e1, extractToken_space, e2,
    e3]

theorem parseRequestLine_frame (line : Str) (r : Request) :
    SameBodyState r (Request.parseRequestLine line r).2 ∧
    (Request.parseRequestLine line r).2.content_length = r.content_length ∧
    (Request.parseRequestLine line r).2.is_chunked = r.is_chunked ∧
    (Request.parseRequestLine line r).2.headers = r.headers := by
  unfold Request.parseRequestLine SameBodyState
  repeat' split
  all_goals exact ⟨⟨rfl, rfl, rfl, rfl⟩, rfl, rfl, rfl⟩

theorem parseRequestLine_valid (method target version : Str) (r : Request)
    (hm : method = str "GET" ∨ method = str "POST" ∨ method = str "DELETE")
    (hv : version = str "HTTP/1.0" ∨ version = str "HTTP/1.1")
    (ht : target ≠ []) (hts : ∀ c ∈ target, isSpace c = false)
    (hlen : (method ++ str " " ++ target ++ str " " ++ version).length ≤ MAX_URI_LENGTH) :
    (Request.parseRequestLine (method ++ str " " ++ target ++ str " " ++ version) r).1 = true := by
  have hmne : method ≠ [] ∧ ∀ c ∈ method, isSpace c = false := by
    rcases hm with rfl | rfl | rfl <;> exact ⟨by decide, by decide⟩
  have hvne : version ≠ [] ∧ ∀ c ∈ version, isSpace c = false := by
    rcases hv with rfl | rfl <;> exact ⟨by decide, by decide⟩
  have hm2 : ¬ (method ≠ str "GET" ∧ method ≠ str "POST" ∧ method ≠ str "DELETE") := by
    rcases hm with h | h | h <;> simp [h]
  have hv2 : ¬ (version ≠ str "HTTP/1.0" ∧ version ≠ str "HTTP/1.1") := by
    rcases hv with h | h <;> simp [h]
  unfold Request.parseRequestLine
  rw [if_neg (by omega), extract3_line method target version hmne.1 hmne.2 ht hts hvne.1 hvne.2]
  simp only
  rw [if_neg hm2, if_neg hv2]
  split <;> rfl

theorem parseHeader_buffer (line : Str) (r : Request) (buf : Str) :
    Request.parseHeader line { r with read_buffer := buf } =
      ((Request.parseHeader line r).1, { (Request.parseHeader line r).2 with read_buffer := buf }) := by
  unfold Request.parseHeader
  split
  · rfl
  · simp only
    repeat' split
    all_goals rfl

theorem parseHeader_frame (line : Str) (r : Request) :
    SameBodyState r (Request.parseHeader line r).2 := by
  unfold Request.parseHeader SameBodyState
  split
  · exact ⟨rfl, rfl, rfl, rfl⟩
  · simp only
    repeat' split
    all_goals exact ⟨rfl, rfl, rfl, rfl⟩

theorem findChar_isSome_of_mem (c : Nat) (l : Str) (h : c ∈ l) : (findChar c l).isSome = true := by
  induction l with
  | nil => simp at h
  | cons a l2 ih =>
    rw [findChar]
    by_cases hac : a = c
    · simp [hac]
    · rcases List.mem_cons.mp h with h | h
      · exact absurd h.symm hac
      · have := ih h
        rw [if_neg hac]
        cases hf : findChar c l2 with
        | none => rw [hf] at this; simp at this
        | some p => simp

theorem parseHeader_ok (line : Str) (r : Request) (h : 58 ∈ line) :
    (Request.parseHeader line r).1 = true := by
  have := findChar_isSome_of_mem 58 line h
  unfold Request.parseHeader
  split
  · rename_i hn; rw [hn] at this; simp at this
  · simp only
    repeat' split
    all_goals rfl

theorem parseHeaders_frame (ls : List Str) :
    ∀ r : Request, SameBodyState r (Request.parseHeaders ls r) := by
  induction ls with
  | nil => intro r; exact ⟨rfl, rfl, rfl, rfl⟩
  | cons l ls2 ih =>
    intro r
    rw [Request.parseHeaders]
    obtain ⟨a1, a2, a3, a4⟩ := ih (Request.parseHeader l r).2
    obtain ⟨b1, b2, b3, b4⟩ := parseHeader_frame l r
    exact ⟨a1.trans b1, a2.trans b2, a3.trans b3, a4.trans b4⟩

theorem parseHeaders_buffer (ls : List Str) :
    ∀ (r : Request) (buf : Str),
      Request.parseHeaders ls { r with read_buffer := buf } =
        { Request.parseHeaders ls r with read_buffer := buf } := by
  induction ls with
  | nil => intro r buf; rfl
  | cons l ls2 ih =>
    intro r buf
    rw [Request.parseHeaders, Request.parseHeaders, parseHeader_buffer]
    exact ih _ buf

theorem parseHeaders_append (ls1 ls2 : List Str) (r : Request) :
    Request.parseHeaders (ls1 ++ ls2) r = Request.parseHeaders ls2 (Request.parseHeaders ls1 r) := by
  induction ls1 generalizing r with
  | nil => rfl
  | cons l ls ih => simp only [List.cons_append, Request.parseHeaders]; exact ih _

theorem parseLoop_request_line (f : Nat) (r : Request) (line rest : Str)
    (hs : r.state = RequestState.REQUEST_LINE)
    (hbuf : r.read_buffer = line ++ CRLF ++ rest) (hline : findCRLF line = none)
    (hok : (Request.parseRequestLine line { r with read_buffer := rest }).1 = true) :
    Request.parseLoop (f + 1) r =
      Request.parseLoop f
        { (Request.parseRequestLine line { r with read_buffer := rest }).2 with
          state := RequestState.HEADERS } := by
  have hfind : findCRLF r.read_buffer = some line.length := by
    rw [hbuf]
    simpa [CRLF] using findCRLF_append_crlf line hline rest
  have htake : substr r.read_buffer 0 line.length = line := by
    rw [hbuf]; simp [substr]
  have hdrop : erase0 r.read_buffer (line.length + 2) = rest := by
    rw [hbuf]; simp [erase0, CRLF, List.drop_append]
  rw [Request.parseLoop]
  simp only [hs, hfind, htake, hdrop]
  rcases hp : Request.parseRequestLine line { r with read_buffer := rest } with ⟨b, r2⟩
  rw [hp] at hok
  simp only at hok
  subst hok
  rw [hs] at hp
  simp only [hp]

theorem parseLoop_header_line (f : Nat) (r : Request) (line rest : Str)
    (hs : r.state = RequestState.HEADERS)
    (hbuf : r.read_buffer = line ++ CRLF ++ rest) (hline : HeaderLine line) :
    Request.parseLoop (f + 1) r =
      Request.parseLoop f { (Request.parseHeader line r).2 with read_buffer := rest } := by
  have hfind : findCRLF r.read_buffer = some line.length := by
    rw [hbuf]
    simpa [CRLF] using findCRLF_append_crlf line hline.2 rest
  have htake : substr r.read_buffer 0 line.length = line := by
    rw [hbuf]; simp [substr]
  have hdrop : erase0 r.read_buffer (line.length + 2) = rest := by
    rw [hbuf]; simp [erase0, CRLF, List.drop_append]
  have hne : line.length ≠ 0 := by
    intro h0
    have : line = [] := List.length_eq_zero.mp h0
    rw [this] at hline
    exact absurd hline.1 (by simp)
  have hok := parseHeader_ok line r hline.1
  rw [Request.parseLoop]
  simp only [hs, hfind, htake, hdrop, if_neg hne]
  have hb := parseHeader_buffer line r rest
  rw [hs] at hb
  rw [hb, hok]

theorem parseLoop_header_lines (ls : List Str) :
    ∀ (f : Nat) (r : Request) (rest : Str),
      r.state = RequestState.HEADERS → (∀ l ∈ ls, HeaderLine l) →
      r.read_buffer = joinLines ls ++ rest →
      Request.parseLoop (f + ls.length) r =
        Request.parseLoop f { Request.parseHeaders ls r with read_buffer := rest } := by
  induction ls with
  | nil =>
    intro f r rest _ _ hbuf
    simp only [joinLines, List.map_nil, List.flatten_nil, List.nil_append] at hbuf
    simp only [List.length_nil, Nat.add_zero, Request.parseHeaders]
    rw [← hbuf]
  | cons l ls2 ih =>
    intro f r rest hs hls hbuf
    have hbuf2 : r.read_buffer = l ++ CRLF ++ (joinLines ls2 ++ rest) := by
      rw [hbuf]; simp [joinLines, List.append_assoc]
    have hstep := parseLoop_header_line (f + ls2.length) r l (joinLines ls2 ++ rest) hs hbuf2
      (hls l (by simp))
    rw [List.length_cons, ← Nat.add_assoc, hstep]
    have hs2 : ({ (Request.parseHeader l r).2 with read_buffer := joinLines ls2 ++ rest } :
        Request).state = RequestState.HEADERS := by
      show (Request.parseHeader l r).2.state = _
      rw [(parseHeader_frame l r).1, hs]
    rw [ih f _ rest hs2 (fun x hx => hls x (by simp [hx])) rfl]
    rw [Request.parseHeaders, parseHeaders_buffer]

theorem parseLoop_blank_line (f : Nat) (r : Request) (rest : Str)
    (hs : r.state = RequestState.HEADERS) (hbuf : r.read_buffer = CRLF ++ rest) :
    Request.parseLoop (f + 1) r =
      Request.parseLoop f
        { r with read_buffer := rest,
                 state := if r.content_length > 0 then RequestState.BODY
                          else if r.is_chunked = true then RequestState.CHUNKED_BODY
                          else RequestState.COMPLETE } := by
  have hfind : findCRLF r.read_buffer = some 0 := by
    rw [hbuf]; simp [CRLF, findCRLF]
  have hdrop : erase0 r.read_buffer 2 = rest := by
    rw [hbuf]; simp [erase0, CRLF]
  rw [Request.parseLoop]
  simp only [hs, hfind, hdrop, if_true]
  split
  · rfl
  · split <;> rfl

theorem decDigits_snoc (l : Str) (hl : ∀ c ∈ l, 48 ≤ c ∧ c ≤ 57) (c : Nat) (hc : 48 ≤ c ∧ c ≤ 57) :
    ∀ acc, decDigits (l ++ [c]) acc = decDigits l acc * 10 + (c - 48) := by
  induction l with
  | nil => intro acc; simp [decDigits, hc]
  | cons a l2 ih =>
    intro acc
    have ha := hl a (by simp)
    simp only [List.cons_append, decDigits, ha, and_self, if_true]
    exact ih (fun x hx => hl x (by simp [hx])) _

theorem decDigits_digits (ds : List Nat) (hds : ∀ d ∈ ds, d < 10) (acc : Nat) :
    decDigits ((ds.map (· + 48)).reverse) acc = acc * 10 ^ ds.length + Nat.ofDigits 10 ds := by
  induction ds with
  | nil => simp [decDigits]
  | cons d ds2 ih =>
    have hd := hds d (by simp)
    have hall : ∀ c ∈ (ds2.map (· + 48)).reverse, 48 ≤ c ∧ c ≤ 57 := by
      intro c hc
      simp only [List.mem_reverse, List.mem_map] at hc
      obtain ⟨x, hx, rfl⟩ := hc
      have := hds x (by simp [hx])
      omega
    simp only [List.map_cons, List.reverse_cons]
    rw [decDigits_snoc _ hall (d + 48) (by omega), ih (fun x hx => hds x (by simp [hx]))]
    simp only [List.length_cons, Nat.ofDigits_cons, Nat.add_sub_cancel, pow_succ]
    ring

theorem decDigits_decimal (n : Nat) : decDigits (decimal n) 0 = n := by
  unfold decimal
  split
  · rename_i h; subst h; rfl
  · rw [decDigits_digits _ (fun d hd => Nat.digits_lt_base (by omega) hd)]
    simp [Nat.ofDigits_digits]

theorem decimal_digit (n : Nat) : ∀ c ∈ decimal n, 48 ≤ c ∧ c ≤ 57 := by
  intro c hc
  unfold decimal at hc
  split at hc
  · simp at hc; omega
  · simp only [List.mem_reverse, List.mem_map] at hc
    obtain ⟨d, hd, rfl⟩ := hc
    have := Nat.digits_lt_base (by omega : 1 < 10) hd
    omega

theorem decimal_ne_nil (n : Nat) : decimal n ≠ [] := by
  unfold decimal
  split
  · simp
  · rename_i h
    simp only [ne_eq, List.reverse_eq_nil_iff, List.map_eq_nil_iff]
    exact fun h2 => h (Nat.digits_eq_nil_iff_eq_zero.mp h2)

theorem toSizeT_natCast (n : Nat) (h : n < 2 ^ 64) : toSizeT (n : Int) = n := by
  unfold toSizeT
  have : ((n : Int) % (2 ^ 64 : Int)) = (n : Int) := by
    apply Int.emod_eq_of_lt (by omega)
    have : ((2 : Int) ^ 64) = ((2 ^ 64 : Nat) : Int) := by norm_num
    rw [this]
    exact_mod_cast h
  rw [this]
  simp

theorem clampLong_small (n : Nat) (h : n < 2 ^ 63) : clampLong false n = (n : Int) := by
  unfold clampLong LONG_MAX
  have h2 : (n : Int) < 2 ^ 63 := by exact_mod_cast h
  simp only [Bool.false_eq_true, if_false]
  rw [if_neg (by omega)]

theorem atol_decimal (n : Nat) (h : n < 2 ^ 63) : toSizeT (atol (decimal n)) = n := by
  have hne := decimal_ne_nil n
  have hdig := decimal_digit n
  have hval := decDigits_decimal n
  unfold atol
  cases hd : decimal n with
  | nil => exact absurd hd hne
  | cons a l =>
    rw [hd] at hdig hval
    have ha := hdig a (by simp)
    have hsp : isSpace a = false := by
      simp only [isSpace, Bool.or_eq_false_iff, decide_eq_false_iff_not, Bool.and_eq_false_iff]
      omega
    have hdw : (a :: l).dropWhile isSpace = a :: l := by simp [List.dropWhile, hsp]
    rw [hdw]
    split
    · rename_i heq; simp only [List.cons.injEq] at heq; omega
    · rename_i heq; simp only [List.cons.injEq] at heq; omega
    · rw [hval, clampLong_small n h, toSizeT_natCast n (by omega)]

theorem hexDigitVal_hexChar (upper : Bool) (d : Nat) (h : d < 16) :
    hexDigitVal (hexChar upper d) = some d := by
  unfold hexDigitVal hexChar
  by_cases h10 : d < 10
  · simp only [h10, if_true]
    rw [if_pos (by omega)]
    simp
  · simp only [h10, if_false]
    cases upper
    · simp only [Bool.false_eq_true, if_false]
      rw [if_neg (by omega), if_pos (by omega)]
      simp
    · simp only [if_true]
      rw [if_neg (by omega), if_neg (by omega), if_pos (by omega)]
      simp

theorem hexDigits_snoc (l : Str) (hl : ∀ c ∈ l, (hexDigitVal c).isSome = true) (c d : Nat)
    (hc : hexDigitVal c = some d) :
    ∀ acc, hexDigits (l ++ [c]) acc = hexDigits l acc * 16 + d := by
  induction l with
  | nil => intro acc; simp [hexDigits, hc]
  | cons a l2 ih =>
    intro acc
    have ha := hl a (by simp)
    obtain ⟨v, hv⟩ := Option.isSome_iff_exists.mp ha
    simp only [List.cons_append, hexDigits, hv]
    exact ih (fun x hx => hl x (by simp [hx])) _

theorem hexDigits_digits (upper : Bool) (ds : List Nat) (hds : ∀ d ∈ ds, d < 16) (acc : Nat) :
    hexDigits ((ds.map (hexChar upper)).reverse) acc =
      acc * 16 ^ ds.length + Nat.ofDigits 16 ds := by
  induction ds with
  | nil => simp [hexDigits]
  | cons d ds2 ih =>
    have hd := hds d (by simp)
    have hall : ∀ c ∈ (ds2.map (hexChar upper)).reverse, (hexDigitVal c).isSome = true := by
      intro c hc
      simp only [List.mem_reverse, List.mem_map] at hc
      obtain ⟨x, hx, rfl⟩ := hc
      rw [hexDigitVal_hexChar upper x (hds x (by simp [hx]))]
      rfl
    simp only [List.map_cons, List.reverse_cons]
    rw [hexDigits_snoc _ hall _ d (hexDigitVal_hexChar upper d hd),
      ih (fun x hx => hds x (by simp [hx]))]
    simp only [List.length_cons, Nat.ofDigits_cons, pow_succ]
    ring

theorem hexadecimal_digit (upper : Bool) (n : Nat) :
    ∀ c ∈ hexadecimal upper n, (hexDigitVal c).isSome = true := by
  intro c hc
  unfold hexadecimal at hc
  split at hc
  · simp only [List.mem_singleton] at hc; subst hc; rfl
  · simp only [List.mem_reverse, List.mem_map] at hc
    obtain ⟨d, hd, rfl⟩ := hc
    rw [hexDigitVal_hexChar upper d (Nat.digits_lt_base (by omega) hd)]
    rfl

theorem hexDigits_hexadecimal (upper : Bool) (n : Nat) : hexDigits (hexadecimal upper n) 0 = n := by
  unfold hexadecimal
  split
  · rename_i h; subst h; rfl
  · rw [hexDigits_digits upper _ (fun d hd => Nat.digits_lt_base (by omega) hd)]
    simp [Nat.ofDigits_digits]

theorem hexadecimal_ne_nil (upper : Bool) (n : Nat) : hexadecimal upper n ≠ [] := by
  unfold hexadecimal
  split
  · simp
  · rename_i h
    simp only [ne_eq, List.reverse_eq_nil_iff, List.map_eq_nil_iff]
    exact fun h2 => h (Nat.digits_eq_nil_iff_eq_zero.mp h2)

theorem hexadecimal_length (upper : Bool) (n : Nat) (h : n < 2 ^ 64) :
    (hexadecimal upper n).length ≤ 16 := by
  unfold hexadecimal
  split
  · simp
  · simp only [List.length_reverse, List.length_map]
    rename_i hn0
    have h1 := Nat.base_pow_length_digits_le 16 n (by omega) hn0
    by_contra hc
    have h2 : 16 ^ 17 ≤ 16 ^ (Nat.digits 16 n).length :=
      Nat.pow_le_pow_right (by omega) (by omega)
    have h3 : (16 : Nat) ^ 17 = 16 * 2 ^ 64 := by norm_num
    omega

theorem hexDigit_facts (c : Nat) (h : (hexDigitVal c).isSome = true) :
    isSpace c = false ∧ c ≠ 45 ∧ c ≠ 43 ∧ c ≠ 120 ∧ c ≠ 88 ∧ c ≠ 13 ∧ c ≠ 10 := by
  unfold hexDigitVal at h
  have hr : (48 ≤ c ∧ c ≤ 57) ∨ (97 ≤ c ∧ c ≤ 102) ∨ (65 ≤ c ∧ c ≤ 70) := by
    by_contra hn
    push_neg at hn
    rw [if_neg (by omega), if_neg (by omega), if_neg (by omega)] at h
    simp at h
  refine ⟨?_, by omega, by omega, by omega, by omega, by omega, by omega⟩
  simp only [isSpace, Bool.or_eq_false_iff, decide_eq_false_iff_not, Bool.and_eq_false_iff]
  omega

theorem strtol16_hexadecimal (upper : Bool) (n : Nat) (h : n < 2 ^ 63) :
    toSizeT (strtol16 (hexadecimal upper n)) = n := by
  have hne := hexadecimal_ne_nil upper n
  have hdig := hexadecimal_digit upper n
  have hval := hexDigits_hexadecimal upper n
  unfold strtol16
  cases hd : hexadecimal upper n with
  | nil => exact absurd hd hne
  | cons a l =>
    rw [hd] at hdig hval
    have ha := hexDigit_facts a (hdig a (by simp))
    have hdw : (a :: l).dropWhile isSpace = a :: l := by simp [List.dropWhile, ha.1]
    rw [hdw]
    have hbody : hexBody (a :: l) = n := by
      unfold hexBody
      split
      · rename_i x rest heq
        simp only [List.cons.injEq] at heq
        obtain ⟨rfl, rfl⟩ := heq
        have hx := hexDigit_facts x (hdig x (by simp))
        rw [if_neg (by omega)]
        exact hval
      · exact hval
    split
    · rename_i heq; simp only [List.cons.injEq] at heq; omega
    · rename_i heq; simp only [List.cons.injEq] at heq; omega
    · rw [hbody, clampLong_small n h, toSizeT_natCast n (by omega)]

theorem dropWhile_isSpace_trim (v : Str) :
    ∀ start, findFirstNotSpaceTab v = some start →
      (v.drop start).dropWhile isSpace = v.dropWhile isSpace := by
  induction v with
  | nil => intro start h; simp [findFirstNotSpaceTab] at h
  | cons c rest ih =>
    intro start h
    rw [findFirstNotSpaceTab] at h
    split at h
    · rename_i hc
      simp only [Option.map_eq_some'] at h
      obtain ⟨s, hs, rfl⟩ := h
      have hsp : isSpace c = true := by
        rcases hc with rfl | rfl <;> decide
      simp only [List.drop_succ_cons, List.dropWhile, hsp]
      exact ih s hs
    · simp only [Option.some.injEq] at h
      subst h
      rfl

theorem atol_trim (v : Str) (start : Nat) (h : findFirstNotSpaceTab v = some start) :
    atol (substrFrom v start) = atol v := by
  unfold atol substrFrom
  rw [dropWhile_isSpace_trim v start h]

theorem parseHeader_content_length (l : Str) (r : Request) :
    (Request.parseHeader l r).2.content_length =
      if lowerName l = some (str "content-length") then toSizeT (atol (afterColon l))
      else r.content_length := by
  unfold Request.parseHeader lowerName lineName afterColon
  cases hf : findChar 58 l with
  | none => simp
  | some pos =>
    simp only [Option.map_some', Option.some.injEq, substr, List.drop_zero]
    by_cases hn : List.map toLower (List.take pos l) = str "content-length"
    · simp only [hn, if_true]
      cases hv : findFirstNotSpaceTab (substrFrom l (pos + 1)) with
      | none => rfl
      | some start =>
        simp only
        rw [atol_trim _ _ hv]
        rfl
    · simp only [hn, if_false]
      repeat' split
      all_goals rfl

theorem parseHeader_is_chunked_mono (l : Str) (r : Request) (h : r.is_chunked = true) :
    (Request.parseHeader l r).2.is_chunked = true := by
  unfold Request.parseHeader
  split
  · exact h
  · simp only
    repeat' split
    all_goals first | exact h | rfl

theorem parseHeaders_is_chunked_mono (ls : List Str) :
    ∀ r : Request, r.is_chunked = true → (Request.parseHeaders ls r).is_chunked = true := by
  induction ls with
  | nil => intro r h; exact h
  | cons l ls2 ih =>
    intro r h
    rw [Request.parseHeaders]
    exact ih _ (parseHeader_is_chunked_mono l r h)

theorem parseHeaders_content_length_keep (ls : List Str)
    (hls : ∀ l ∈ ls, lowerName l ≠ some (str "content-length")) :
    ∀ r : Request, (Request.parseHeaders ls r).content_length = r.content_length := by
  induction ls with
  | nil => intro r; rfl
  | cons l ls2 ih =>
    intro r
    rw [Request.parseHeaders, ih (fun x hx => hls x (by simp [hx])), parseHeader_content_length,
      if_neg (hls l (by simp))]

theorem parseHeaders_content_length_zero (ls : List Str)
    (hls : ∀ l ∈ ls, lowerName l = some (str "content-length") →
      toSizeT (atol (afterColon l)) = 0) :
    ∀ r : Request, r.content_length = 0 → (Request.parseHeaders ls r).content_length = 0 := by
  induction ls with
  | nil => intro r h; exact h
  | cons l ls2 ih =>
    intro r h
    rw [Request.parseHeaders]
    apply ih (fun x hx => hls x (by simp [hx]))
    rw [parseHeader_content_length]
    split
    · rename_i hn; exact hls l (by simp) hn
    · exact h

theorem findCRLF_none_of_no_cr (l : Str) (h : ∀ c ∈ l, c ≠ 13) : findCRLF l = none := by
  induction l with
  | nil => rfl
  | cons a l2 ih =>
    cases l2 with
    | nil => rfl
    | cons b l3 =>
      have ha := h a (by simp)
      rw [findCRLF, if_neg (by omega), ih (fun c hc => h c (by simp [hc]))]
      rfl

theorem atol_space (s : Str) : atol (32 :: s) = atol s := by
  unfold atol
  simp [List.dropWhile, isSpace]

theorem content_length_line (n : Nat) (hn : n < 2 ^ 63) :
    lowerName (str "Content-Length: " ++ decimal n) = some (str "content-length") ∧
    toSizeT (atol (afterColon (str "Content-Length: " ++ decimal n))) = n ∧
    HeaderLine (str "Content-Length: " ++ decimal n) := by
  have hpre : str "Content-Length: " = str "Content-Length" ++ 58 :: [32] := by decide
  have hnm : (58 : Nat) ∉ str "Content-Length" := by decide
  have hfind : findChar 58 (str "Content-Length: " ++ decimal n) = some 14 := by
    rw [hpre, List.append_assoc]
    simp only [List.cons_append, List.nil_append]
    rw [findChar_append_of_not_mem 58 _ hnm]
    rfl
  refine ⟨?_, ?_, ?_⟩
  · unfold lowerName lineName
    rw [hfind]
    simp only [Option.map_some', Option.some.injEq]
    rw [List.take_append_of_le_length (by decide)]
    decide
  · unfold afterColon
    rw [hfind]
    simp only
    have hdrop : List.drop (14 + 1) (str "Content-Length: " ++ decimal n) = 32 :: decimal n := by
      rw [List.drop_append_of_le_length (by decide)]
      have : List.drop (14 + 1) (str "Content-Length: ") = [32] := by decide
      rw [this]
      rfl
    rw [hdrop, atol_space]
    exact atol_decimal n hn
  · refine ⟨?_, ?_⟩
    · rw [hpre]; simp
    · have h13 : ∀ c ∈ str "Content-Length: " ++ decimal n, c ≠ 13 := by
        intro c hc
        rcases List.mem_append.mp hc with h | h
        · have : ∀ x ∈ str "Content-Length: ", x ≠ 13 := by decide
          exact this c h
        · have := decimal_digit n c h
          omega
      exact findCRLF_none_of_no_cr _ h13

theorem parse_of_parseLoop (k : Nat) (raw : Str) (r : Request) (x : Bool × Request)
    (h : Request.parseLoop k { r with read_buffer := r.read_buffer ++ raw } = some x)
    (hk : k ≤ r.read_buffer.length + raw.length + 4) :
    Request.parse raw r = some x := by
  unfold Request.parse Request.parseFuel
  exact parseLoop_mono k _ x h _ hk

theorem parseLoop_body_all (f : Nat) (r : Request)
    (hs : r.state = RequestState.BODY) (hrecv : r.body_bytes_received = 0)
    (hcl : r.content_length = r.read_buffer.length) (hlt : r.content_length < SIZE_MOD) :
    Request.parseLoop (f + 2) r =
      some (true, { r with body := r.body ++ r.read_buffer, read_buffer := [],
                           body_bytes_received := r.content_length,
                           state := RequestState.COMPLETE }) := by
  have hpb : Request.parseBody r =
      (true, { r with body := r.body ++ r.read_buffer, read_buffer := [],
                      body_bytes_received := r.content_length,
                      state := RequestState.COMPLETE }) := by
    have e1 : (r.read_buffer.length + SIZE_MOD - 0 % SIZE_MOD) % SIZE_MOD =
        r.read_buffer.length := by
      rw [Nat.zero_mod, Nat.sub_zero, Nat.add_mod_right, Nat.mod_eq_of_lt (hcl ▸ hlt)]
    have e2 : (0 + r.read_buffer.length) % SIZE_MOD = r.read_buffer.length := by
      rw [Nat.zero_add, Nat.mod_eq_of_lt (hcl ▸ hlt)]
    unfold Request.parseBody
    simp only [hrecv, hcl, e1, Nat.min_self, e2, substr, erase0, List.drop_zero, List.take_length,
      List.drop_length, ge_iff_le, le_refl, if_true]
  rw [Request.parseLoop]
  simp only [hs, hpb]
  rw [Request.parseLoop]

theorem length_le_joinLines (ls : List Str) : ls.length ≤ (joinLines ls).length := by
  induction ls with
  | nil => simp [joinLines]
  | cons l ls2 ih =>
    simp only [joinLines, List.map_cons, List.flatten_cons, List.length_append, List.length_cons,
      CRLF] at ih ⊢
    omega

theorem request_line_no_crlf (method target version : Str)
    (hm : method = str "GET" ∨ method = str "POST" ∨ method = str "DELETE")
    (hv : version = str "HTTP/1.0" ∨ version = str "HTTP/1.1")
    (hts : ∀ c ∈ target, isSpace c = false) :
    findCRLF (method ++ str " " ++ target ++ str " " ++ version) = none := by
  apply findCRLF_none_of_no_cr
  intro c hc
  have hm13 : ∀ x ∈ method, x ≠ 13 := by
    rcases hm with rfl | rfl | rfl <;> decide
  have hv13 : ∀ x ∈ version, x ≠ 13 := by
    rcases hv with rfl | rfl <;> decide
  have hsp : ∀ x ∈ str " ", x ≠ 13 := by decide
  simp only [List.mem_append] at hc
  rcases hc with (((h | h) | h) | h) | h
  · exact hm13 c h
  · exact hsp c h
  · intro h13
    have := hts c h
    rw [h13] at this
    exact absurd this (by decide)
  · exact hsp c h
  · exact hv13 c h

/-- Claim C7. For a request line `method SP target SP version` with a method
among GET, POST, DELETE, a version among HTTP/1.0, HTTP/1.1 and a non-empty
target without whitespace, header lines (each with ':' and without CR LF) among
which "Content-Length: " ++ decimal n is the last one named Content-Length
(in any letter case), the blank line and a body `b` of n > 0 arbitrary bytes
(n below 2 ^ 63, as for every `std::string`): one call of `parse` on a fresh
Request returns true and ends in state COMPLETE with body `b`, content_length
n, body_bytes_received n and an empty carry-over buffer. -/
theorem parse_fixed_length_body (method target version : Str) (ls1 ls2 : List Str) (b : Str)
    (hm : method = str "GET" ∨ method = str "POST" ∨ method = str "DELETE")
    (hv : version = str "HTTP/1.0" ∨ version = str "HTTP/1.1")
    (ht : target ≠ []) (hts : ∀ c ∈ target, isSpace c = false)
    (hlen : (method ++ str " " ++ target ++ str " " ++ version).length ≤ MAX_URI_LENGTH)
    (hls1 : ∀ l ∈ ls1, HeaderLine l)
    (hls2 : ∀ l ∈ ls2, HeaderLine l ∧ lowerName l ≠ some (str "content-length"))
    (hb0 : 0 < b.length) (hb : b.length < 2 ^ 63) :
    ∃ r2 : Request,
      Request.parse
        ((method ++ str " " ++ target ++ str " " ++ version) ++ CRLF ++
          joinLines (ls1 ++ [str "Content-Length: " ++ decimal b.length] ++ ls2) ++ CRLF ++ b)
        Request.fresh = some (true, r2) ∧
      r2.state = RequestState.COMPLETE ∧ r2.body = b ∧ r2.content_length = b.length ∧
      r2.read_buffer = [] ∧ r2.body_bytes_received = b.length := by
  set line := method ++ str " " ++ target ++ str " " ++ version with hline
  set ls := ls1 ++ [str "Content-Length: " ++ decimal b.length] ++ ls2 with hlsdef
  obtain ⟨hcl1, hcl2, hcl3⟩ := content_length_line b.length hb
  have hls : ∀ l ∈ ls, HeaderLine l := by
    intro l hl
    simp only [hlsdef, List.mem_append, List.mem_singleton] at hl
    rcases hl with (h | h) | h
    · exact hls1 l h
    · rw [h]; exact hcl3
    · exact (hls2 l h).1
  -- the request line
  set r0 : Request := { Request.fresh with
    read_buffer := Request.fresh.read_buffer ++ (line ++ CRLF ++ joinLines ls ++ CRLF ++ b) }
    with hr0
  have hbuf0 : r0.read_buffer = line ++ CRLF ++ (joinLines ls ++ (CRLF ++ b)) := by
    simp [hr0, Request.fresh, List.append_assoc]
  set p1 := Request.parseRequestLine line { r0 with read_buffer := joinLines ls ++ (CRLF ++ b) }
    with hp1
  have hok1 : p1.1 = true := parseRequestLine_valid method target version _ hm hv ht hts hlen
  obtain ⟨⟨f1, f2, f3, f4⟩, f5, f6, _⟩ :=
    parseRequestLine_frame line { r0 with read_buffer := joinLines ls ++ (CRLF ++ b) }
  set r1 : Request := { p1.2 with state := RequestState.HEADERS } with hr1
  have hstep1 : ∀ f, Request.parseLoop (f + 1) r0 = Request.parseLoop f r1 := fun f =>
    parseLoop_request_line f r0 line _ rfl hbuf0 (request_line_no_crlf method target version hm hv hts)
      hok1
  -- the header lines
  have hbuf1 : r1.read_buffer = joinLines ls ++ (CRLF ++ b) := f2
  set r2 : Request := { Request.parseHeaders ls r1 with read_buffer := CRLF ++ b } with hr2
  have hstep2 : ∀ f, Request.parseLoop (f + ls.length) r1 = Request.parseLoop f r2 := fun f =>
    parseLoop_header_lines ls f r1 (CRLF ++ b) rfl hls hbuf1
  obtain ⟨g1, _, g3, g4⟩ := parseHeaders_frame ls r1
  have hclen : r2.content_length = b.length := by
    show (Request.parseHeaders ls r1).content_length = b.length
    rw [hlsdef, parseHeaders_append, parseHeaders_append,
      parseHeaders_content_length_keep ls2 (fun l hl => (hls2 l hl).2)]
    simp only [Request.parseHeaders]
    rw [parseHeader_content_length, if_pos hcl1, hcl2]
  -- the blank line
  set r3 : Request := { r2 with read_buffer := b, state := RequestState.BODY } with hr3
  have hstep3 : ∀ f, Request.parseLoop (f + 1) r2 = Request.parseLoop f r3 := by
    intro f
    rw [parseLoop_blank_line f r2 b g1 rfl, if_pos (by rw [hclen]; exact hb0)]
  -- the body
  have hstep4 := parseLoop_body_all 0 r3 rfl
    (by show (Request.parseHeaders ls r1).body_bytes_received = 0
        rw [g4]; exact f4)
    hclen (by rw [show r3.content_length = b.length from hclen]; unfold SIZE_MOD; omega)
  refine ⟨{ r3 with body := r3.body ++ r3.read_buffer, read_buffer := [],
                    body_bytes_received := r3.content_length,
                    state := RequestState.COMPLETE },
    parse_of_parseLoop (ls.length + 4) _ Request.fresh _ ?_ ?_, rfl, ?_, hclen, rfl, hclen⟩
  · have e : ls.length + 4 = (((0 + 2) + 1) + ls.length) + 1 := by omega
    rw [e, hstep1, hstep2, hstep3]
    exact hstep4
  · have := length_le_joinLines ls
    simp only [List.length_append]
    omega
  · show (Request.parseHeaders ls r1).body ++ b = b
    rw [g3]
    show p1.2.body ++ b = b
    rw [f3]
    rfl

theorem parse_fixed_length_body_witness :
    (∃ r2 : Request,
      Request.parse
        ((str "POST" ++ str " " ++ str "/u" ++ str " " ++ str "HTTP/1.1") ++ CRLF ++
          joinLines ([] ++ [str "Content-Length: " ++ decimal (str "Hello").length] ++ []) ++
          CRLF ++ str "Hello")
        Request.fresh = some (true, r2) ∧
      r2.state = RequestState.COMPLETE ∧ r2.body = str "Hello" ∧
      r2.content_length = (str "Hello").length ∧
      r2.read_buffer = [] ∧ r2.body_bytes_received = (str "Hello").length) ∧
    Request.parse (str "POST /u HTTP/1.1\r\nContent-Length: 5\r\n\r\nHello") Request.fresh =
      some (true, { Request.fresh with
        method := str "POST", uri := str "/u",
        headers := [(str "Content-Length", str "5")],
        body := str "Hello", content_length := 5, body_bytes_received := 5,
        state := RequestState.COMPLETE }) :=
  ⟨parse_fixed_length_body (str "POST") (str "/u") (str "HTTP/1.1") [] [] (str "Hello")
    (by decide) (by decide) (by decide) (by decide) (by decide) (by simp) (by simp)
    (by decide) (by decide), by decide⟩

theorem parseChunkedBody_chunk (upper : Bool) (f : Nat) (r : Request) (p rest : Str)
    (hp0 : 0 < p.length) (hp : p.length < 2 ^ 63)
    (hbuf : r.read_buffer = encodeChunk upper p ++ rest) :
    Request.parseChunkedBody (f + 1) r =
      Request.parseChunkedBody f { r with body := r.body ++ p, read_buffer := rest } := by
  set h := hexadecimal upper p.length with hh
  have hbuf2 : r.read_buffer = h ++ 13 :: 10 :: (p ++ 13 :: 10 :: rest) := by
    rw [hbuf]; simp [encodeChunk, CRLF, List.append_assoc]
  have hnocr : findCRLF h = none :=
    findCRLF_none_of_no_cr h (fun c hc => (hexDigit_facts c (hexadecimal_digit upper _ c hc)).2.2.2.2.2.1)
  have hfind : findCRLF r.read_buffer = some h.length := by
    rw [hbuf2]; exact findCRLF_append_crlf h hnocr _
  have hsz : toSizeT (strtol16 (substr r.read_buffer 0 h.length)) = p.length := by
    have : substr r.read_buffer 0 h.length = h := by rw [hbuf2]; simp [substr]
    rw [this]
    exact strtol16_hexadecimal upper p.length hp
  have hlen16 : h.length ≤ 16 := hexadecimal_length upper p.length (by omega)
  have hmod : (h.length + 2 + p.length + 2) % SIZE_MOD = h.length + 2 + p.length + 2 := by
    apply Nat.mod_eq_of_lt
    unfold SIZE_MOD
    omega
  have hblen : r.read_buffer.length = h.length + 2 + p.length + 2 + rest.length := by
    rw [hbuf2]; simp only [List.length_append, List.length_cons]; omega
  have hsub : substr r.read_buffer (h.length + 2) p.length = p := by
    rw [hbuf2]
    simp [substr, List.drop_append]
  have hdrop : erase0 r.read_buffer (h.length + 2 + p.length + 2) = rest := by
    have e : r.read_buffer = (h ++ 13 :: 10 :: (p ++ [13, 10])) ++ rest := by
      rw [hbuf2]; simp [List.append_assoc]
    rw [e]
    exact List.drop_left' (by simp only [List.length_append, List.length_cons, List.length_nil]; omega)
  rw [Request.parseChunkedBody]
  simp only [hfind, hsz, hmod, hsub, hdrop]
  rw [if_neg (by omega), if_neg (by omega)]

theorem parseChunkedBody_zero (f : Nat) (r : Request)
    (hbuf : r.read_buffer = str "0\r\n\r\n") :
    Request.parseChunkedBody (f + 1) r =
      some (true, { r with read_buffer := [], state := RequestState.COMPLETE }) := by
  rw [Request.parseChunkedBody, hbuf]
  have h1 : findCRLF (str "0\r\n\r\n") = some 1 := by decide
  have h2 : toSizeT (strtol16 (substr (str "0\r\n\r\n") 0 1)) = 0 := by decide
  have h3 : (if (erase0 (str "0\r\n\r\n") (1 + 2)).length ≥ 2 ∧
      substr (erase0 (str "0\r\n\r\n") (1 + 2)) 0 2 = CRLF
      then erase0 (erase0 (str "0\r\n\r\n") (1 + 2)) 2 else erase0 (str "0\r\n\r\n") (1 + 2)) = [] := by
    decide
  simp only [h1, h2, h3, if_true]

theorem parseChunkedBody_chunks (upper : Bool) (ps : List Str) :
    ∀ (f : Nat) (r : Request), (∀ p ∈ ps, 0 < p.length ∧ p.length < 2 ^ 63) →
      r.read_buffer = encodeChunked upper ps →
      Request.parseChunkedBody (f + 1 + ps.length) r =
        some (true, { r with body := r.body ++ ps.flatten, read_buffer := [],
                             state := RequestState.COMPLETE }) := by
  induction ps with
  | nil =>
    intro f r _ hbuf
    simp only [encodeChunked, List.map_nil, List.flatten_nil, List.nil_append] at hbuf
    simp only [List.length_nil, Nat.add_zero, List.flatten_nil, List.append_nil]
    exact parseChunkedBody_zero f r hbuf
  | cons p ps2 ih =>
    intro f r hps hbuf
    have hp := hps p (by simp)
    have hbuf2 : r.read_buffer = encodeChunk upper p ++ encodeChunked upper ps2 := by
      rw [hbuf]; simp [encodeChunked, List.append_assoc]
    rw [List.length_cons, ← Nat.add_assoc,
      parseChunkedBody_chunk upper _ r p _ hp.1 hp.2 hbuf2,
      ih f _ (fun q hq => hps q (by simp [hq])) rfl]
    simp [List.append_assoc]

theorem length_le_encodeChunked (upper : Bool) (ps : List Str) :
    ps.length ≤ (encodeChunked upper ps).length := by
  induction ps with
  | nil => simp
  | cons p ps2 ih =>
    simp only [encodeChunked, encodeChunk, List.map_cons, List.flatten_cons, List.length_append,
      List.length_cons, CRLF] at ih ⊢
    omega

theorem parseLoop_chunked (f : Nat) (r r2 : Request)
    (hs : r.state = RequestState.CHUNKED_BODY)
    (h : Request.parseChunkedBody (f + 1) r = some (true, r2))
    (hs2 : r2.state = RequestState.COMPLETE) :
    Request.parseLoop (f + 2) r = some (true, r2) := by
  rw [Request.parseLoop]
  simp only [hs, h]
  rw [Request.parseLoop]
  simp only [hs2]

theorem transfer_encoding_line (r : Request) :
    (Request.parseHeader (str "Transfer-Encoding: chunked") r).2.is_chunked = true ∧
    lowerName (str "Transfer-Encoding: chunked") ≠ some (str "content-length") ∧
    HeaderLine (str "Transfer-Encoding: chunked") := by
  refine ⟨?_, by decide, by decide⟩
  have h1 : findChar 58 (str "Transfer-Encoding: chunked") = some 17 := by decide
  have h2 : findFirstNotSpaceTab (substrFrom (str "Transfer-Encoding: chunked") (17 + 1)) =
      some 1 := by decide
  have h3 : ¬ (str "transfer-encoding" = str "content-length") := by decide
  have h4 : List.map toLower (substr (str "Transfer-Encoding: chunked") 0 17) =
      str "transfer-encoding" := by decide
  have h5 : containsSub (str "chunked") (List.map toLower
      (substrFrom (substrFrom (str "Transfer-Encoding: chunked") (17 + 1)) 1)) = true := by decide
  unfold Request.parseHeader
  simp only [h1, h2, h3, h4, h5, if_true, if_false]

/-- Claim C6. For a request line `method SP target SP version` with a method
among GET, POST, DELETE, a version among HTTP/1.0, HTTP/1.1 and a non-empty
target without whitespace, header lines (each with ':' and without CR LF) that
contain "Transfer-Encoding: chunked" and no Content-Length line with a
non-zero value, the blank line, and then for each payload of a list of
non-empty payloads of arbitrary bytes (each shorter than 2 ^ 63) its
hexadecimal length (in upper or lower case), CR LF, the payload, CR LF,
followed by "0" CR LF CR LF: one call of `parse` on a fresh Request returns
true and ends in state COMPLETE with the body equal to the concatenation of the
payloads and an empty carry-over buffer. -/
theorem parse_chunked_body (upper : Bool) (method target version : Str) (ls1 ls2 : List Str)
    (ps : List Str)
    (hm : method = str "GET" ∨ method = str "POST" ∨ method = str "DELETE")
    (hv : version = str "HTTP/1.0" ∨ version = str "HTTP/1.1")
    (ht : target ≠ []) (hts : ∀ c ∈ target, isSpace c = false)
    (hlen : (method ++ str " " ++ target ++ str " " ++ version).length ≤ MAX_URI_LENGTH)
    (hls : ∀ l ∈ ls1 ++ ls2, HeaderLine l ∧
      (lowerName l = some (str "content-length") → toSizeT (atol (afterColon l)) = 0))
    (hps : ∀ p ∈ ps, 0 < p.length ∧ p.length < 2 ^ 63) :
    ∃ r2 : Request,
      Request.parse
        ((method ++ str " " ++ target ++ str " " ++ version) ++ CRLF ++
          joinLines (ls1 ++ [str "Transfer-Encoding: chunked"] ++ ls2) ++ CRLF ++
          encodeChunked upper ps)
        Request.fresh = some (true, r2) ∧
      r2.state = RequestState.COMPLETE ∧ r2.body = ps.flatten ∧ r2.read_buffer = [] := by
  set line := method ++ str " " ++ target ++ str " " ++ version with hline
  set te := str "Transfer-Encoding: chunked" with hte
  set ls := ls1 ++ [te] ++ ls2 with hlsdef
  set cb := encodeChunked upper ps with hcb
  have hlsH : ∀ l ∈ ls, HeaderLine l := by
    intro l hl
    simp only [hlsdef, List.mem_append, List.mem_singleton] at hl
    rcases hl with (h | h) | h
    · exact (hls l (by simp [h])).1
    · rw [h]; exact (transfer_encoding_line Request.fresh).2.2
    · exact (hls l (by simp [h])).1
  have hlsZ : ∀ l ∈ ls, lowerName l = some (str "content-length") →
      toSizeT (atol (afterColon l)) = 0 := by
    intro l hl
    simp only [hlsdef, List.mem_append, List.mem_singleton] at hl
    rcases hl with (h | h) | h
    · exact (hls l (by simp [h])).2
    · rw [h]; intro hc; exact absurd hc (transfer_encoding_line Request.fresh).2.1
    · exact (hls l (by simp [h])).2
  -- the request line
  set r0 : Request := { Request.fresh with
    read_buffer := Request.fresh.read_buffer ++ (line ++ CRLF ++ joinLines ls ++ CRLF ++ cb) }
    with hr0
  have hbuf0 : r0.read_buffer = line ++ CRLF ++ (joinLines ls ++ (CRLF ++ cb)) := by
    simp [hr0, Request.fresh, List.append_assoc]
  set p1 := Request.parseRequestLine line { r0 with read_buffer := joinLines ls ++ (CRLF ++ cb) }
    with hp1
  have hok1 : p1.1 = true := parseRequestLine_valid method target version _ hm hv ht hts hlen
  obtain ⟨⟨f1, f2, f3, f4⟩, f5, f6, _⟩ :=
    parseRequestLine_frame line { r0 with read_buffer := joinLines ls ++ (CRLF ++ cb) }
  set r1 : Request := { p1.2 with state := RequestState.HEADERS } with hr1
  have hstep1 : ∀ f, Request.parseLoop (f + 1) r0 = Request.parseLoop f r1 := fun f =>
    parseLoop_request_line f r0 line _ rfl hbuf0 (request_line_no_crlf method target version hm hv hts)
      hok1
  -- the header lines
  have hbuf1 : r1.read_buffer = joinLines ls ++ (CRLF ++ cb) := f2
  set r2 : Request := { Request.parseHeaders ls r1 with read_buffer := CRLF ++ cb } with hr2
  have hstep2 : ∀ f, Request.parseLoop (f + ls.length) r1 = Request.parseLoop f r2 := fun f =>
    parseLoop_header_lines ls f r1 (CRLF ++ cb) rfl hlsH hbuf1
  obtain ⟨g1, _, g3, g4⟩ := parseHeaders_frame ls r1
  have hclen : r2.content_length = 0 :=
    parseHeaders_content_length_zero ls hlsZ r1 f5
  have hchunk : r2.is_chunked = true := by
    show (Request.parseHeaders ls r1).is_chunked = true
    rw [hlsdef, parseHeaders_append, parseHeaders_append]
    apply parseHeaders_is_chunked_mono
    simp only [Request.parseHeaders]
    exact (transfer_encoding_line _).1
  -- the blank line
  set r3 : Request := { r2 with read_buffer := cb, state := RequestState.CHUNKED_BODY } with hr3
  have hstep3 : ∀ f, Request.parseLoop (f + 1) r2 = Request.parseLoop f r3 := by
    intro f
    rw [parseLoop_blank_line f r2 cb g1 rfl, if_neg (by rw [hclen]; omega), if_pos hchunk]
  -- the chunks
  have hstep4 := parseLoop_chunked ps.length r3 _ rfl
    (by rw [Nat.add_comm]; exact parseChunkedBody_chunks upper ps 0 r3 hps rfl) rfl
  refine ⟨{ r3 with body := r3.body ++ ps.flatten, read_buffer := [],
                    state := RequestState.COMPLETE },
    parse_of_parseLoop (ls.length + ps.length + 4) _ Request.fresh _ ?_ ?_, rfl, ?_, rfl⟩
  · have e : ls.length + ps.length + 4 = (((ps.length + 2) + 1) + ls.length) + 1 := by omega
    rw [e, hstep1, hstep2, hstep3]
    exact hstep4
  · have h1 := length_le_joinLines ls
    have h2 : ps.length ≤ cb.length := length_le_encodeChunked upper ps
    simp only [List.length_append]
    omega
  · show (Request.parseHeaders ls r1).body ++ ps.flatten = ps.flatten
    rw [g3]
    show p1.2.body ++ ps.flatten = ps.flatten
    rw [f3]
    rfl

theorem parse_chunked_body_witness :
    (∃ r2 : Request,
      Request.parse
        ((str "POST" ++ str " " ++ str "/u" ++ str " " ++ str "HTTP/1.1") ++ CRLF ++
          joinLines ([] ++ [str "Transfer-Encoding: chunked"] ++ []) ++ CRLF ++
          encodeChunked false [str "foo"])
        Request.fresh = some (true, r2) ∧
      r2.state = RequestState.COMPLETE ∧ r2.body = [str "foo"].flatten ∧ r2.read_buffer = []) ∧
    Request.parse
        (str "POST /u HTTP/1.1\r\nTransfer-Encoding: chunked\r\n\r\n3\r\nfoo\r\n0\r\n\r\n")
        Request.fresh =
      some (true, { Request.fresh with
        method := str "POST", uri := str "/u",
        headers := [(str "Transfer-Encoding", str "chunked")],
        body := str "foo", is_chunked := true,
        state := RequestState.COMPLETE }) :=
  ⟨parse_chunked_body false (str "POST") (str "/u") (str "HTTP/1.1") [] [] [str "foo"]
    (by decide) (by decide) (by decide) (by decide) (by decide) (by simp) (by decide),
   by decide⟩

theorem tokensAux_token (tok : Str) (hns : ∀ c ∈ tok, isSpace c = false) (rest : Str) :
    ∀ cur, tokensAux (tok ++ rest) cur = tokensAux rest (cur ++ tok) := by
  induction tok with
  | nil => intro cur; simp
  | cons a t ih =>
    intro cur
    have ha := hns a (by simp)
    simp only [List.cons_append, tokensAux, ha, Bool.false_eq_true, if_false]
    have := ih (fun c hc => hns c (by simp [hc])) (cur ++ [a])
    simp only [List.append_assoc, List.singleton_append] at this
    exact this

theorem tokensAux_spaces (ws : Str) (hws : ∀ c ∈ ws, isSpace c = true) (rest : Str) :
    tokensAux (ws ++ rest) [] = tokensAux rest [] := by
  induction ws with
  | nil => rfl
  | cons a t ih =>
    have ha := hws a (by simp)
    simp only [List.cons_append, tokensAux, ha, if_true]
    exact ih (fun c hc => hws c (by simp [hc]))

theorem extractToken_tokens (s tok rest : Str) (h : extractToken s = some (tok, rest)) :
    tokens s = tok :: tokens rest := by
  unfold extractToken at h
  simp only at h
  split at h
  · simp at h
  · rename_i hne
    simp only [Option.some.injEq, Prod.mk.injEq] at h
    obtain ⟨h1, h2⟩ := h
    have hs : s = s.takeWhile isSpace ++ (tok ++ rest) := by
      rw [← h1, ← h2, List.takeWhile_append_dropWhile, List.takeWhile_append_dropWhile]
    have hws : ∀ c ∈ s.takeWhile isSpace, isSpace c = true :=
      fun c hc => List.mem_takeWhile_imp hc
    have hns : ∀ c ∈ tok, isSpace c = false := by
      intro c hc
      rw [← h1] at hc
      have := List.mem_takeWhile_imp hc
      simpa using this
    unfold tokens
    rw [hs, tokensAux_spaces _ hws, tokensAux_token tok hns, List.nil_append]
    have htok : tok ≠ [] := by rw [← h1]; exact hne
    cases hr : rest with
    | nil => simp [tokensAux, htok]
    | cons c r =>
      have hc : isSpace c = true := by
        have hd : (List.dropWhile (fun c => !isSpace c) (List.dropWhile isSpace s)) = c :: r := by
          rw [h2, hr]
        have := List.head_dropWhile_not (fun c => !isSpace c)
          (List.dropWhile isSpace s) (by rw [hd]; simp)
        simp only [hd, List.head_cons, Bool.not_eq_true', Bool.not_eq_false'] at this
        simpa using this
      simp [tokensAux, hc, htok]

theorem extract3_tokens (line m u v : Str) (h : extract3 line = some (m, u, v)) :
    ∃ more, tokens line = m :: u :: v :: more := by
  unfold extract3 at h
  split at h
  · simp at h
  · rename_i m1 r1 h1
    split at h
    · simp at h
    · rename_i u1 r2 h2
      split at h
      · simp at h
      · rename_i v1 r3 h3
        simp only [Option.some.injEq, Prod.mk.injEq] at h
        obtain ⟨rfl, rfl, rfl⟩ := h
        refine ⟨tokens r3, ?_⟩
        rw [extractToken_tokens _ _ _ h1, extractToken_tokens _ _ _ h2,
          extractToken_tokens _ _ _ h3]

theorem parseRequestLine_true (line : Str) (r : Request)
    (h : (Request.parseRequestLine line r).1 = true) :
    line.length ≤ MAX_URI_LENGTH ∧ RequestLineOK line := by
  unfold Request.parseRequestLine at h
  split at h
  · simp at h
  · rename_i hlen
    split at h
    · simp at h
    · rename_i m u v he
      obtain ⟨more, hm⟩ := extract3_tokens line m u v he
      split at h
      · simp at h
      · rename_i hmeth
        split at h
        · simp at h
        · rename_i hver
          refine ⟨by omega, ?_⟩
          unfold RequestLineOK
          rw [hm]
          simp only
          constructor
          · by_contra hc
            push_neg at hc
            exact hmeth hc
          · by_contra hc
            push_neg at hc
            exact hver hc

theorem parseHeader_true (line : Str) (r : Request)
    (h : (Request.parseHeader line r).1 = true) : 58 ∈ line := by
  unfold Request.parseHeader at h
  split at h
  · simp at h
  · rename_i pos hf
    clear h
    induction line generalizing pos with
    | nil => simp [findChar] at hf
    | cons a l ih =>
      rw [findChar] at hf
      split at hf
      · rename_i ha; simp [ha]
      · simp only [Option.map_eq_some'] at hf
        obtain ⟨p, hp, _⟩ := hf
        simp [ih p hp]

theorem parseChunkedBody_suffix (fuel : Nat) :
    ∀ (r : Request) (b : Bool) (r2 : Request),
      Request.parseChunkedBody fuel r = some (b, r2) →
      ∃ pre, r.read_buffer = pre ++ r2.read_buffer := by
  induction fuel with
  | zero => intro r b r2 h; simp [Request.parseChunkedBody] at h
  | succ f ih =>
    intro r b r2 h
    rw [Request.parseChunkedBody] at h
    split at h
    · simp only [Option.some.injEq, Prod.mk.injEq] at h
      obtain ⟨_, rfl⟩ := h
      exact ⟨[], rfl⟩
    · simp only at h
      split at h
      · simp only [Option.some.injEq, Prod.mk.injEq] at h
        obtain ⟨_, rfl⟩ := h
        simp only [erase0]
        split
        · rw [List.drop_drop]
          exact ⟨_, (List.take_append_drop _ _).symm⟩
        · exact ⟨_, (List.take_append_drop _ _).symm⟩
      · split at h
        · simp only [Option.some.injEq, Prod.mk.injEq] at h
          obtain ⟨_, rfl⟩ := h
          exact ⟨[], rfl⟩
        · obtain ⟨pre, hpre⟩ := ih _ b r2 h
          simp only [erase0] at hpre
          rename_i pos _ _ _
          refine ⟨r.read_buffer.take ((pos + 2 + toSizeT (strtol16 (substr r.read_buffer 0 pos))
            + 2) % SIZE_MOD) ++ pre, ?_⟩
          rw [List.append_assoc, ← hpre]
          exact (List.take_append_drop _ _).symm

theorem parseBody_suffix (r : Request) :
    ∃ pre, r.read_buffer = pre ++ (Request.parseBody r).2.read_buffer := by
  unfold Request.parseBody
  simp only [erase0]
  split
  · exact ⟨r.read_buffer.take _, (List.take_append_drop _ _).symm⟩
  · exact ⟨r.read_buffer.take _, (List.take_append_drop _ _).symm⟩

theorem ParseInv.error (inp : Str) (r r2 : Request) (hinv : ParseInv inp r)
    (hsuf : ∃ pre, r.read_buffer = pre ++ r2.read_buffer)
    (hs : r2.state = RequestState.ERROR) : ParseInv inp r2 := by
  obtain ⟨c, hc, _⟩ := hinv
  obtain ⟨pre, hpre⟩ := hsuf
  refine ⟨c ++ pre, by rw [hc, hpre, List.append_assoc], ?_, ?_, ?_⟩
  all_goals rw [hs]
  · intro h; exact absurd h (by decide)
  · intro h; exact absurd h (by decide)
  · intro h; rcases h with h | h | h <;> exact absurd h (by decide)

theorem ParseInv.request_line (inp : Str) (r r2 : Request) (pos : Nat) (hinv : ParseInv inp r)
    (hs : r.state = RequestState.REQUEST_LINE) (hf : findCRLF r.read_buffer = some pos)
    (hp : Request.parseRequestLine (substr r.read_buffer 0 pos)
      { r with read_buffer := erase0 r.read_buffer (pos + 2) } = (true, r2)) :
    ParseInv inp { r2 with state := RequestState.HEADERS } := by
  obtain ⟨c, hc, h1, _, _⟩ := hinv
  have hc0 := h1 hs
  subst hc0
  obtain ⟨hsplit, hnone⟩ := findCRLF_spec _ _ hf
  have hok := parseRequestLine_true (substr r.read_buffer 0 pos)
    { r with read_buffer := erase0 r.read_buffer (pos + 2) } (by rw [hp])
  have hbuf := (parseRequestLine_frame (substr r.read_buffer 0 pos)
    { r with read_buffer := erase0 r.read_buffer (pos + 2) }).1.2.1
  rw [hp] at hbuf
  simp only [erase0] at hbuf
  have hsub : substr r.read_buffer 0 pos = r.read_buffer.take pos := by simp [substr]
  rw [hsub] at hok
  refine ⟨r.read_buffer.take pos ++ CRLF, ?_, ?_, ?_, ?_⟩
  · show inp = (r.read_buffer.take pos ++ CRLF) ++ r2.read_buffer
    rw [hc, hbuf, List.nil_append]
    simpa [CRLF, List.append_assoc] using hsplit
  · intro h; simp at h
  · intro _
    exact ⟨r.read_buffer.take pos, [], by simp [joinLines], hnone, hok.1, hok.2, by simp⟩
  · intro h; simp at h

theorem ParseInv.blank_line (inp : Str) (r : Request) (st : RequestState) (hinv : ParseInv inp r)
    (hs : r.state = RequestState.HEADERS) (hf : findCRLF r.read_buffer = some 0)
    (hst : st = RequestState.BODY ∨ st = RequestState.CHUNKED_BODY ∨
      st = RequestState.COMPLETE) :
    ParseInv inp { r with read_buffer := erase0 r.read_buffer 2, state := st } := by
  obtain ⟨c, hc, _, h2, _⟩ := hinv
  obtain ⟨line, hs2, hcl, hl1, hl2, hl3, hl4⟩ := h2 hs
  obtain ⟨hsplit, _⟩ := findCRLF_spec _ _ hf
  simp only [List.take_zero, List.nil_append, Nat.zero_add] at hsplit
  refine ⟨c ++ CRLF, ?_, ?_, ?_, ?_⟩
  · show inp = (c ++ CRLF) ++ r.read_buffer.drop 2
    rw [hc, List.append_assoc]
    congr 1
  · intro h
    rcases hst with rfl | rfl | rfl <;> simp at h
  · intro h
    rcases hst with rfl | rfl | rfl <;> simp at h
  · intro _
    exact ⟨line, hs2, [], by rw [hcl]; simp, hl1, hl2, hl3, hl4⟩

theorem joinLines_append_singleton (hs : List Str) (l : Str) :
    joinLines (hs ++ [l]) = joinLines hs ++ l ++ CRLF := by
  simp [joinLines, List.append_assoc]

theorem ParseInv.header_line (inp : Str) (r r2 : Request) (pos : Nat) (hinv : ParseInv inp r)
    (hs : r.state = RequestState.HEADERS) (hf : findCRLF r.read_buffer = some pos)
    (hp : Request.parseHeader (substr r.read_buffer 0 pos)
      { r with read_buffer := erase0 r.read_buffer (pos + 2) } = (true, r2)) :
    ParseInv inp r2 := by
  obtain ⟨c, hc, _, h2, _⟩ := hinv
  obtain ⟨line, hs2, hcl, hl1, hl2, hl3, hl4⟩ := h2 hs
  obtain ⟨hsplit, hnone⟩ := findCRLF_spec _ _ hf
  have hcolon := parseHeader_true (substr r.read_buffer 0 pos)
    { r with read_buffer := erase0 r.read_buffer (pos + 2) } (by rw [hp])
  obtain ⟨hst, hbuf, _, _⟩ := parseHeader_frame (substr r.read_buffer 0 pos)
    { r with read_buffer := erase0 r.read_buffer (pos + 2) }
  rw [hp] at hst hbuf
  simp only [erase0] at hbuf hst
  have hsub : substr r.read_buffer 0 pos = r.read_buffer.take pos := by simp [substr]
  rw [hsub] at hcolon
  have hst2 : r2.state = RequestState.HEADERS := by rw [hst, hs]
  refine ⟨c ++ (r.read_buffer.take pos ++ CRLF), ?_, ?_, ?_, ?_⟩
  · rw [hc, hbuf, List.append_assoc]
    congr 1
    simpa [CRLF, List.append_assoc] using hsplit
  · intro h; rw [hst2] at h; simp at h
  · intro _
    refine ⟨line, hs2 ++ [r.read_buffer.take pos], ?_, hl1, hl2, hl3, ?_⟩
    · rw [hcl, joinLines_append_singleton]
      simp [List.append_assoc]
    · intro h hh
      rcases List.mem_append.mp hh with hh | hh
      · exact hl4 h hh
      · simp only [List.mem_singleton] at hh
        rw [hh]
        exact ⟨hcolon, hnone⟩
  · intro h; rw [hst2] at h; simp at h

theorem ParseInv.body (inp : Str) (r r2 : Request) (hinv : ParseInv inp r)
    (hs : r.state = RequestState.BODY ∨ r.state = RequestState.CHUNKED_BODY)
    (hsuf : ∃ pre, r.read_buffer = pre ++ r2.read_buffer)
    (hs2 : r2.state = RequestState.BODY ∨ r2.state = RequestState.CHUNKED_BODY ∨
      r2.state = RequestState.COMPLETE) :
    ParseInv inp r2 := by
  obtain ⟨c, hc, _, _, h3⟩ := hinv
  obtain ⟨line, hs3, rest, hcl, hl1, hl2, hl3, hl4⟩ :=
    h3 (by rcases hs with h | h; exact Or.inl h; exact Or.inr (Or.inl h))
  obtain ⟨pre, hpre⟩ := hsuf
  refine ⟨c ++ pre, by rw [hc, hpre, List.append_assoc], ?_, ?_, ?_⟩
  · intro h; rcases hs2 with h2 | h2 | h2 <;> rw [h2] at h <;> simp at h
  · intro h; rcases hs2 with h2 | h2 | h2 <;> rw [h2] at h <;> simp at h
  · intro _
    exact ⟨line, hs3, rest ++ pre, by rw [hcl]; simp [List.append_assoc], hl1, hl2, hl3, hl4⟩

theorem parseLoop_inv (fuel : Nat) :
    ∀ (inp : Str) (r : Request) (b : Bool) (r2 : Request),
      ParseInv inp r → Request.parseLoop fuel r = some (b, r2) → ParseInv inp r2 := by
  induction fuel with
  | zero => intro inp r b r2 _ h; simp [Request.parseLoop] at h
  | succ f ih =>
    intro inp r b r2 hinv h
    rw [Request.parseLoop] at h
    split at h
    · simp only [Option.some.injEq, Prod.mk.injEq] at h
      obtain ⟨_, rfl⟩ := h
      exact hinv
    · simp only [Option.some.injEq, Prod.mk.injEq] at h
      obtain ⟨_, rfl⟩ := h
      exact hinv
    · rename_i hs
      split at h
      · simp only [Option.some.injEq, Prod.mk.injEq] at h
        obtain ⟨_, rfl⟩ := h
        exact hinv
      · rename_i pos hf
        simp only at h
        split at h
        · rename_i r3 hp
          simp only [Option.some.injEq, Prod.mk.injEq] at h
          obtain ⟨_, rfl⟩ := h
          apply ParseInv.error inp r _ hinv _ rfl
          have hbuf := (parseRequestLine_frame (substr r.read_buffer 0 pos)
            { r with read_buffer := erase0 r.read_buffer (pos + 2) }).1.2.1
          rw [hp] at hbuf
          simp only [erase0] at hbuf
          exact ⟨r.read_buffer.take (pos + 2), by
            show r.read_buffer = _ ++ r3.read_buffer
            rw [hbuf, List.take_append_drop]⟩
        · rename_i r3 hp
          exact ih inp _ b r2 (ParseInv.request_line inp r r3 pos hinv hs hf hp) h
    · rename_i hs
      split at h
      · simp only [Option.some.injEq, Prod.mk.injEq] at h
        obtain ⟨_, rfl⟩ := h
        exact hinv
      · rename_i pos hf
        simp only at h
        split at h
        · rename_i hp0
          subst hp0
          split at h
          · exact ih inp _ b r2 (ParseInv.blank_line inp r _ hinv hs hf (Or.inl rfl)) h
          · split at h
            · exact ih inp _ b r2
                (ParseInv.blank_line inp r _ hinv hs hf (Or.inr (Or.inl rfl))) h
            · exact ih inp _ b r2
                (ParseInv.blank_line inp r _ hinv hs hf (Or.inr (Or.inr rfl))) h
        · split at h
          · rename_i r3 hp
            simp only [Option.some.injEq, Prod.mk.injEq] at h
            obtain ⟨_, rfl⟩ := h
            apply ParseInv.error inp r _ hinv _ rfl
            have hbuf := (parseHeader_frame (substr r.read_buffer 0 pos)
              { r with read_buffer := erase0 r.read_buffer (pos + 2) }).2.1
            rw [hp] at hbuf
            simp only [erase0] at hbuf
            exact ⟨r.read_buffer.take (pos + 2), by
              show r.read_buffer = _ ++ r3.read_buffer
              rw [hbuf, List.take_append_drop]⟩
          · rename_i r3 hp
            exact ih inp _ b r2 (ParseInv.header_line inp r r3 pos hinv hs hf hp) h
    · rename_i hs
      have hsuf := parseBody_suffix r
      have hst := parseBody_state r
      split at h
      · rename_i r1 hp
        simp only [Option.some.injEq, Prod.mk.injEq] at h
        obtain ⟨_, rfl⟩ := h
        rw [hp] at hsuf hst
        simp only [Bool.false_eq_true, if_false] at hst
        exact ParseInv.body inp r _ hinv (Or.inl hs) hsuf (Or.inl (hst.trans hs))
      · rename_i r1 hp
        rw [hp] at hsuf hst
        simp only [if_true] at hst
        exact ih inp _ b r2
          (ParseInv.body inp r _ hinv (Or.inl hs) hsuf (Or.inr (Or.inr hst))) h
    · rename_i hs
      split at h
      · simp at h
      · rename_i r1 hp
        simp only [Option.some.injEq, Prod.mk.injEq] at h
        obtain ⟨_, rfl⟩ := h
        have hst := parseChunkedBody_state _ _ _ _ hp
        simp only [Bool.false_eq_true, if_false] at hst
        exact ParseInv.body inp r _ hinv (Or.inr hs) (parseChunkedBody_suffix _ _ _ _ hp)
          (Or.inr (Or.inl (hst.trans hs)))
      · rename_i r1 hp
        have hst := parseChunkedBody_state _ _ _ _ hp
        simp only [if_true] at hst
        exact ih inp _ b r2
          (ParseInv.body inp r _ hinv (Or.inr hs) (parseChunkedBody_suffix _ _ _ _ hp)
            (Or.inr (Or.inr hst))) h

theorem ParseInv.append (inp raw : Str) (r : Request) (hinv : ParseInv inp r) :
    ParseInv (inp ++ raw) { r with read_buffer := r.read_buffer ++ raw } := by
  obtain ⟨c, hc, h1, h2, h3⟩ := hinv
  exact ⟨c, by rw [hc, List.append_assoc], h1, h2, h3⟩

theorem parseAll_inv (frags : List Str) :
    ∀ (inp : Str) (r r2 : Request), ParseInv inp r → Request.parseAll frags r = some r2 →
      ParseInv (inp ++ frags.flatten) r2 := by
  induction frags with
  | nil =>
    intro inp r r2 hinv h
    simp only [Request.parseAll, Option.some.injEq] at h
    subst h
    simpa using hinv
  | cons d ds ih =>
    intro inp r r2 hinv h
    rw [Request.parseAll] at h
    split at h
    · simp at h
    · rename_i b r1 hp
      have h1 : ParseInv (inp ++ d) r1 :=
        parseLoop_inv _ _ _ b r1 (ParseInv.append inp d r hinv) hp
      have := ih (inp ++ d) r1 r2 h1 h
      simpa [List.append_assoc] using this

/-- Claim C4 (amended). For every sequence of `parse` calls on a fresh Request,
if the state becomes COMPLETE then the bytes fed begin with an accepted head:
a request line of at most 2048 bytes with at least three whitespace-separated
tokens, the first a method among GET, POST, DELETE and the third a version
among HTTP/1.0, HTTP/1.1, then header lines that each contain ':', then the
blank line. -/
theorem complete_only_if_accepted_head (frags : List Str) (r : Request)
    (h : Request.parseAll frags Request.fresh = some r)
    (hc : r.state = RequestState.COMPLETE) :
    AcceptedHead frags.flatten := by
  have h0 : ParseInv [] Request.fresh :=
    ⟨[], rfl, fun _ => rfl, fun h => by simp [Request.fresh] at h,
      fun h => by simp [Request.fresh] at h⟩
  obtain ⟨c, hcons, _, _, h3⟩ := parseAll_inv frags [] Request.fresh r h0 h
  obtain ⟨line, hs, rest, hcl, hl1, hl2, hl3, hl4⟩ := h3 (Or.inr (Or.inr hc))
  refine ⟨line, hs, rest ++ r.read_buffer, ?_, hl1, hl2, hl3, hl4⟩
  rw [List.nil_append] at hcons
  rw [hcons, hcl]
  simp [List.append_assoc]

theorem complete_only_if_accepted_head_witness :
    AcceptedHead [str "GET /a?b=1 HT", str "TP/1.1\r\nHost: x\r", str "\n\r\n"].flatten :=
  complete_only_if_accepted_head [str "GET /a?b=1 HT", str "TP/1.1\r\nHost: x\r", str "\n\r\n"]
    { Request.fresh with
      method := str "GET", uri := str "/a", query_string := str "b=1",
      headers := [(str "Host", str "x")], state := RequestState.COMPLETE }
    (by decide) (by decide)

/-- Claim C4, counterexample. Three malformed requests reach COMPLETE: a request
line of four tokens; a chunked body whose size line "zz" is not a hexadecimal
number; and a chunked body whose payload "foo" is followed by "XY" instead of
CR LF. -/
theorem complete_on_malformed :
    ((Request.parse (str "GET / HTTP/1.1 extra\r\n\r\n") Request.fresh).map
        (fun x => x.2.state) = some RequestState.COMPLETE ∧
      (tokens (str "GET / HTTP/1.1 extra")).length = 4) ∧
    ((Request.parse (str "POST / HTTP/1.1\r\nTransfer-Encoding: chunked\r\n\r\nzz\r\n")
        Request.fresh).map (fun x => x.2.state) = some RequestState.COMPLETE ∧
      (∀ c ∈ str "zz", hexDigitVal c = none)) ∧
    ((Request.parse
        (str "POST / HTTP/1.1\r\nTransfer-Encoding: chunked\r\n\r\n3\r\nfooXY0\r\n\r\n")
        Request.fresh).map (fun x => (x.2.state, x.2.body)) =
        some (RequestState.COMPLETE, str "foo") ∧
      str "XY" ≠ CRLF) := by
  decide

/-- Claim C1, failing input. A chunked request fed in one call ends with an
empty carry-over buffer; the same bytes cut before the final CR LF, or cut into
1-byte fragments, end with the final CR LF left in the carry-over buffer. -/
theorem fragmentation_final_crlf :
    Request.parse
        (str "POST /u HTTP/1.1\r\nTransfer-Encoding: chunked\r\n\r\n3\r\nfoo\r\n0\r\n\r\n")
        Request.fresh =
      some (true, { Request.fresh with
        method := str "POST", uri := str "/u",
        headers := [(str "Transfer-Encoding", str "chunked")],
        body := str "foo", is_chunked := true, state := RequestState.COMPLETE,
        read_buffer := [] }) ∧
    Request.parseAll
        [str "POST /u HTTP/1.1\r\nTransfer-Encoding: chunked\r\n\r\n3\r\nfoo\r\n0\r\n", str "\r\n"]
        Request.fresh =
      some { Request.fresh with
        method := str "POST", uri := str "/u",
        headers := [(str "Transfer-Encoding", str "chunked")],
        body := str "foo", is_chunked := true, state := RequestState.COMPLETE,
        read_buffer := str "\r\n" } ∧
    Request.parseAll
        ((str "POST /u HTTP/1.1\r\nTransfer-Encoding: chunked\r\n\r\n3\r\nfoo\r\n0\r\n\r\n").map
          (fun c => [c]))
        Request.fresh =
      some { Request.fresh with
        method := str "POST", uri := str "/u",
        headers := [(str "Transfer-Encoding", str "chunked")],
        body := str "foo", is_chunked := true, state := RequestState.COMPLETE,
        read_buffer := str "\r\n" } := by
  decide

theorem parseChunkedBody_stuck (m : Nat) :
    ∀ (r : Request) (pos : Nat), findCRLF r.read_buffer = some pos →
      toSizeT (strtol16 (substr r.read_buffer 0 pos)) ≠ 0 →
      (pos + 2 + toSizeT (strtol16 (substr r.read_buffer 0 pos)) + 2) % SIZE_MOD = 0 →
      Request.parseChunkedBody m r = none := by
  induction m with
  | zero => intro r pos _ _ _; rfl
  | succ m ih =>
    intro r pos hf hcs he
    rw [Request.parseChunkedBody]
    simp only [hf]
    rw [if_neg hcs, he, if_neg (by omega)]
    exact ih _ pos (by simpa [erase0] using hf) (by simpa [erase0] using hcs)
      (by simpa [erase0] using he)

theorem parseChunkedBody_adequate (f : Nat) :
    ∀ r : Request, r.read_buffer.length + 1 ≤ f → Request.parseChunkedBody f r = none →
      ∀ m, Request.parseChunkedBody m r = none := by
  induction f with
  | zero => intro r h; omega
  | succ f ih =>
    intro r hf h m
    rw [Request.parseChunkedBody] at h
    split at h
    · simp at h
    · rename_i pos hc
      simp only at h
      split at h
      · simp at h
      · rename_i hcs
        split at h
        · simp at h
        · rename_i hlen
          by_cases he : (pos + 2 + toSizeT (strtol16 (substr r.read_buffer 0 pos)) + 2) % SIZE_MOD = 0
          · exact parseChunkedBody_stuck m r pos hc hcs he
          · cases m with
            | zero => rfl
            | succ m =>
              rw [Request.parseChunkedBody]
              simp only [hc]
              rw [if_neg hcs, if_neg hlen]
              apply ih _ _ h
              simp only [erase0, List.length_drop]
              omega

theorem findCRLF_length (s : Str) (pos : Nat) (h : findCRLF s = some pos) :
    pos + 2 ≤ s.length := by
  have h1 := congrArg List.length (findCRLF_spec s pos h).1
  simp only [List.length_append, List.length_cons, List.length_take, List.length_drop] at h1
  omega

theorem loopFuel_terminal (r : Request)
    (h : r.state = RequestState.COMPLETE ∨ r.state = RequestState.ERROR) :
    loopFuel r = r.read_buffer.length + 1 := by
  unfold loopFuel
  rw [if_pos h]

theorem loopFuel_le (r : Request) : loopFuel r ≤ r.read_buffer.length + 2 := by
  unfold loopFuel
  split <;> omega

theorem loopFuel_le_of (r : Request) (n : Nat) (h : r.read_buffer.length ≤ n) :
    loopFuel r ≤ n + 2 := by
  have := loopFuel_le r
  omega

theorem loopFuel_ge (r : Request)
    (h : ¬ (r.state = RequestState.COMPLETE ∨ r.state = RequestState.ERROR)) :
    loopFuel r = r.read_buffer.length + 2 := by
  unfold loopFuel
  rw [if_neg h]

theorem parseLoop_adequate (f : Nat) :
    ∀ r : Request, loopFuel r ≤ f → Request.parseLoop f r = none →
      ∀ m, Request.parseLoop m r = none := by
  induction f with
  | zero =>
    intro r hf
    unfold loopFuel at hf
    split at hf <;> omega
  | succ f ih =>
    intro r hf h m
    cases m with
    | zero => rfl
    | succ m =>
      rw [Request.parseLoop] at h ⊢
      split at h
      · simp at h
      · simp at h
      · rename_i hs
        have hfuel := loopFuel_ge r (by rw [hs]; simp)
        split at h
        · simp at h
        · rename_i pos hc
          have hlen := findCRLF_length _ _ hc
          simp only [hc]
          simp only at h
          split at h
          · simp at h
          · rename_i r2 hp
            apply ih _ _ h m
            have hbuf := (parseRequestLine_frame (substr r.read_buffer 0 pos)
              { r with read_buffer := erase0 r.read_buffer (pos + 2) }).1.2.1
            rw [hp] at hbuf
            refine le_trans (loopFuel_le_of _ (r.read_buffer.length - 2) ?_) (by omega)
            show r2.read_buffer.length ≤ _
            rw [hbuf]
            simp only [erase0, List.length_drop]
            omega
      · rename_i hs
        have hfuel := loopFuel_ge r (by rw [hs]; simp)
        split at h
        · simp at h
        · rename_i pos hc
          have hlen := findCRLF_length _ _ hc
          simp only [hc]
          simp only at h
          split at h
          · rename_i hp0
            simp only [hp0, if_true] at h ⊢
            split at h
            · rename_i h1
              rw [if_pos h1]
              apply ih _ _ h m
              refine le_trans (loopFuel_le_of _ (r.read_buffer.length - 2) ?_) (by omega)
              show (erase0 r.read_buffer 2).length ≤ _
              simp only [erase0, List.length_drop, le_refl]
            · rename_i h1
              rw [if_neg h1]
              split at h
              · rename_i h2
                rw [if_pos h2]
                apply ih _ _ h m
                refine le_trans (loopFuel_le_of _ (r.read_buffer.length - 2) ?_) (by omega)
                show (erase0 r.read_buffer 2).length ≤ _
                simp only [erase0, List.length_drop, le_refl]
              · rename_i h2
                rw [if_neg h2]
                apply ih _ _ h m
                refine le_trans (loopFuel_le_of _ (r.read_buffer.length - 2) ?_) (by omega)
                show (erase0 r.read_buffer 2).length ≤ _
                simp only [erase0, List.length_drop, le_refl]
          · rename_i hp0
            rw [if_neg hp0]
            split at h
            · simp at h
            · rename_i r2 hp
              apply ih _ _ h m
              have hbuf := (parseHeader_frame (substr r.read_buffer 0 pos)
                { r with read_buffer := erase0 r.read_buffer (pos + 2) }).2.1
              rw [hp] at hbuf
              refine le_trans (loopFuel_le_of _ (r.read_buffer.length - 2) ?_) (by omega)
              rw [hbuf]
              simp only [erase0, List.length_drop]
              omega
      · rename_i hs
        have hfuel := loopFuel_ge r (by rw [hs]; simp)
        split at h
        · simp at h
        · rename_i r1 hp
          apply ih _ _ h m
          have hst := parseBody_state r
          obtain ⟨pre, hpre⟩ := parseBody_suffix r
          rw [hp] at hst hpre
          simp only [if_true] at hst hpre
          have hl := congrArg List.length hpre
          rw [List.length_append] at hl
          rw [loopFuel_terminal r1 (Or.inl hst)]
          omega
      · rename_i hs
        have hfuel := loopFuel_ge r (by rw [hs]; simp)
        split at h
        · rename_i hp
          rw [parseChunkedBody_adequate f r (by omega) hp m]
        · simp at h
        · rename_i r1 hp
          have hst := parseChunkedBody_state _ _ _ _ hp
          obtain ⟨pre, hpre⟩ := parseChunkedBody_suffix _ _ _ _ hp
          simp only [if_true] at hst
          have hl := congrArg List.length hpre
          rw [List.length_append] at hl
          have hnone : ∀ k, Request.parseLoop k r1 = none :=
            ih r1 (by rw [loopFuel_terminal r1 (Or.inl hst)]; omega) h
          have h1 := hnone 1
          rw [Request.parseLoop] at h1
          simp [hst] at h1

/-- A call of `parse` returns a result exactly when the state loop returns it
for some bound on its iterations: the bound used by `parse` is large enough. -/
theorem parse_eq_some_iff (raw : Str) (r : Request) (x : Bool × Request) :
    Request.parse raw r = some x ↔ ∃ fuel, Request.parseFuel fuel raw r = some x := by
  constructor
  · intro h
    exact ⟨_, h⟩
  · rintro ⟨fuel, h⟩
    unfold Request.parse
    cases hp : Request.parseFuel (r.read_buffer.length + raw.length + 4) raw r with
    | none =>
      have hle := loopFuel_le { r with read_buffer := r.read_buffer ++ raw }
      simp only [List.length_append] at hle
      have := parseLoop_adequate _ { r with read_buffer := r.read_buffer ++ raw }
        (by omega) hp fuel
      unfold Request.parseFuel at h
      rw [this] at h
      simp at h
    | some y =>
      have h1 := parseLoop_mono _ _ _ hp (max fuel (r.read_buffer.length + raw.length + 4))
        (le_max_right _ _)
      have h2 := parseLoop_mono _ _ _ h (max fuel (r.read_buffer.length + raw.length + 4))
        (le_max_left _ _)
      rw [h1] at h2
      exact h2

theorem extractToken_none (s : Str) (h : extractToken s = none) : tokens s = [] := by
  unfold extractToken at h
  simp only at h
  split at h
  · rename_i htok
    have hd : List.dropWhile isSpace s = [] := by
      cases hdw : List.dropWhile isSpace s with
      | nil => rfl
      | cons c r =>
        have hc := List.head_dropWhile_not isSpace s (by rw [hdw]; simp)
        simp only [hdw, List.head_cons] at hc
        rw [hdw] at htok
        simp [List.takeWhile, hc] at htok
    have hs : s = List.takeWhile isSpace s ++ [] := by
      conv_lhs => rw [← List.takeWhile_append_dropWhile isSpace s, hd]
    unfold tokens
    rw [hs, tokensAux_spaces _ (fun c hc => List.mem_takeWhile_imp hc)]
    rfl
  · simp at h

theorem extract3_none (line : Str) (h : extract3 line = none) : (tokens line).length < 3 := by
  unfold extract3 at h
  split at h
  · rename_i h1
    rw [extractToken_none _ h1]; simp
  · rename_i m r1 h1
    split at h
    · rename_i h2
      rw [extractToken_tokens _ _ _ h1, extractToken_none _ h2]; simp
    · rename_i u r2 h2
      split at h
      · rename_i h3
        rw [extractToken_tokens _ _ _ h1, extractToken_tokens _ _ _ h2, extractToken_none _ h3]
        simp
      · simp at h

theorem extract3_eq_none_iff (line : Str) : extract3 line = none ↔ (tokens line).length < 3 := by
  constructor
  · exact extract3_none line
  · intro h
    cases he : extract3 line with
    | none => rfl
    | some x =>
      obtain ⟨m, u, v⟩ := x
      obtain ⟨more, hm⟩ := extract3_tokens line m u v he
      rw [hm] at h
      simp only [List.length_cons] at h
      omega

theorem extract3_of_tokens (line m t v : Str) (more : List Str)
    (h : tokens line = m :: t :: v :: more) : extract3 line = some (m, t, v) := by
  cases he : extract3 line with
  | none =>
    have := extract3_none line he
    rw [h] at this
    simp only [List.length_cons] at this
    omega
  | some x =>
    obtain ⟨m2, t2, v2⟩ := x
    obtain ⟨more2, hm⟩ := extract3_tokens line m2 t2 v2 he
    rw [h] at hm
    simp only [List.cons.injEq] at hm
    obtain ⟨rfl, rfl, rfl, _⟩ := hm
    rfl

theorem parseRequestLine_too_long (line : Str) (r : Request) (h : line.length > MAX_URI_LENGTH) :
    Request.parseRequestLine line r = (false, { r with error_code := 414 }) := by
  unfold Request.parseRequestLine
  rw [if_pos h]

theorem parseRequestLine_few_tokens (line : Str) (r : Request)
    (hlen : line.length ≤ MAX_URI_LENGTH) (h : (tokens line).length < 3) :
    Request.parseRequestLine line r = (false, { r with error_code := 400 }) := by
  unfold Request.parseRequestLine
  rw [if_neg (by omega), (extract3_eq_none_iff line).mpr h]

theorem parseRequestLine_bad_method (line m t v : Str) (more : List Str) (r : Request)
    (hlen : line.length ≤ MAX_URI_LENGTH) (htok : tokens line = m :: t :: v :: more)
    (hm : m ≠ str "GET" ∧ m ≠ str "POST" ∧ m ≠ str "DELETE") :
    Request.parseRequestLine line r = (false, { r with error_code := 405 }) := by
  unfold Request.parseRequestLine
  rw [if_neg (by omega), extract3_of_tokens line m t v more htok]
  simp only
  rw [if_pos hm]

theorem findCRLF_append_of_some (a b : Str) (p : Nat) (h : findCRLF a = some p) :
    findCRLF (a ++ b) = some p := by
  induction a generalizing p with
  | nil => simp [findCRLF] at h
  | cons x a2 ih =>
    cases a2 with
    | nil => simp [findCRLF] at h
    | cons y a3 =>
      rw [findCRLF] at h
      simp only [List.cons_append]
      rw [findCRLF]
      split at h
      · rename_i hxy; rw [if_pos hxy]; exact h
      · rename_i hxy
        rw [if_neg hxy]
        simp only [Option.map_eq_some'] at h
        obtain ⟨q, hq, rfl⟩ := h
        have := ih q hq
        simp only [List.cons_append] at this
        rw [this]
        rfl

theorem parse_terminal (raw : Str) (r : Request)
    (h : r.state = RequestState.COMPLETE ∨ r.state = RequestState.ERROR) :
    Request.parse raw r =
      some (decide (r.state = RequestState.COMPLETE),
        { r with read_buffer := r.read_buffer ++ raw }) :=
  parseLoop_terminal (r.read_buffer.length + raw.length + 3)
    { r with read_buffer := r.read_buffer ++ raw } h

theorem parseAll_terminal (ds : List Str) :
    ∀ r : Request, r.state = RequestState.COMPLETE ∨ r.state = RequestState.ERROR →
      Request.parseAll ds r = some { r with read_buffer := r.read_buffer ++ ds.flatten } := by
  induction ds with
  | nil => intro r _; simp [Request.parseAll]
  | cons d ds2 ih =>
    intro r h
    rw [Request.parseAll, parse_terminal d r h]
    simp only
    rw [ih { r with read_buffer := r.read_buffer ++ d } h]
    simp [List.append_assoc]

theorem parse_request_line_pending (d : Str) (r : Request)
    (hs : r.state = RequestState.REQUEST_LINE) (hf : findCRLF (r.read_buffer ++ d) = none) :
    Request.parse d r = some (false, { r with read_buffer := r.read_buffer ++ d }) := by
  unfold Request.parse Request.parseFuel
  rw [show r.read_buffer.length + d.length + 4 = (r.read_buffer.length + d.length + 3) + 1 from rfl,
    Request.parseLoop]
  simp only [hs, hf]

theorem parse_request_line_error (d line rest : Str) (c : Int) (r : Request)
    (hs : r.state = RequestState.REQUEST_LINE)
    (hbuf : r.read_buffer ++ d = line ++ CRLF ++ rest) (hline : findCRLF line = none)
    (herr : ∀ r : Request, Request.parseRequestLine line r = (false, { r with error_code := c })) :
    Request.parse d r =
      some (false, { r with state := RequestState.ERROR, error_code := c, read_buffer := rest }) := by
  have hfind : findCRLF (r.read_buffer ++ d) = some line.length := by
    rw [hbuf]
    simpa [CRLF] using findCRLF_append_crlf line hline rest
  have htake : substr (r.read_buffer ++ d) 0 line.length = line := by
    rw [hbuf]; simp [substr]
  have hdrop : erase0 (r.read_buffer ++ d) (line.length + 2) = rest := by
    rw [hbuf]; simp [erase0, CRLF, List.drop_append]
  unfold Request.parse Request.parseFuel
  rw [show r.read_buffer.length + d.length + 4 = (r.read_buffer.length + d.length + 3) + 1 from rfl,
    Request.parseLoop]
  simp only [hs, hfind, htake, hdrop, herr]

theorem crlf_split_unique (l1 l2 r1 r2 : Str) (h1 : findCRLF l1 = none) (h2 : findCRLF l2 = none)
    (h : l1 ++ CRLF ++ r1 = l2 ++ CRLF ++ r2) : l1 = l2 ∧ r1 = r2 := by
  have e1 := findCRLF_append_crlf l1 h1 r1
  have e2 := findCRLF_append_crlf l2 h2 r2
  have h' : l1 ++ 13 :: 10 :: r1 = l2 ++ 13 :: 10 :: r2 := by
    simpa [CRLF, List.append_assoc] using h
  rw [h', e2] at e1
  have hlen : l1.length = l2.length := (Option.some.inj e1).symm
  obtain ⟨ha, hb⟩ := List.append_inj h' hlen
  simp only [List.cons.injEq, true_and] at hb
  exact ⟨ha, hb⟩

theorem parseAll_request_line_error (line rest : Str) (c : Int) (hline : findCRLF line = none)
    (herr : ∀ r : Request, Request.parseRequestLine line r = (false, { r with error_code := c })) :
    ∀ (frags : List Str) (r0 : Request), r0.state = RequestState.REQUEST_LINE →
      findCRLF r0.read_buffer = none →
      r0.read_buffer ++ frags.flatten = line ++ CRLF ++ rest →
      Request.parseAll frags r0 =
        some { r0 with state := RequestState.ERROR, error_code := c, read_buffer := rest } := by
  intro frags
  induction frags with
  | nil =>
    intro r0 _ hf hbuf
    simp only [List.flatten_nil, List.append_nil] at hbuf
    rw [hbuf] at hf
    have := findCRLF_append_crlf line hline rest
    simp only [CRLF, List.append_assoc, List.cons_append, List.nil_append] at hf
    rw [this] at hf
    simp at hf
  | cons d ds ih =>
    intro r0 hs hf hbuf
    rw [Request.parseAll]
    cases hfd : findCRLF (r0.read_buffer ++ d) with
    | none =>
      rw [parse_request_line_pending d r0 hs hfd]
      simp only
      rw [ih { r0 with read_buffer := r0.read_buffer ++ d } hs hfd
        (by simpa [List.append_assoc] using hbuf)]
    | some p =>
      obtain ⟨hsplit, hnone⟩ := findCRLF_spec _ _ hfd
      have htotal : (r0.read_buffer ++ d).take p ++ CRLF ++
          ((r0.read_buffer ++ d).drop (p + 2) ++ ds.flatten) = line ++ CRLF ++ rest := by
        rw [← hbuf]
        simp only [List.flatten_cons, ← List.append_assoc]
        congr 1
        simpa [CRLF, List.append_assoc] using hsplit.symm
      obtain ⟨hl, hr⟩ := crlf_split_unique _ _ _ _ hnone hline htotal
      have hbuf2 : r0.read_buffer ++ d = line ++ CRLF ++ (r0.read_buffer ++ d).drop (p + 2) := by
        rw [← hl]
        simpa [CRLF, List.append_assoc] using hsplit
      rw [parse_request_line_error d line _ c r0 hs hbuf2 hline herr]
      simp only
      rw [parseAll_terminal ds _ (Or.inr rfl)]
      simp only [hr]

/-- A request line that `parseRequestLine` rejects with the code `c`, fed to a
fresh Request in one call or in any fragments, ends in state ERROR with
`error_code` `c` and the bytes after the line's CR LF in the carry-over
buffer. -/
theorem request_line_rejected (line rest : Str) (c : Int) (hline : findCRLF line = none)
    (herr : ∀ r : Request, Request.parseRequestLine line r = (false, { r with error_code := c })) :
    Request.parse (line ++ CRLF ++ rest) Request.fresh =
      some (false, { Request.fresh with
        state := RequestState.ERROR, error_code := c, read_buffer := rest }) ∧
    ∀ frags : List Str, frags.flatten = line ++ CRLF ++ rest →
      Request.parseAll frags Request.fresh =
        some { Request.fresh with
          state := RequestState.ERROR, error_code := c, read_buffer := rest } := by
  constructor
  · exact parse_request_line_error _ line rest c Request.fresh rfl (by simp [Request.fresh]) hline
      herr
  · intro frags hfr
    exact parseAll_request_line_error line rest c hline herr frags Request.fresh rfl rfl
      (by simpa [Request.fresh] using hfr)

theorem findChar_some_spec (c : Nat) (l : Str) (p : Nat) (h : findChar c l = some p) :
    l = l.take p ++ c :: l.drop (p + 1) ∧ c ∉ l.take p := by
  induction l generalizing p with
  | nil => simp [findChar] at h
  | cons a l2 ih =>
    rw [findChar] at h
    split at h
    · rename_i hac
      simp only [Option.some.injEq] at h
      subst h
      simp [hac]
    · rename_i hac
      cases hf : findChar c l2 with
      | none => simp [hf] at h
      | some q =>
        simp only [hf, Option.map_some', Option.some.injEq] at h
        subst h
        obtain ⟨h1, h2⟩ := ih q hf
        refine ⟨?_, ?_⟩
        · simp only [List.take_succ_cons, List.drop_succ_cons, List.cons_append]
          rw [← h1]
        · simp only [List.take_succ_cons, List.mem_cons, not_or]
          exact ⟨fun e => hac e.symm, h2⟩

theorem findChar_none_spec (c : Nat) (l : Str) (h : findChar c l = none) : c ∉ l := by
  intro hm
  have := findChar_isSome_of_mem c l hm
  rw [h] at this
  simp at this

theorem parseRequestLine_same_tokens (l1 l2 m t v : Str) (more1 more2 : List Str) (r : Request)
    (h1 : l1.length ≤ MAX_URI_LENGTH) (h2 : l2.length ≤ MAX_URI_LENGTH)
    (ht1 : tokens l1 = m :: t :: v :: more1) (ht2 : tokens l2 = m :: t :: v :: more2) :
    Request.parseRequestLine l1 r = Request.parseRequestLine l2 r := by
  unfold Request.parseRequestLine
  rw [if_neg (by omega), if_neg (by omega), extract3_of_tokens l1 m t v more1 ht1,
    extract3_of_tokens l2 m t v more2 ht2]

/-- Claim C17 (amended). A request line of at most 2048 bytes with fewer than
three whitespace-separated tokens, fed to a fresh Request in one call or in any
fragments, ends in state ERROR with `error_code` 400, `parse` returning false.
The tokens after the third are never read: two lines of at most 2048 bytes with
the same first three tokens get the same verdict from `parseRequestLine`. -/
theorem request_line_few_tokens (line rest : Str) (hline : findCRLF line = none)
    (hlen : line.length ≤ MAX_URI_LENGTH) (htok : (tokens line).length < 3) :
    Request.parse (line ++ CRLF ++ rest) Request.fresh =
      some (false, { Request.fresh with
        state := RequestState.ERROR, error_code := 400, read_buffer := rest }) ∧
    (∀ frags : List Str, frags.flatten = line ++ CRLF ++ rest →
      Request.parseAll frags Request.fresh =
        some { Request.fresh with
          state := RequestState.ERROR, error_code := 400, read_buffer := rest }) ∧
    (∀ (l1 l2 m t v : Str) (more1 more2 : List Str) (r : Request),
      l1.length ≤ MAX_URI_LENGTH → l2.length ≤ MAX_URI_LENGTH →
      tokens l1 = m :: t :: v :: more1 → tokens l2 = m :: t :: v :: more2 →
      Request.parseRequestLine l1 r = Request.parseRequestLine l2 r) := by
  obtain ⟨h1, h2⟩ := request_line_rejected line rest 400 hline
    (fun r => parseRequestLine_few_tokens line r hlen htok)
  exact ⟨h1, h2, fun l1 l2 m t v more1 more2 r hl1 hl2 ht1 ht2 =>
    parseRequestLine_same_tokens l1 l2 m t v more1 more2 r hl1 hl2 ht1 ht2⟩

theorem request_line_few_tokens_witness :
    Request.parse (str "GET /index.html" ++ CRLF ++ str "Host: x\r\n\r\n") Request.fresh =
      some (false, { Request.fresh with
        state := RequestState.ERROR, error_code := 400, read_buffer := str "Host: x\r\n\r\n" }) ∧
    Request.parseAll [str "GET /ind", str "ex.html\r", str "\nHost: x\r\n\r\n"] Request.fresh =
      some { Request.fresh with
        state := RequestState.ERROR, error_code := 400, read_buffer := str "Host: x\r\n\r\n" } ∧
    Request.parseRequestLine (str "GET /a HTTP/1.1 x y") Request.fresh =
      Request.parseRequestLine (str "GET /a HTTP/1.1") Request.fresh :=
  have h := request_line_few_tokens (str "GET /index.html") (str "Host: x\r\n\r\n")
    (by decide) (by decide) (by decide)
  ⟨h.1, h.2.1 [str "GET /ind", str "ex.html\r", str "\nHost: x\r\n\r\n"] (by decide),
    h.2.2 (str "GET /a HTTP/1.1 x y") (str "GET /a HTTP/1.1") (str "GET") (str "/a")
      (str "HTTP/1.1") [str "x", str "y"] [] Request.fresh
      (by decide) (by decide) (by decide) (by decide)⟩

/-- Claim C17, counterexample. A request line of six tokens, of at most 2048
bytes, is not rejected: after the line the state is HEADERS with `error_code`
0, and with the blank line the request is COMPLETE. -/
theorem request_line_six_tokens :
    (tokens (str "GET /index.html HTTP/1.1 three more tokens")).length = 6 ∧
    (str "GET /index.html HTTP/1.1 three more tokens").length ≤ MAX_URI_LENGTH ∧
    Request.parse (str "GET /index.html HTTP/1.1 three more tokens\r\n") Request.fresh =
      some (false, { Request.fresh with
        method := str "GET", uri := str "/index.html", version := str "HTTP/1.1",
        state := RequestState.HEADERS, error_code := 0 }) ∧
    Request.parse (str "GET /index.html HTTP/1.1 three more tokens\r\n\r\n") Request.fresh =
      some (true, { Request.fresh with
        method := str "GET", uri := str "/index.html", version := str "HTTP/1.1",
        state := RequestState.COMPLETE, error_code := 0 }) := by
  decide

/-- Claim C18. A request line of at most 2048 bytes whose first three tokens are
a method, a target and a version, with a method other than "GET", "POST" and
"DELETE", fed to a fresh Request in one call or in any fragments, ends in state
ERROR with `error_code` 405, whatever the target and the version are, and
`parse` returns false. -/
theorem request_line_bad_method (line rest m t v : Str) (more : List Str)
    (hline : findCRLF line = none) (hlen : line.length ≤ MAX_URI_LENGTH)
    (htok : tokens line = m :: t :: v :: more)
    (hm : m ≠ str "GET" ∧ m ≠ str "POST" ∧ m ≠ str "DELETE") :
    Request.parse (line ++ CRLF ++ rest) Request.fresh =
      some (false, { Request.fresh with
        state := RequestState.ERROR, error_code := 405, read_buffer := rest }) ∧
    ∀ frags : List Str, frags.flatten = line ++ CRLF ++ rest →
      Request.parseAll frags Request.fresh =
        some { Request.fresh with
          state := RequestState.ERROR, error_code := 405, read_buffer := rest } :=
  request_line_rejected line rest 405 hline
    (fun r => parseRequestLine_bad_method line m t v more r hlen htok hm)

theorem request_line_bad_method_witness :
    Request.parse (str "PUT /f HTTP/1.1" ++ CRLF ++ str "Host: x\r\n\r\n") Request.fresh =
      some (false, { Request.fresh with
        state := RequestState.ERROR, error_code := 405, read_buffer := str "Host: x\r\n\r\n" }) ∧
    Request.parseAll [str "get ? FTP/9", str "\r", str "\n"] Request.fresh =
      some { Request.fresh with
        state := RequestState.ERROR, error_code := 405, read_buffer := [] } :=
  ⟨(request_line_bad_method (str "PUT /f HTTP/1.1") (str "Host: x\r\n\r\n")
      (str "PUT") (str "/f") (str "HTTP/1.1") [] (by decide) (by decide) (by decide)
      (by decide)).1,
   (request_line_bad_method (str "get ? FTP/9") [] (str "get") (str "?") (str "FTP/9") []
      (by decide) (by decide) (by decide) (by decide)).2
      [str "get ? FTP/9", str "\r", str "\n"] (by decide)⟩

/-- Claim C20. When `parseRequestLine` accepts a line, the line has a method
token, a target token `t` and a version token; the method and the version are
stored, and the target is split at its first '?': if `t` contains '?', then
`uri ++ "?" ++ query_string = t` and `uri` contains no '?'; if `t` contains no
'?', then `uri = t` and `query_string` is empty. -/
theorem parseRequestLine_target_split (line : Str) (r r2 : Request)
    (h : Request.parseRequestLine line r = (true, r2)) :
    ∃ (m t v : Str) (more : List Str), tokens line = m :: t :: v :: more ∧
      r2.method = m ∧ r2.version = v ∧
      (63 ∈ t → r2.uri ++ 63 :: r2.query_string = t ∧ 63 ∉ r2.uri) ∧
      (63 ∉ t → r2.uri = t ∧ r2.query_string = []) := by
  unfold Request.parseRequestLine at h
  split at h
  · simp at h
  · split at h
    · simp at h
    · rename_i m t v he
      obtain ⟨more, hm⟩ := extract3_tokens line m t v he
      split at h
      · simp at h
      · split at h
        · simp at h
        · split at h
          · rename_i pos hf
            simp only [Prod.mk.injEq, true_and] at h
            subst h
            obtain ⟨h1, h2⟩ := findChar_some_spec 63 t pos hf
            refine ⟨m, t, v, more, hm, rfl, rfl, ?_, ?_⟩
            · intro _
              refine ⟨?_, ?_⟩
              · simp only [substr, substrFrom, List.drop_zero]
                exact h1.symm
              · simpa [substr] using h2
            · intro hn
              exact absurd (by rw [h1]; simp) hn
          · rename_i hf
            simp only [Prod.mk.injEq, true_and] at h
            subst h
            refine ⟨m, t, v, more, hm, rfl, rfl, ?_, ?_⟩
            · intro hmem
              exact absurd hmem (findChar_none_spec 63 t hf)
            · intro _
              exact ⟨rfl, rfl⟩

theorem parseRequestLine_target_split_witness :
    (∃ (m t v : Str) (more : List Str),
      tokens (str "GET /a?b=1 HTTP/1.1") = m :: t :: v :: more ∧
      ({ Request.fresh with
          method := str "GET", uri := str "/a", query_string := str "b=1",
          version := str "HTTP/1.1" } : Request).method = m ∧
      ({ Request.fresh with
          method := str "GET", uri := str "/a", query_string := str "b=1",
          version := str "HTTP/1.1" } : Request).version = v ∧
      (63 ∈ t →
        ({ Request.fresh with
          method := str "GET", uri := str "/a", query_string := str "b=1",
          version := str "HTTP/1.1" } : Request).uri ++ 63 :: ({ Request.fresh with
          method := str "GET", uri := str "/a", query_string := str "b=1",
          version := str "HTTP/1.1" } : Request).query_string = t ∧
        63 ∉ ({ Request.fresh with
          method := str "GET", uri := str "/a", query_string := str "b=1",
          version := str "HTTP/1.1" } : Request).uri) ∧
      (63 ∉ t →
        ({ Request.fresh with
          method := str "GET", uri := str "/a", query_string := str "b=1",
          version := str "HTTP/1.1" } : Request).uri = t ∧
        ({ Request.fresh with
          method := str "GET", uri := str "/a", query_string := str "b=1",
          version := str "HTTP/1.1" } : Request).query_string = [])) ∧
    Request.parse (str "GET /a?b=1 HTTP/1.1\r\nHost: x\r\n\r\n") Request.fresh =
      some (true, { Request.fresh with
        method := str "GET", uri := str "/a", query_string := str "b=1",
        headers := [(str "Host", str "x")], state := RequestState.COMPLETE }) :=
  ⟨parseRequestLine_target_split (str "GET /a?b=1 HTTP/1.1") Request.fresh
    { Request.fresh with
      method := str "GET", uri := str "/a", query_string := str "b=1",
      version := str "HTTP/1.1" } (by decide), by decide⟩

theorem parseRequestLine_error_code (line : Str) (r : Request) :
    (Request.parseRequestLine line r).2.error_code = 414 →
      r.error_code = 414 ∨ line.length > MAX_URI_LENGTH := by
  unfold Request.parseRequestLine
  split
  · intro _; right; assumption
  · split
    · intro h; simp at h
    · split
      · intro h; simp at h
      · split
        · intro h; simp at h
        · split <;> exact fun h => Or.inl h

theorem parseHeader_error_code (line : Str) (r : Request) :
    (Request.parseHeader line r).2.error_code = r.error_code ∨
    (Request.parseHeader line r).2.error_code = 400 := by
  unfold Request.parseHeader
  split
  · right; rfl
  · simp only
    left
    repeat' split
    all_goals rfl

theorem parseBody_error_code (r : Request) :
    (Request.parseBody r).2.error_code = r.error_code := by
  unfold Request.parseBody
  simp only
  split <;> rfl

theorem parseChunkedBody_error_code (fuel : Nat) :
    ∀ (r : Request) (b : Bool) (r2 : Request),
      Request.parseChunkedBody fuel r = some (b, r2) → r2.error_code = r.error_code := by
  induction fuel with
  | zero => intro r b r2 h; simp [Request.parseChunkedBody] at h
  | succ f ih =>
    intro r b r2 h
    rw [Request.parseChunkedBody] at h
    split at h
    · simp only [Option.some.injEq, Prod.mk.injEq] at h
      obtain ⟨_, rfl⟩ := h
      rfl
    · simp only at h
      split at h
      · simp only [Option.some.injEq, Prod.mk.injEq] at h
        obtain ⟨_, rfl⟩ := h
        rfl
      · split at h
        · simp only [Option.some.injEq, Prod.mk.injEq] at h
          obtain ⟨_, rfl⟩ := h
          rfl
        · have e := ih _ b r2 h
          exact e

theorem parseLoop_error_code (fuel : Nat) :
    ∀ (r : Request) (b : Bool) (r2 : Request),
      r.state ≠ RequestState.REQUEST_LINE → Request.parseLoop fuel r = some (b, r2) →
      r2.error_code = r.error_code ∨ r2.error_code = 400 := by
  induction fuel with
  | zero => intro r b r2 _ h; simp [Request.parseLoop] at h
  | succ f ih =>
    intro r b r2 hs h
    rw [Request.parseLoop] at h
    split at h
    · simp only [Option.some.injEq, Prod.mk.injEq] at h
      obtain ⟨_, rfl⟩ := h
      exact Or.inl rfl
    · simp only [Option.some.injEq, Prod.mk.injEq] at h
      obtain ⟨_, rfl⟩ := h
      exact Or.inl rfl
    · rename_i hst
      exact absurd hst hs
    · rename_i hst
      split at h
      · simp only [Option.some.injEq, Prod.mk.injEq] at h
        obtain ⟨_, rfl⟩ := h
        exact Or.inl rfl
      · split at h
        · simp only at h
          split at h
          · have e := ih _ b r2 (by simp) h
            exact e
          · split at h
            · have e := ih _ b r2 (by simp) h
              exact e
            · have e := ih _ b r2 (by simp) h
              exact e
        · simp only at h
          rename_i pos _ _
          have hec := parseHeader_error_code (substr r.read_buffer 0 pos)
            { r with read_buffer := erase0 r.read_buffer (pos + 2) }
          have hst2 := parseHeader_state (substr r.read_buffer 0 pos)
            { r with read_buffer := erase0 r.read_buffer (pos + 2) }
          split at h
          · rename_i r3 hp
            simp only [Option.some.injEq, Prod.mk.injEq] at h
            obtain ⟨_, rfl⟩ := h
            rw [hp] at hec
            exact hec
          · rename_i r3 hp
            rw [hp] at hec hst2
            simp only at hec hst2
            have := ih r3 b r2 (by rw [hst2]; simp [hst]) h
            rcases this with e | e
            · rcases hec with e2 | e2
              · exact Or.inl (e.trans e2)
              · exact Or.inr (e.trans e2)
            · exact Or.inr e
    · rename_i hst
      have hec := parseBody_error_code r
      have hst2 := parseBody_state r
      split at h
      · rename_i r3 hp
        simp only [Option.some.injEq, Prod.mk.injEq] at h
        obtain ⟨_, rfl⟩ := h
        rw [hp] at hec
        exact Or.inl hec
      · rename_i r3 hp
        rw [hp] at hec hst2
        simp only [if_true] at hec hst2
        have := ih r3 b r2 (by rw [hst2]; simp) h
        rcases this with e | e
        · exact Or.inl (e.trans hec)
        · exact Or.inr e
    · rename_i hst
      split at h
      · simp at h
      · rename_i r3 hp
        simp only [Option.some.injEq, Prod.mk.injEq] at h
        obtain ⟨_, rfl⟩ := h
        exact Or.inl (parseChunkedBody_error_code _ _ _ _ hp)
      · rename_i r3 hp
        have hec := parseChunkedBody_error_code _ _ _ _ hp
        have hst2 := parseChunkedBody_state _ _ _ _ hp
        simp only [if_true] at hst2
        have := ih r3 b r2 (by rw [hst2]; simp) h
        rcases this with e | e
        · exact Or.inl (e.trans hec)
        · exact Or.inr e

theorem LongRequestLine_append (a b : Str) (h : LongRequestLine a) : LongRequestLine (a ++ b) := by
  unfold LongRequestLine at h ⊢
  cases hf : findCRLF a with
  | none => simp [hf] at h
  | some p =>
    rw [findCRLF_append_of_some a b p hf]
    simpa [hf] using h

theorem LongRequestLine_split (line rest : Str) (hline : findCRLF line = none) :
    LongRequestLine (line ++ CRLF ++ rest) ↔ MAX_URI_LENGTH < line.length := by
  unfold LongRequestLine
  have := findCRLF_append_crlf line hline rest
  simp only [CRLF, List.append_assoc, List.cons_append, List.nil_append]
  rw [this]

theorem StateMove_ne_request_line (s t : RequestState) (h : StateMove s t)
    (hs : s ≠ RequestState.REQUEST_LINE) : t ≠ RequestState.REQUEST_LINE := by
  cases s <;> cases t <;> simp_all [StateMove, chainRank]

theorem parse_error_414 (d total : Str) (r r2 : Request) (b : Bool)
    (h1 : r.state = RequestState.REQUEST_LINE → r.read_buffer = total ∧ r.error_code ≠ 414)
    (h2 : r.error_code = 414 → LongRequestLine total)
    (hp : Request.parse d r = some (b, r2)) :
    (r2.state = RequestState.REQUEST_LINE → r2.read_buffer = total ++ d ∧ r2.error_code ≠ 414) ∧
    (r2.error_code = 414 → LongRequestLine (total ++ d)) := by
  unfold Request.parse Request.parseFuel at hp
  by_cases hs : r.state = RequestState.REQUEST_LINE
  · obtain ⟨hb, he⟩ := h1 hs
    rw [show r.read_buffer.length + d.length + 4 = (r.read_buffer.length + d.length + 3) + 1
      from rfl, Request.parseLoop] at hp
    simp only [hs] at hp
    cases hfd : findCRLF (r.read_buffer ++ d) with
    | none =>
      simp only [hfd, Option.some.injEq, Prod.mk.injEq] at hp
      obtain ⟨_, rfl⟩ := hp
      exact ⟨fun _ => ⟨by simp [hb], he⟩, fun e => absurd e he⟩
    | some p =>
      simp only [hfd] at hp
      have hlong : ∀ ra r3 : Request,
          (Request.parseRequestLine (substr (r.read_buffer ++ d) 0 p) ra).2 = r3 →
          ra.error_code ≠ 414 →
          r3.error_code = 414 → LongRequestLine (total ++ d) := by
        intro ra r3 e3 hra h414
        rw [← e3] at h414
        rcases parseRequestLine_error_code _ _ h414 with e | e
        · exact absurd e hra
        · unfold LongRequestLine
          rw [← hb, hfd]
          simp only [substr, List.drop_zero, List.length_take] at e
          simp only
          omega
      split at hp
      · rename_i r3 hpl
        simp only [Option.some.injEq, Prod.mk.injEq] at hp
        obtain ⟨_, rfl⟩ := hp
        refine ⟨fun e => by simp at e, fun e => hlong _ r3 (congrArg Prod.snd hpl) he e⟩
      · rename_i r3 hpl
        have hmv := parseLoop_move _ _ _ _ hp
        have hec := parseLoop_error_code _ _ _ _ (by simp) hp
        simp only at hmv hec
        refine ⟨fun e => absurd e (StateMove_ne_request_line _ _ hmv (by simp)), fun e => ?_⟩
        rcases hec with e2 | e2
        · exact hlong _ r3 (congrArg Prod.snd hpl) he (e2 ▸ e)
        · rw [e2] at e
          simp at e
  · have hmv := parseLoop_move _ _ _ _ hp
    have hec := parseLoop_error_code _ _ _ _ (by simpa using hs) hp
    simp only at hmv hec
    refine ⟨fun e => absurd e (StateMove_ne_request_line _ _ hmv hs), fun e => ?_⟩
    rcases hec with e2 | e2
    · exact LongRequestLine_append _ _ (h2 (e2 ▸ e))
    · rw [e2] at e
      simp at e

theorem parseAll_error_414 (frags : List Str) :
    ∀ (total : Str) (r r2 : Request),
      (r.state = RequestState.REQUEST_LINE → r.read_buffer = total ∧ r.error_code ≠ 414) →
      (r.error_code = 414 → LongRequestLine total) →
      Request.parseAll frags r = some r2 →
      (r2.error_code = 414 → LongRequestLine (total ++ frags.flatten)) := by
  induction frags with
  | nil =>
    intro total r r2 _ h2 hp
    simp only [Request.parseAll, Option.some.injEq] at hp
    subst hp
    simpa using h2
  | cons d ds ih =>
    intro total r r2 h1 h2 hp
    rw [Request.parseAll] at hp
    split at hp
    · simp at hp
    · rename_i b r1 hpd
      obtain ⟨g1, g2⟩ := parse_error_414 d total r r1 b h1 h2 hpd
      have := ih (total ++ d) r1 r2 g1 g2 hp
      simpa [List.append_assoc] using this

/-- Claim C19. When the request line, the bytes before the first CR LF of the
input, is longer than `MAX_URI_LENGTH` = 2048 bytes, a fresh Request fed the
input in one call or in any fragments ends in state ERROR with `error_code`
414, whatever the line contains, and `parse` returns false. When the request
line has 2048 bytes or fewer, no feed of the input or of a part of it from its
start leaves `error_code` 414. -/
theorem request_line_too_long (line rest : Str) (hline : findCRLF line = none) :
    (line.length > MAX_URI_LENGTH →
      Request.parse (line ++ CRLF ++ rest) Request.fresh =
        some (false, { Request.fresh with
          state := RequestState.ERROR, error_code := 414, read_buffer := rest }) ∧
      ∀ frags : List Str, frags.flatten = line ++ CRLF ++ rest →
        Request.parseAll frags Request.fresh =
          some { Request.fresh with
            state := RequestState.ERROR, error_code := 414, read_buffer := rest }) ∧
    (line.length ≤ MAX_URI_LENGTH →
      ∀ (frags : List Str) (more : Str) (r : Request),
        frags.flatten ++ more = line ++ CRLF ++ rest →
        Request.parseAll frags Request.fresh = some r → r.error_code ≠ 414) := by
  constructor
  · intro hlen
    exact request_line_rejected line rest 414 hline
      (fun r => parseRequestLine_too_long line r hlen)
  · intro hlen frags more r hfr hp h414
    have h := parseAll_error_414 frags [] Request.fresh r
      (fun _ => ⟨rfl, by decide⟩) (fun e => absurd e (by decide)) hp h414
    simp only [List.nil_append] at h
    have h2 := LongRequestLine_append _ more h
    rw [hfr, LongRequestLine_split line rest hline] at h2
    omega

theorem request_line_too_long_witness :
    (Request.parse (List.replicate 2049 65 ++ CRLF ++ str "Host: x\r\n\r\n") Request.fresh =
        some (false, { Request.fresh with
          state := RequestState.ERROR, error_code := 414,
          read_buffer := str "Host: x\r\n\r\n" }) ∧
      ∀ frags : List Str,
        frags.flatten = List.replicate 2049 65 ++ CRLF ++ str "Host: x\r\n\r\n" →
        Request.parseAll frags Request.fresh =
          some { Request.fresh with
            state := RequestState.ERROR, error_code := 414,
            read_buffer := str "Host: x\r\n\r\n" }) ∧
    (∀ r : Request,
      Request.parseAll [str "BREW /pot", str " HTCPCP/1.0\r"] Request.fresh = some r →
      r.error_code ≠ 414) :=
  ⟨(request_line_too_long (List.replicate 2049 65) (str "Host: x\r\n\r\n")
      (findCRLF_none_of_no_cr _ (by simp only [List.mem_replicate]; omega))).1
      (by simp only [List.length_replicate, MAX_URI_LENGTH]; omega),
   fun r => (request_line_too_long (str "BREW /pot HTCPCP/1.0") (str "Host: x\r\n\r\n")
      (by decide)).2 (by decide) [str "BREW /pot", str " HTCPCP/1.0\r"]
      (str "\nHost: x\r\n\r\n") r (by decide)⟩

theorem findFirstNotSpaceTab_none (v : Str) :
    findFirstNotSpaceTab v = none ↔ trimLeft v = [] := by
  induction v with
  | nil => simp [findFirstNotSpaceTab, trimLeft]
  | cons c rest ih =>
    rw [findFirstNotSpaceTab]
    unfold trimLeft at ih ⊢
    by_cases hc : c = 32 ∨ c = 9
    · simp only [hc, if_true, Option.map_eq_none', List.dropWhile_cons, decide_True]
      exact ih
    · simp [hc, List.dropWhile_cons]

theorem findFirstNotSpaceTab_some (v : Str) :
    ∀ start, findFirstNotSpaceTab v = some start → substrFrom v start = trimLeft v := by
  induction v with
  | nil => intro start h; simp [findFirstNotSpaceTab] at h
  | cons c rest ih =>
    intro start h
    rw [findFirstNotSpaceTab] at h
    unfold trimLeft substrFrom at ih ⊢
    by_cases hc : c = 32 ∨ c = 9
    · simp only [hc, if_true, Option.map_eq_some'] at h
      obtain ⟨s, hs, rfl⟩ := h
      simp only [List.drop_succ_cons, List.dropWhile_cons, hc, decide_True, if_true]
      exact ih s hs
    · simp only [hc, if_false, Option.some.injEq] at h
      subst h
      simp [List.dropWhile_cons, hc]

theorem headerValue_eq (l : Str) :
    headerValue l =
      if trimLeft (afterColon l) = [] then afterColon l else trimLeft (afterColon l) := by
  unfold headerValue
  cases hf : findFirstNotSpaceTab (afterColon l) with
  | none =>
    simp only
    rw [if_pos ((findFirstNotSpaceTab_none _).mp hf)]
  | some start =>
    simp only
    rw [findFirstNotSpaceTab_some _ _ hf]
    split
    · rename_i h
      have := (findFirstNotSpaceTab_none _).mpr h
      rw [hf] at this
      simp at this
    · rfl

theorem trimLeft_head (v : Str) : ∀ c, (trimLeft v).head? = some c → c ≠ 32 ∧ c ≠ 9 := by
  intro c h
  unfold trimLeft at h
  have := List.head?_dropWhile_not (fun c => decide (c = 32 ∨ c = 9)) v
  rw [h] at this
  simpa using this

theorem parseHeader_headers (l : Str) (r : Request) (n : Str) (hn : lineName l = some n) :
    (Request.parseHeader l r).1 = true ∧
    (Request.parseHeader l r).2.headers = mapSet n (headerValue l) r.headers := by
  unfold lineName at hn
  cases hf : findChar 58 l with
  | none => simp [hf] at hn
  | some pos =>
    simp only [hf, Option.map_some', Option.some.injEq] at hn
    subst hn
    unfold Request.parseHeader headerValue afterColon
    simp only [hf, substr, substrFrom, List.drop_zero]
    constructor
    · repeat' split
      all_goals rfl
    · repeat' split
      all_goals rfl

theorem parseHeader_getHeader (l : Str) (r : Request) (n k : Str) (hn : lineName l = some n) :
    (Request.parseHeader l r).2.getHeader k =
      if k = n then headerValue l else r.getHeader k := by
  unfold Request.getHeader
  rw [(parseHeader_headers l r n hn).2]
  by_cases hk : k = n
  · subst hk
    rw [mapFind_mapSet_same, if_pos rfl]
  · rw [mapFind_mapSet_other _ _ _ _ hk, if_neg hk]

/-- Claim C21. A header line with a ':' is accepted, and `parseHeader` stores
under its name, the text before the first ':' as received, this value: the text
after the first ':' without its leading spaces and tabs when that text holds
another byte, in which case the stored value begins with neither a space nor a
tab; and the text unchanged when it holds spaces and tabs only. -/
theorem parseHeader_stored_value (l : Str) (r : Request) (n : Str) (hn : lineName l = some n) :
    (Request.parseHeader l r).1 = true ∧
    (Request.parseHeader l r).2.getHeader n =
      (if trimLeft (afterColon l) = [] then afterColon l else trimLeft (afterColon l)) ∧
    (trimLeft (afterColon l) ≠ [] →
      (Request.parseHeader l r).2.getHeader n = trimLeft (afterColon l) ∧
      ∀ c, ((Request.parseHeader l r).2.getHeader n).head? = some c → c ≠ 32 ∧ c ≠ 9) := by
  have h1 := parseHeader_getHeader l r n n hn
  rw [if_pos rfl, headerValue_eq] at h1
  refine ⟨(parseHeader_headers l r n hn).1, h1, ?_⟩
  intro hne
  rw [if_neg hne] at h1
  rw [h1]
  exact ⟨rfl, trimLeft_head _⟩

theorem parseHeader_stored_value_witness :
    (Request.parseHeader (str "Content-Type: \t text/html") Request.fresh).1 = true ∧
    (Request.parseHeader (str "Content-Type: \t text/html") Request.fresh).2.getHeader
        (str "Content-Type") =
      (if trimLeft (afterColon (str "Content-Type: \t text/html")) = []
        then afterColon (str "Content-Type: \t text/html")
        else trimLeft (afterColon (str "Content-Type: \t text/html"))) ∧
    (Request.parseHeader (str "Content-Type: \t text/html") Request.fresh).2.getHeader
        (str "Content-Type") = str "text/html" :=
  ⟨(parseHeader_stored_value (str "Content-Type: \t text/html") Request.fresh
      (str "Content-Type") (by decide)).1,
   (parseHeader_stored_value (str "Content-Type: \t text/html") Request.fresh
      (str "Content-Type") (by decide)).2.1,
   ((parseHeader_stored_value (str "Content-Type: \t text/html") Request.fresh
      (str "Content-Type") (by decide)).2.2 (by decide)).1.trans (by decide)⟩

/-- Claim C21, failing input. The header line "X-Pad:  \t" has the name
"X-Pad" and, after its ':', a text of spaces and tabs only: without its
leading whitespace the text is empty, but `parseHeader` stores it unchanged, so
the stored value begins with a space; the same holds through `parse`. With one
more byte, "X-Pad:  \tv", the stored value is "v". -/
theorem header_value_only_whitespace :
    lineName (str "X-Pad:  \t") = some (str "X-Pad") ∧
    afterColon (str "X-Pad:  \t") = str "  \t" ∧
    trimLeft (afterColon (str "X-Pad:  \t")) = [] ∧
    (Request.parseHeader (str "X-Pad:  \t") Request.fresh).1 = true ∧
    (Request.parseHeader (str "X-Pad:  \t") Request.fresh).2.getHeader (str "X-Pad") =
      str "  \t" ∧
    (Request.parse (str "GET / HTTP/1.1\r\nX-Pad:  \t\r\n\r\n") Request.fresh).map
        (fun x => (x.1, x.2.state, x.2.getHeader (str "X-Pad"))) =
      some (true, RequestState.COMPLETE, str "  \t") ∧
    (Request.parseHeader (str "X-Pad:  \tv") Request.fresh).2.getHeader (str "X-Pad") =
      str "v" := by
  decide

theorem containsSub_iff (pat s : Str) : containsSub pat s = true ↔ pat <:+: s := by
  induction s with
  | nil =>
    simp only [containsSub, List.isPrefixOf_iff_prefix, List.prefix_nil, List.infix_nil]
  | cons a rest ih =>
    rw [containsSub, Bool.or_eq_true, List.isPrefixOf_iff_prefix, ih, List.infix_cons_iff]

theorem lineName_of_not_mem (n rest : Str) (hn : 58 ∉ n) :
    lineName (n ++ 58 :: rest) = some n ∧ afterColon (n ++ 58 :: rest) = rest := by
  have hf := findChar_append_of_not_mem 58 n hn rest
  unfold lineName afterColon
  rw [hf]
  simp

theorem parseHeader_is_chunked (l : Str) (r : Request) :
    (Request.parseHeader l r).2.is_chunked =
      (r.is_chunked ||
        (decide (lowerName l = some (str "transfer-encoding")) &&
          containsSub (str "chunked") ((headerValue l).map toLower))) := by
  unfold Request.parseHeader lowerName lineName headerValue afterColon
  cases hf : findChar 58 l with
  | none => simp
  | some pos =>
    simp only [Option.map_some', Option.some.injEq, substr, substrFrom, List.drop_zero]
    split
    · rename_i h1
      have h2 : ¬ (List.map toLower (List.take pos l) = str "transfer-encoding") := by
        rw [h1]; decide
      simp only [h2, decide_False, Bool.false_and, Bool.or_false]
    · split
      · rename_i h2
        split
        · rename_i hc
          simp only [h2, hc, decide_True, Bool.and_self, Bool.or_true]
        · rename_i hc
          simp only [Bool.not_eq_true] at hc
          simp only [h2, hc, decide_True, Bool.and_false, Bool.or_false]
      · rename_i h2
        simp only [h2, decide_False, Bool.false_and, Bool.or_false]

theorem parseHeaders_is_chunked (ls : List Str) :
    ∀ r : Request, (Request.parseHeaders ls r).is_chunked = true ↔
      (r.is_chunked = true ∨ ∃ l ∈ ls, lowerName l = some (str "transfer-encoding") ∧
        str "chunked" <:+: (headerValue l).map toLower) := by
  induction ls with
  | nil => intro r; simp [Request.parseHeaders]
  | cons l ls2 ih =>
    intro r
    rw [Request.parseHeaders, ih, parseHeader_is_chunked]
    simp only [Bool.or_eq_true, Bool.and_eq_true, decide_eq_true_eq, containsSub_iff,
      List.mem_cons, exists_eq_or_imp]
    tauto

/-- Claim C23. The special headers are recognised whatever the letter case of
the name: two header lines with the same text after the ':' and names that are
equal in lower case are both accepted and give the same `content_length` and
the same `is_chunked`. And `is_chunked` is set exactly by a header whose name
is "transfer-encoding" in lower case and whose value contains "chunked" in
lower case: after one header line, and after a list of header lines, the flag
is true exactly when it was true before or one such line was read. -/
theorem special_headers_case_insensitive :
    (∀ (n1 n2 rest : Str) (r : Request), 58 ∉ n1 → 58 ∉ n2 →
      n1.map toLower = n2.map toLower →
      (Request.parseHeader (n1 ++ 58 :: rest) r).1 = true ∧
      (Request.parseHeader (n2 ++ 58 :: rest) r).1 = true ∧
      (Request.parseHeader (n1 ++ 58 :: rest) r).2.content_length =
        (Request.parseHeader (n2 ++ 58 :: rest) r).2.content_length ∧
      (Request.parseHeader (n1 ++ 58 :: rest) r).2.is_chunked =
        (Request.parseHeader (n2 ++ 58 :: rest) r).2.is_chunked) ∧
    (∀ (l : Str) (r : Request),
      (Request.parseHeader l r).2.is_chunked = true ↔
        (r.is_chunked = true ∨
          (lowerName l = some (str "transfer-encoding") ∧
            str "chunked" <:+: (headerValue l).map toLower))) ∧
    (∀ (ls : List Str) (r : Request),
      (Request.parseHeaders ls r).is_chunked = true ↔
        (r.is_chunked = true ∨ ∃ l ∈ ls, lowerName l = some (str "transfer-encoding") ∧
          str "chunked" <:+: (headerValue l).map toLower)) := by
  refine ⟨?_, ?_, fun ls r => parseHeaders_is_chunked ls r⟩
  · intro n1 n2 rest r h1 h2 hlow
    obtain ⟨a1, b1⟩ := lineName_of_not_mem n1 rest h1
    obtain ⟨a2, b2⟩ := lineName_of_not_mem n2 rest h2
    have hl : lowerName (n1 ++ 58 :: rest) = lowerName (n2 ++ 58 :: rest) := by
      unfold lowerName
      rw [a1, a2]
      simp [hlow]
    have hv : headerValue (n1 ++ 58 :: rest) = headerValue (n2 ++ 58 :: rest) := by
      unfold headerValue
      rw [b1, b2]
    refine ⟨(parseHeader_headers _ r n1 a1).1, (parseHeader_headers _ r n2 a2).1, ?_, ?_⟩
    · rw [parseHeader_content_length, parseHeader_content_length, hl, b1, b2]
    · rw [parseHeader_is_chunked, parseHeader_is_chunked, hl, hv]
  · intro l r
    rw [parseHeader_is_chunked]
    simp only [Bool.or_eq_true, Bool.and_eq_true, decide_eq_true_eq, containsSub_iff]

theorem special_headers_case_insensitive_witness :
    ((Request.parseHeader (str "Content-Length" ++ 58 :: str " 42") Request.fresh).1 = true ∧
      (Request.parseHeader (str "cOnTeNt-LENGTH" ++ 58 :: str " 42") Request.fresh).1 = true ∧
      (Request.parseHeader (str "Content-Length" ++ 58 :: str " 42")
          Request.fresh).2.content_length =
        (Request.parseHeader (str "cOnTeNt-LENGTH" ++ 58 :: str " 42")
          Request.fresh).2.content_length ∧
      (Request.parseHeader (str "Content-Length" ++ 58 :: str " 42")
          Request.fresh).2.is_chunked =
        (Request.parseHeader (str "cOnTeNt-LENGTH" ++ 58 :: str " 42")
          Request.fresh).2.is_chunked) ∧
    (Request.parseHeader (str "TRANSFER-encoding: gzip, Chunked") Request.fresh).2.is_chunked =
      true ∧
    (Request.parseHeader (str "Content-Length" ++ 58 :: str " 42")
      Request.fresh).2.content_length = 42 :=
  ⟨special_headers_case_insensitive.1 (str "Content-Length") (str "cOnTeNt-LENGTH") (str " 42")
      Request.fresh (by decide) (by decide) (by decide),
   (special_headers_case_insensitive.2.1 (str "TRANSFER-encoding: gzip, Chunked")
      Request.fresh).mpr (Or.inr ⟨by decide, ⟨str "gzip, ", [], by decide⟩⟩),
   by decide⟩

theorem parseChunkedBody_frame (fuel : Nat) :
    ∀ (r : Request) (b : Bool) (r2 : Request),
      Request.parseChunkedBody fuel r = some (b, r2) →
      r2 = { r with body := r2.body, read_buffer := r2.read_buffer,
                    state := if b = true then RequestState.COMPLETE else r.state } := by
  induction fuel with
  | zero => intro r b r2 h; simp [Request.parseChunkedBody] at h
  | succ f ih =>
    intro r b r2 h
    rw [Request.parseChunkedBody] at h
    split at h
    · simp only [Option.some.injEq, Prod.mk.injEq] at h
      obtain ⟨rfl, rfl⟩ := h
      rfl
    · simp only at h
      split at h
      · simp only [Option.some.injEq, Prod.mk.injEq] at h
        obtain ⟨rfl, rfl⟩ := h
        rfl
      · split at h
        · simp only [Option.some.injEq, Prod.mk.injEq] at h
          obtain ⟨rfl, rfl⟩ := h
          rfl
        · have e := ih _ b r2 h
          rw [e]

/-- A property of a Request that every step of the state loop keeps is kept by
the loop. -/
theorem parseLoop_preserves (P : Request → Prop)
    (hRL : ∀ (r : Request) (line buf : Str), r.state = RequestState.REQUEST_LINE → P r →
      P { (Request.parseRequestLine line { r with read_buffer := buf }).2 with
          state := if (Request.parseRequestLine line { r with read_buffer := buf }).1 = true
            then RequestState.HEADERS else RequestState.ERROR })
    (hBL : ∀ (r : Request) (buf : Str), r.state = RequestState.HEADERS → P r →
      P { r with read_buffer := buf, state := nextState r })
    (hHD : ∀ (r : Request) (line buf : Str), r.state = RequestState.HEADERS → P r →
      P { (Request.parseHeader line { r with read_buffer := buf }).2 with
          state := if (Request.parseHeader line { r with read_buffer := buf }).1 = true
            then RequestState.HEADERS else RequestState.ERROR })
    (hBD : ∀ r : Request, r.state = RequestState.BODY → P r → P (Request.parseBody r).2)
    (hCH : ∀ (r : Request) (f : Nat) (b : Bool) (r2 : Request),
      r.state = RequestState.CHUNKED_BODY → P r →
      Request.parseChunkedBody f r = some (b, r2) → P r2) :
    ∀ (fuel : Nat) (r : Request) (b : Bool) (r2 : Request),
      P r → Request.parseLoop fuel r = some (b, r2) → P r2 := by
  intro fuel
  induction fuel with
  | zero => intro r b r2 _ h; simp [Request.parseLoop] at h
  | succ f ih =>
    intro r b r2 hP h
    rw [Request.parseLoop] at h
    split at h
    · simp only [Option.some.injEq, Prod.mk.injEq] at h
      obtain ⟨_, rfl⟩ := h
      exact hP
    · simp only [Option.some.injEq, Prod.mk.injEq] at h
      obtain ⟨_, rfl⟩ := h
      exact hP
    · rename_i hs
      split at h
      · simp only [Option.some.injEq, Prod.mk.injEq] at h
        obtain ⟨_, rfl⟩ := h
        exact hP
      · rename_i pos hf
        simp only at h
        have hstep := hRL r (substr r.read_buffer 0 pos) (erase0 r.read_buffer (pos + 2)) hs hP
        split at h
        · rename_i r3 hp
          simp only [Option.some.injEq, Prod.mk.injEq] at h
          obtain ⟨_, rfl⟩ := h
          rw [hp] at hstep
          exact hstep
        · rename_i r3 hp
          rw [hp] at hstep
          have e := ih _ b r2 hstep h
          exact e
    · rename_i hs
      split at h
      · simp only [Option.some.injEq, Prod.mk.injEq] at h
        obtain ⟨_, rfl⟩ := h
        exact hP
      · rename_i pos hf
        split at h
        · have hstep := hBL r (erase0 r.read_buffer 2) hs hP
          unfold nextState at hstep
          simp only at h
          split at h
          · rename_i hc
            rw [if_pos hc] at hstep
            have e := ih _ b r2 hstep h
            exact e
          · rename_i hc
            rw [if_neg hc] at hstep
            split at h
            · rename_i hk
              rw [if_pos hk] at hstep
              have e := ih _ b r2 hstep h
              exact e
            · rename_i hk
              rw [if_neg hk] at hstep
              have e := ih _ b r2 hstep h
              exact e
        · simp only at h
          have hstep := hHD r (substr r.read_buffer 0 pos) (erase0 r.read_buffer (pos + 2)) hs hP
          have hst := parseHeader_state (substr r.read_buffer 0 pos)
            { r with read_buffer := erase0 r.read_buffer (pos + 2) }
          split at h
          · rename_i r3 hp
            simp only [Option.some.injEq, Prod.mk.injEq] at h
            obtain ⟨_, rfl⟩ := h
            rw [hp] at hstep
            exact hstep
          · rename_i r3 hp
            rw [hp] at hstep hst
            simp only [if_true] at hstep hst
            have e3 : ({ r3 with state := RequestState.HEADERS } : Request) = r3 := by
              rw [← hs, ← hst]
            rw [e3] at hstep
            have e := ih _ b r2 hstep h
            exact e
    · rename_i hs
      have hstep := hBD r hs hP
      split at h
      · rename_i r3 hp
        simp only [Option.some.injEq, Prod.mk.injEq] at h
        obtain ⟨_, rfl⟩ := h
        rw [hp] at hstep
        exact hstep
      · rename_i r3 hp
        rw [hp] at hstep
        have e := ih _ b r2 hstep h
        exact e
    · rename_i hs
      split at h
      · simp at h
      · rename_i r3 hp
        simp only [Option.some.injEq, Prod.mk.injEq] at h
        obtain ⟨_, rfl⟩ := h
        exact hCH r f false _ hs hP hp
      · rename_i r3 hp
        have e := ih _ b r2 (hCH r f true r3 hs hP hp) h
        exact e

theorem parse_preserves (P : Request → Prop) (hP : StepInvariant P) (raw : Str) (r : Request)
    (b : Bool) (r2 : Request) (h0 : P r) (h : Request.parse raw r = some (b, r2)) : P r2 := by
  obtain ⟨hbuf, hRL, hBL, hHD, hBD, hCH⟩ := hP
  exact parseLoop_preserves P hRL hBL hHD hBD hCH _ _ b r2 (hbuf r _ h0) h

theorem parseAll_preserves (P : Request → Prop) (hP : StepInvariant P) (frags : List Str) :
    ∀ r r2 : Request, P r → Request.parseAll frags r = some r2 → P r2 := by
  induction frags with
  | nil =>
    intro r r2 h0 h
    simp only [Request.parseAll, Option.some.injEq] at h
    exact h ▸ h0
  | cons d ds ih =>
    intro r r2 h0 h
    rw [Request.parseAll] at h
    split at h
    · simp at h
    · rename_i b r1 hp
      exact ih r1 r2 (parse_preserves P hP d r b r1 h0 hp) h

theorem run_preserves (P : Request → Prop) (hP : StepInvariant P) (hfresh : P Request.fresh)
    (ops : List RequestOp) :
    ∀ r r2 : Request, P r → Request.run ops r = some r2 → P r2 := by
  induction ops with
  | nil =>
    intro r r2 h0 h
    simp only [Request.run, Option.some.injEq] at h
    exact h ▸ h0
  | cons op ops ih =>
    intro r r2 h0 h
    rw [Request.run] at h
    split at h
    · simp at h
    · rename_i r1 hop
      refine ih r1 r2 ?_ h
      cases op with
      | parse raw =>
        simp only [Request.applyOp, Option.map_eq_some', Prod.exists, exists_eq_right] at hop
        obtain ⟨b, hb⟩ := hop
        exact parse_preserves P hP raw r b r1 h0 hb
      | reset =>
        simp only [Request.applyOp, Option.some.injEq] at hop
        rw [← hop]
        exact hfresh

theorem toSizeT_lt (x : Int) : toSizeT x < SIZE_MOD := by
  unfold toSizeT SIZE_MOD
  have h1 : (0 : Int) ≤ x % (2 ^ 64 : Int) := Int.emod_nonneg _ (by norm_num)
  have h2 : x % (2 ^ 64 : Int) < 2 ^ 64 := Int.emod_lt_of_pos _ (by norm_num)
  omega

theorem parseHeader_content_length_lt (l : Str) (r : Request) (h : r.content_length < SIZE_MOD) :
    (Request.parseHeader l r).2.content_length < SIZE_MOD := by
  rw [parseHeader_content_length]
  split
  · exact toSizeT_lt _
  · exact h

theorem BodyInv_step : StepInvariant BodyInv := by
  refine ⟨?_, ?_, ?_, ?_, ?_, ?_⟩
  · intro r buf h
    exact h
  · intro r line buf hs ⟨h1, h2, h3, _, _, _⟩
    obtain ⟨⟨_, _, f3, f4⟩, f5, f6, _⟩ :=
      parseRequestLine_frame line { r with read_buffer := buf }
    obtain ⟨g1, g2⟩ := h3 (Or.inl hs)
    simp only at f3 f4 f5 f6
    refine ⟨?_, ?_, ?_, ?_, ?_, ?_⟩
    · show (Request.parseRequestLine line _).2.body_bytes_received ≤
        (Request.parseRequestLine line _).2.content_length
      rw [f4, f5]; exact h1
    · show (Request.parseRequestLine line _).2.content_length < SIZE_MOD
      rw [f5]; exact h2
    · intro _
      show (Request.parseRequestLine line _).2.body_bytes_received = 0 ∧
        (Request.parseRequestLine line _).2.body = []
      rw [f3, f4]; exact ⟨g1, g2⟩
    · intro h; simp only at h; split at h <;> simp at h
    · intro h; simp only at h; split at h <;> simp at h
    · intro h; simp only at h; split at h <;> simp at h
  · intro r buf hs ⟨h1, h2, h3, _, _, _⟩
    obtain ⟨g1, g2⟩ := h3 (Or.inr (Or.inl hs))
    refine ⟨h1, h2, ?_, ?_, ?_, ?_⟩
    · intro h
      exact ⟨g1, g2⟩
    · intro h
      simp only [nextState] at h
      refine ⟨by show r.body_bytes_received = r.body.length; rw [g1, g2]; rfl, ?_⟩
      show r.body_bytes_received < r.content_length
      split at h
      · omega
      · split at h <;> simp at h
    · intro h
      simp only [nextState] at h
      show r.content_length = 0 ∧ r.is_chunked = true
      split at h
      · simp at h
      · split at h
        · rename_i hc hk; exact ⟨by omega, hk⟩
        · simp at h
    · intro h
      simp only [nextState] at h
      show (0 < r.content_length → r.body_bytes_received = r.content_length ∧
          r.body_bytes_received = r.body.length) ∧
        (r.content_length = 0 → r.is_chunked = false → r.body = [])
      split at h
      · simp at h
      · rename_i hc
        exact ⟨fun h0 => absurd h0 hc, fun _ _ => g2⟩
  · intro r line buf hs ⟨h1, h2, h3, _, _, _⟩
    obtain ⟨_, _, f3, f4⟩ := parseHeader_frame line { r with read_buffer := buf }
    have f5 := parseHeader_content_length_lt line { r with read_buffer := buf } h2
    obtain ⟨g1, g2⟩ := h3 (Or.inr (Or.inl hs))
    simp only at f3 f4
    refine ⟨?_, f5, ?_, ?_, ?_, ?_⟩
    · show (Request.parseHeader line _).2.body_bytes_received ≤ _
      rw [f4, g1]; exact Nat.zero_le _
    · intro _
      show (Request.parseHeader line _).2.body_bytes_received = 0 ∧
        (Request.parseHeader line _).2.body = []
      rw [f3, f4]; exact ⟨g1, g2⟩
    · intro h; simp only at h; split at h <;> simp at h
    · intro h; simp only at h; split at h <;> simp at h
    · intro h; simp only at h; split at h <;> simp at h
  · intro r hs ⟨h1, h2, _, h4, _, _⟩
    obtain ⟨g1, g2⟩ := h4 hs
    have hS : SIZE_MOD = 18446744073709551616 := by norm_num [SIZE_MOD]
    have hrem : (r.content_length + SIZE_MOD - r.body_bytes_received % SIZE_MOD) % SIZE_MOD =
        r.content_length - r.body_bytes_received := by
      rw [hS] at h2 ⊢
      omega
    unfold Request.parseBody
    simp only [hrem]
    have ht1 : min (r.content_length - r.body_bytes_received) r.read_buffer.length ≤
        r.content_length - r.body_bytes_received := Nat.min_le_left _ _
    have ht2 : min (r.content_length - r.body_bytes_received) r.read_buffer.length ≤
        r.read_buffer.length := Nat.min_le_right _ _
    generalize min (r.content_length - r.body_bytes_received) r.read_buffer.length = t
      at ht1 ht2 ⊢
    have hrecv : (r.body_bytes_received + t) % SIZE_MOD = r.body_bytes_received + t := by
      rw [hS] at h2 ⊢
      omega
    have hlen : (r.body ++ substr r.read_buffer 0 t).length = r.body.length + t := by
      simp only [substr, List.drop_zero, List.length_append, List.length_take]
      omega
    simp only [hrecv]
    split
    · rename_i hge
      refine ⟨by show r.body_bytes_received + t ≤ r.content_length; omega, h2, ?_, ?_, ?_, ?_⟩
      · intro h; simp at h
      · intro h; simp at h
      · intro h; simp at h
      · intro _
        refine ⟨fun _ => ⟨?_, ?_⟩, fun h0 => ?_⟩
        · show r.body_bytes_received + t = r.content_length
          omega
        · show r.body_bytes_received + t = (r.body ++ substr r.read_buffer 0 t).length
          rw [hlen]; omega
        · have : r.content_length = 0 := h0
          omega
    · rename_i hlt
      refine ⟨by show r.body_bytes_received + t ≤ r.content_length; omega, h2, ?_, ?_, ?_, ?_⟩
      · intro h
        have h' : r.state = RequestState.REQUEST_LINE ∨ r.state = RequestState.HEADERS ∨
            r.state = RequestState.ERROR := h
        rw [hs] at h'
        simp at h'
      · intro _
        refine ⟨?_, ?_⟩
        · show r.body_bytes_received + t = (r.body ++ substr r.read_buffer 0 t).length
          rw [hlen]; omega
        · show r.body_bytes_received + t < r.content_length
          omega
      · intro h
        have h' : r.state = RequestState.CHUNKED_BODY := h
        rw [hs] at h'
        simp at h'
      · intro h
        have h' : r.state = RequestState.COMPLETE := h
        rw [hs] at h'
        simp at h'
  · intro r f b r2 hs ⟨h1, h2, _, _, h5, _⟩ hp
    have hfr := parseChunkedBody_frame f r b r2 hp
    obtain ⟨g1, g2⟩ := h5 hs
    rw [hfr]
    refine ⟨h1, h2, ?_, ?_, ?_, ?_⟩
    · intro h
      simp only [hs] at h
      split at h <;> simp at h
    · intro h
      simp only [hs] at h
      split at h <;> simp at h
    · intro _
      exact ⟨g1, g2⟩
    · intro _
      refine ⟨fun h0 => ?_, fun _ h0 => ?_⟩
      · have : 0 < r.content_length := h0
        omega
      · have : r.is_chunked = false := h0
        rw [g2] at this
        simp at this

theorem BodyInv_fresh : BodyInv Request.fresh := by
  unfold BodyInv
  decide

/-- Claim C25. In every Request state reached from a fresh Request by calls of
`parse` and `reset`: `body_bytes_received` is at most `content_length`, so the
`size_t` difference that `parseBody` computes is the true difference;
`body_bytes_received` is the length of the body whenever `is_chunked` is
false; and when `content_length` is positive, the state is COMPLETE exactly
when `body_bytes_received` equals `content_length`. -/
theorem body_counters_invariant (ops : List RequestOp) (r : Request)
    (h : Request.run ops Request.fresh = some r) :
    r.body_bytes_received ≤ r.content_length ∧
    (r.content_length + SIZE_MOD - r.body_bytes_received % SIZE_MOD) % SIZE_MOD =
      r.content_length - r.body_bytes_received ∧
    (r.is_chunked = false → r.body_bytes_received = r.body.length) ∧
    (0 < r.content_length →
      (r.state = RequestState.COMPLETE ↔ r.body_bytes_received = r.content_length)) := by
  obtain ⟨h1, h2, h3, h4, h5, h6⟩ :=
    run_preserves BodyInv BodyInv_step BodyInv_fresh ops Request.fresh r BodyInv_fresh h
  have hS : SIZE_MOD = 18446744073709551616 := by norm_num [SIZE_MOD]
  refine ⟨h1, by rw [hS] at h2 ⊢; omega, ?_, ?_⟩
  · intro hc
    cases hs : r.state with
    | REQUEST_LINE => obtain ⟨a, b⟩ := h3 (Or.inl hs); rw [a, b]; rfl
    | HEADERS => obtain ⟨a, b⟩ := h3 (Or.inr (Or.inl hs)); rw [a, b]; rfl
    | ERROR => obtain ⟨a, b⟩ := h3 (Or.inr (Or.inr hs)); rw [a, b]; rfl
    | BODY => exact (h4 hs).1
    | CHUNKED_BODY =>
      have := (h5 hs).2
      rw [hc] at this
      simp at this
    | COMPLETE =>
      obtain ⟨a, b⟩ := h6 hs
      by_cases h0 : 0 < r.content_length
      · exact (a h0).2
      · have hz : r.content_length = 0 := by omega
        rw [b hz hc]
        simp only [List.length_nil]
        omega
  · intro h0
    constructor
    · intro hs
      exact ((h6 hs).1 h0).1
    · intro he
      cases hs : r.state with
      | REQUEST_LINE => have := (h3 (Or.inl hs)).1; omega
      | HEADERS => have := (h3 (Or.inr (Or.inl hs))).1; omega
      | ERROR => have := (h3 (Or.inr (Or.inr hs))).1; omega
      | BODY => have := (h4 hs).2; omega
      | CHUNKED_BODY => have := (h5 hs).1; omega
      | COMPLETE => rfl

theorem body_counters_invariant_witness :
    Request.run
        [RequestOp.parse (str "GET /old HTTP/1.1\r\nbad header\r\n"), RequestOp.reset,
         RequestOp.parse (str "POST /u HTTP/1.1\r\nContent-Length: 5\r\n\r\nH"),
         RequestOp.parse (str "el")]
        Request.fresh =
      some { Request.fresh with
        method := str "POST", uri := str "/u",
        headers := [(str "Content-Length", str "5")],
        body := str "Hel", content_length := 5, body_bytes_received := 3,
        state := RequestState.BODY } ∧
    ((3 : Nat) ≤ 5 ∧
      (5 + SIZE_MOD - 3 % SIZE_MOD) % SIZE_MOD = 5 - 3 ∧
      ((false : Bool) = false → 3 = (str "Hel").length) ∧
      (0 < 5 → (RequestState.BODY = RequestState.COMPLETE ↔ 3 = 5))) :=
  ⟨by decide,
   body_counters_invariant
    [RequestOp.parse (str "GET /old HTTP/1.1\r\nbad header\r\n"), RequestOp.reset,
     RequestOp.parse (str "POST /u HTTP/1.1\r\nContent-Length: 5\r\n\r\nH"),
     RequestOp.parse (str "el")]
    { Request.fresh with
      method := str "POST", uri := str "/u",
      headers := [(str "Content-Length", str "5")],
      body := str "Hel", content_length := 5, body_bytes_received := 3,
      state := RequestState.BODY }
    (by decide)⟩

theorem parseRequestLine_cases (line : Str) (r : Request) :
    ((Request.parseRequestLine line r).1 = true ∧
      (Request.parseRequestLine line r).2.error_code = r.error_code) ∨
    ((Request.parseRequestLine line r).1 = false ∧
      ((Request.parseRequestLine line r).2.error_code = 400 ∨
        (Request.parseRequestLine line r).2.error_code = 405 ∨
        (Request.parseRequestLine line r).2.error_code = 414)) := by
  unfold Request.parseRequestLine
  split
  · exact Or.inr ⟨rfl, Or.inr (Or.inr rfl)⟩
  · split
    · exact Or.inr ⟨rfl, Or.inl rfl⟩
    · split
      · exact Or.inr ⟨rfl, Or.inr (Or.inl rfl)⟩
      · split
        · exact Or.inr ⟨rfl, Or.inl rfl⟩
        · split <;> exact Or.inl ⟨rfl, rfl⟩

theorem parseHeader_cases (line : Str) (r : Request) :
    ((Request.parseHeader line r).1 = true ∧
      (Request.parseHeader line r).2.error_code = r.error_code) ∨
    ((Request.parseHeader line r).1 = false ∧
      (Request.parseHeader line r).2.error_code = 400) := by
  unfold Request.parseHeader
  split
  · exact Or.inr ⟨rfl, rfl⟩
  · simp only
    left
    repeat' split
    all_goals exact ⟨rfl, rfl⟩

theorem ErrorInv_step : StepInvariant ErrorInv := by
  refine ⟨?_, ?_, ?_, ?_, ?_, ?_⟩
  · intro r buf h
    exact h
  · intro r line buf hs ⟨h1, _⟩
    have h0 : r.error_code = 0 := by
      by_contra hne
      have := h1.mpr hne
      rw [hs] at this
      simp at this
    rcases parseRequestLine_cases line { r with read_buffer := buf } with ⟨a, b⟩ | ⟨a, b⟩
    · simp only at b
      refine ⟨?_, ?_⟩
      · show (if _ then RequestState.HEADERS else RequestState.ERROR) = RequestState.ERROR ↔
          (Request.parseRequestLine line _).2.error_code ≠ 0
        rw [if_pos a, b, h0]
        simp
      · show (Request.parseRequestLine line _).2.error_code = 0 ∨ _
        rw [b, h0]
        simp
    · refine ⟨?_, ?_⟩
      · show (if _ then RequestState.HEADERS else RequestState.ERROR) = RequestState.ERROR ↔
          (Request.parseRequestLine line _).2.error_code ≠ 0
        rw [if_neg (by rw [a]; simp)]
        rcases b with b | b | b <;> rw [b] <;> simp
      · show (Request.parseRequestLine line _).2.error_code = 0 ∨ _
        exact Or.inr b
  · intro r buf hs ⟨h1, h2⟩
    have h0 : r.error_code = 0 := by
      by_contra hne
      have := h1.mpr hne
      rw [hs] at this
      simp at this
    refine ⟨?_, h2⟩
    show nextState r = RequestState.ERROR ↔ r.error_code ≠ 0
    rw [h0]
    unfold nextState
    repeat' split
    all_goals simp
  · intro r line buf hs ⟨h1, _⟩
    have h0 : r.error_code = 0 := by
      by_contra hne
      have := h1.mpr hne
      rw [hs] at this
      simp at this
    rcases parseHeader_cases line { r with read_buffer := buf } with ⟨a, b⟩ | ⟨a, b⟩
    · simp only at b
      refine ⟨?_, ?_⟩
      · show (if _ then RequestState.HEADERS else RequestState.ERROR) = RequestState.ERROR ↔
          (Request.parseHeader line _).2.error_code ≠ 0
        rw [if_pos a, b, h0]
        simp
      · show (Request.parseHeader line _).2.error_code = 0 ∨ _
        rw [b, h0]
        simp
    · refine ⟨?_, ?_⟩
      · show (if _ then RequestState.HEADERS else RequestState.ERROR) = RequestState.ERROR ↔
          (Request.parseHeader line _).2.error_code ≠ 0
        rw [if_neg (by rw [a]; simp), b]
        simp
      · show (Request.parseHeader line _).2.error_code = 0 ∨ _
        rw [b]
        simp
  · intro r hs ⟨h1, h2⟩
    have h0 : r.error_code = 0 := by
      by_contra hne
      have := h1.mpr hne
      rw [hs] at this
      simp at this
    have hec := parseBody_error_code r
    have hst := parseBody_state r
    refine ⟨?_, by rw [hec]; exact h2⟩
    rw [hec, hst, h0, hs]
    split <;> simp
  · intro r f b r2 hs ⟨h1, h2⟩ hp
    have h0 : r.error_code = 0 := by
      by_contra hne
      have := h1.mpr hne
      rw [hs] at this
      simp at this
    have hec := parseChunkedBody_error_code f r b r2 hp
    have hst := parseChunkedBody_state f r b r2 hp
    refine ⟨?_, by rw [hec]; exact h2⟩
    rw [hec, hst, h0, hs]
    split <;> simp

theorem ErrorInv_fresh : ErrorInv Request.fresh := by
  unfold ErrorInv
  decide

/-- Claim C26. In every Request state reached from a fresh Request by calls of
`parse` and `reset`, the state is ERROR if and only if `error_code` is not 0,
and `error_code` is one of 0, 400, 405 and 414. -/
theorem error_code_invariant (ops : List RequestOp) (r : Request)
    (h : Request.run ops Request.fresh = some r) :
    (r.state = RequestState.ERROR ↔ r.error_code ≠ 0) ∧
    (r.error_code = 0 ∨ r.error_code = 400 ∨ r.error_code = 405 ∨ r.error_code = 414) :=
  run_preserves ErrorInv ErrorInv_step ErrorInv_fresh ops Request.fresh r ErrorInv_fresh h

theorem error_code_invariant_witness :
    Request.run
        [RequestOp.parse (str "GET / HTTP/1.1\r\nno colon\r\n"), RequestOp.reset,
         RequestOp.parse (str "PUT /f HTTP/1.1\r"), RequestOp.parse (str "\nHost: x\r\n")]
        Request.fresh =
      some { Request.fresh with
        state := RequestState.ERROR, error_code := 405, read_buffer := str "Host: x\r\n" } ∧
    ((RequestState.ERROR = RequestState.ERROR ↔ (405 : Int) ≠ 0) ∧
      ((405 : Int) = 0 ∨ (405 : Int) = 400 ∨ (405 : Int) = 405 ∨ (405 : Int) = 414)) :=
  ⟨by decide,
   error_code_invariant
    [RequestOp.parse (str "GET / HTTP/1.1\r\nno colon\r\n"), RequestOp.reset,
     RequestOp.parse (str "PUT /f HTTP/1.1\r"), RequestOp.parse (str "\nHost: x\r\n")]
    { Request.fresh with
      state := RequestState.ERROR, error_code := 405, read_buffer := str "Host: x\r\n" }
    (by decide)⟩

theorem lastValue_cons (n l : Str) (ls : List Str) (g : Str) :
    (lastValue n (l :: ls)).getD g =
      (lastValue n ls).getD (if lineName l = some n then headerValue l else g) := by
  unfold lastValue
  rw [List.filter_cons]
  by_cases h : lineName l = some n
  · simp only [h, decide_True, if_true, List.getLast?_cons, Option.map_some', Option.getD_some]
    cases (List.filter (fun l => decide (lineName l = some n)) ls).getLast? <;> rfl
  · simp only [h, decide_False, if_false, Bool.false_eq_true]

theorem lastValue_eq_none (n : Str) (ls : List Str) :
    lastValue n ls = none ↔ ∀ l ∈ ls, lineName l ≠ some n := by
  unfold lastValue
  rw [Option.map_eq_none', List.getLast?_eq_none_iff, List.filter_eq_nil_iff]
  simp

theorem lineName_of_mem (l : Str) (h : 58 ∈ l) : ∃ n, lineName l = some n := by
  have := findChar_isSome_of_mem 58 l h
  unfold lineName
  cases hf : findChar 58 l with
  | none => rw [hf] at this; simp at this
  | some p => exact ⟨_, rfl⟩

theorem parseHeaders_getHeader (n : Str) (ls : List Str) :
    ∀ r : Request, (∀ l ∈ ls, 58 ∈ l) →
      (Request.parseHeaders ls r).getHeader n = (lastValue n ls).getD (r.getHeader n) := by
  induction ls with
  | nil => intro r _; rfl
  | cons l ls2 ih =>
    intro r hls
    obtain ⟨m, hm⟩ := lineName_of_mem l (hls l (by simp))
    rw [Request.parseHeaders, ih _ (fun x hx => hls x (by simp [hx])), lastValue_cons,
      parseHeader_getHeader l r m n hm]
    by_cases hnm : n = m
    · subst hnm
      rw [if_pos rfl, if_pos hm]
    · rw [if_neg hnm, if_neg (by rw [hm]; exact fun e => hnm (Option.some.inj e).symm)]

theorem parseRequestLine_ok (line : Str) (r : Request) (hlen : line.length ≤ MAX_URI_LENGTH)
    (hreq : RequestLineOK line) : (Request.parseRequestLine line r).1 = true := by
  unfold RequestLineOK at hreq
  split at hreq
  · rename_i m t v more htok
    obtain ⟨hm, hv⟩ := hreq
    have hm2 : ¬ (m ≠ str "GET" ∧ m ≠ str "POST" ∧ m ≠ str "DELETE") := by
      rcases hm with h | h | h <;> simp [h]
    have hv2 : ¬ (v ≠ str "HTTP/1.0" ∧ v ≠ str "HTTP/1.1") := by
      rcases hv with h | h <;> simp [h]
    unfold Request.parseRequestLine
    rw [if_neg (by omega), extract3_of_tokens line m t v more htok]
    simp only [if_neg hm2, if_neg hv2]
    split <;> rfl
  · exact absurd hreq id

theorem parseBody_headers (r : Request) : (Request.parseBody r).2.headers = r.headers := by
  unfold Request.parseBody
  simp only
  split <;> rfl

theorem headers_after_head (H : StrMap) :
    StepInvariant (fun r => r.headers = H ∧ r.state ≠ RequestState.REQUEST_LINE ∧
      r.state ≠ RequestState.HEADERS) := by
  refine ⟨?_, ?_, ?_, ?_, ?_, ?_⟩
  · intro r buf h; exact h
  · intro r line buf hs h; exact absurd hs h.2.1
  · intro r buf hs h; exact absurd hs h.2.2
  · intro r line buf hs h; exact absurd hs h.2.2
  · intro r hs ⟨h1, _, _⟩
    have hst := parseBody_state r
    refine ⟨by rw [parseBody_headers]; exact h1, ?_, ?_⟩
    · rw [hst, hs]; split <;> simp
    · rw [hst, hs]; split <;> simp
  · intro r f b r2 hs ⟨h1, _, _⟩ hp
    have hfr := parseChunkedBody_frame f r b r2 hp
    rw [hfr]
    refine ⟨h1, ?_, ?_⟩
    · simp only [hs]; split <;> simp
    · simp only [hs]; split <;> simp

theorem parse_head (line : Str) (ls : List Str) (rest : Str)
    (hline : findCRLF line = none) (hlen : line.length ≤ MAX_URI_LENGTH)
    (hreq : RequestLineOK line) (hls : ∀ l ∈ ls, HeaderLine l) :
    ∃ rh : Request, rh.state = RequestState.HEADERS ∧ rh.read_buffer = rest ∧
      (∀ n, rh.getHeader n = (lastValue n ls).getD []) ∧
      ∀ f, Request.parseLoop (f + ls.length + 1)
          { Request.fresh with read_buffer := line ++ CRLF ++ joinLines ls ++ rest } =
        Request.parseLoop f rh := by
  set r0 : Request :=
    { Request.fresh with read_buffer := line ++ CRLF ++ joinLines ls ++ rest } with hr0
  have hbuf0 : r0.read_buffer = line ++ CRLF ++ (joinLines ls ++ rest) := by
    simp [hr0, List.append_assoc]
  set p1 := Request.parseRequestLine line { r0 with read_buffer := joinLines ls ++ rest }
    with hp1
  have hok1 : p1.1 = true := parseRequestLine_ok line _ hlen hreq
  obtain ⟨⟨_, f2, _, _⟩, _, _, f7⟩ :=
    parseRequestLine_frame line { r0 with read_buffer := joinLines ls ++ rest }
  set r1 : Request := { p1.2 with state := RequestState.HEADERS } with hr1
  have hstep1 : ∀ f, Request.parseLoop (f + 1) r0 = Request.parseLoop f r1 := fun f =>
    parseLoop_request_line f r0 line _ rfl hbuf0 hline hok1
  have hbuf1 : r1.read_buffer = joinLines ls ++ rest := f2
  have hstep2 : ∀ f, Request.parseLoop (f + ls.length) r1 =
      Request.parseLoop f { Request.parseHeaders ls r1 with read_buffer := rest } := fun f =>
    parseLoop_header_lines ls f r1 rest rfl hls hbuf1
  obtain ⟨g1, _, _, _⟩ := parseHeaders_frame ls r1
  refine ⟨{ Request.parseHeaders ls r1 with read_buffer := rest }, g1, rfl, ?_, ?_⟩
  · intro n
    show (Request.parseHeaders ls r1).getHeader n = _
    rw [parseHeaders_getHeader n ls r1 (fun l hl => (hls l hl).1)]
    have : r1.getHeader n = [] := by
      unfold Request.getHeader
      show (match mapFind n p1.2.headers with | some v => v | none => []) = []
      rw [f7]
      rfl
    rw [this]
  · intro f
    rw [hstep1, hstep2]

theorem nextState_ne (r : Request) :
    nextState r ≠ RequestState.REQUEST_LINE ∧ nextState r ≠ RequestState.HEADERS := by
  unfold nextState
  constructor
  · repeat' split
    all_goals simp
  · repeat' split
    all_goals simp

/-- Claim C27. Header names are stored as received and the last line of a name
wins. After an accepted request line and header lines (each with a ':' and
without CR LF), `parse` pauses in state HEADERS, and then, as after the blank
line and whatever follows it, `getHeader(n)` is the value stored for the last
header line whose name is exactly `n`, and the empty string when no line has
exactly that name (a name in another letter case is another name). The value
stored for a line is the text after its first ':' without its leading spaces
and tabs, except that a text of spaces and tabs only is stored unchanged. -/
theorem getHeader_last_wins (line : Str) (ls : List Str) (n : Str)
    (hline : findCRLF line = none) (hlen : line.length ≤ MAX_URI_LENGTH)
    (hreq : RequestLineOK line) (hls : ∀ l ∈ ls, HeaderLine l) :
    (∃ r2 : Request,
      Request.parse (line ++ CRLF ++ joinLines ls) Request.fresh = some (false, r2) ∧
      r2.state = RequestState.HEADERS ∧ r2.getHeader n = (lastValue n ls).getD []) ∧
    (∀ (rest : Str) (b : Bool) (r3 : Request),
      Request.parse (line ++ CRLF ++ joinLines ls ++ CRLF ++ rest) Request.fresh = some (b, r3) →
      r3.getHeader n = (lastValue n ls).getD []) ∧
    (lastValue n ls = none ↔ ∀ l ∈ ls, lineName l ≠ some n) ∧
    (∀ l : Str, headerValue l =
      if trimLeft (afterColon l) = [] then afterColon l else trimLeft (afterColon l)) := by
  refine ⟨?_, ?_, lastValue_eq_none n ls, headerValue_eq⟩
  · obtain ⟨rh, hs, hb, hget, hloop⟩ := parse_head line ls [] hline hlen hreq hls
    refine ⟨rh, ?_, hs, hget n⟩
    apply parse_of_parseLoop (1 + ls.length + 1)
    · have e : ({ Request.fresh with
          read_buffer := Request.fresh.read_buffer ++ (line ++ CRLF ++ joinLines ls) } : Request) =
          { Request.fresh with read_buffer := line ++ CRLF ++ joinLines ls ++ [] } := by
        simp [Request.fresh]
      rw [e, hloop 1, Request.parseLoop]
      simp only [hs, hb, findCRLF]
    · have := length_le_joinLines ls
      simp only [List.length_append]
      omega
  · intro rest b r3 hp
    obtain ⟨rh, hs, hb, hget, hloop⟩ := parse_head line ls (CRLF ++ rest) hline hlen hreq hls
    unfold Request.parse Request.parseFuel at hp
    have e : ({ Request.fresh with
        read_buffer := Request.fresh.read_buffer ++
          (line ++ CRLF ++ joinLines ls ++ CRLF ++ rest) } : Request) =
        { Request.fresh with read_buffer := line ++ CRLF ++ joinLines ls ++ (CRLF ++ rest) } := by
      simp [Request.fresh, List.append_assoc]
    have hl := length_le_joinLines ls
    have hfuel : Request.fresh.read_buffer.length +
        (line ++ CRLF ++ joinLines ls ++ CRLF ++ rest).length + 4 =
        ((Request.fresh.read_buffer.length +
          (line ++ CRLF ++ joinLines ls ++ CRLF ++ rest).length + 2 - ls.length) + 1) +
          ls.length + 1 := by
      simp only [List.length_append]
      omega
    rw [e, hfuel, hloop, parseLoop_blank_line _ rh rest hs hb] at hp
    obtain ⟨_, hRL, hBL, hHD, hBD, hCH⟩ := headers_after_head rh.headers
    have hfin := parseLoop_preserves _ hRL hBL hHD hBD hCH _
      { rh with read_buffer := rest, state := nextState rh } b r3
      ⟨rfl, (nextState_ne rh).1, (nextState_ne rh).2⟩ hp
    have hh : r3.headers = rh.headers := hfin.1
    rw [← hget n]
    unfold Request.getHeader
    rw [hh]

theorem getHeader_last_wins_witness :
    (∃ r2 : Request,
      Request.parse
          (str "GET / HTTP/1.1" ++ CRLF ++
            joinLines [str "Host: a", str "host: b", str "Host:   c"])
          Request.fresh = some (false, r2) ∧
      r2.state = RequestState.HEADERS ∧
      r2.getHeader (str "Host") =
        (lastValue (str "Host") [str "Host: a", str "host: b", str "Host:   c"]).getD []) ∧
    (lastValue (str "Host") [str "Host: a", str "host: b", str "Host:   c"]).getD [] = str "c" ∧
    (Request.parse (str "GET / HTTP/1.1\r\nHost: a\r\nhost: b\r\nHost:   c\r\n\r\n")
        Request.fresh).map
        (fun x => (x.2.getHeader (str "Host"), x.2.getHeader (str "host"),
          x.2.getHeader (str "HOST"))) =
      some (str "c", str "b", []) :=
  ⟨(getHeader_last_wins (str "GET / HTTP/1.1") [str "Host: a", str "host: b", str "Host:   c"]
      (str "Host") (by decide) (by decide) (by decide) (by decide)).1,
   by decide, by decide⟩

/-- Claim C27, failing input. The last header line named "X-Pad" has, after
its ':', a text of two spaces only: the trimmed value is empty, but
`getHeader("X-Pad")` returns the two spaces. -/
theorem getHeader_untrimmed_value :
    trimLeft (afterColon (str "X-Pad:  ")) = [] ∧
    (Request.parse (str "GET / HTTP/1.1\r\nX-Pad: one\r\nX-Pad:  \r\n\r\n") Request.fresh).map
        (fun x => (x.1, x.2.state, x.2.getHeader (str "X-Pad"))) =
      some (true, RequestState.COMPLETE, str "  ") := by
  decide

theorem parse_split (d d2 : Str) (r : Request) :
    Request.parse d2 { r with read_buffer := r.read_buffer ++ d } = Request.parse (d ++ d2) r := by
  unfold Request.parse Request.parseFuel
  simp only [List.length_append, List.append_assoc, Nat.add_assoc]

theorem parse_headers_pending (d : Str) (r : Request)
    (hs : r.state = RequestState.HEADERS) (hf : findCRLF (r.read_buffer ++ d) = none) :
    Request.parse d r = some (false, { r with read_buffer := r.read_buffer ++ d }) := by
  unfold Request.parse Request.parseFuel
  rw [show r.read_buffer.length + d.length + 4 = (r.read_buffer.length + d.length + 3) + 1 from rfl,
    Request.parseLoop]
  simp only [hs, hf]

/-- Claim C37. For a Request in state REQUEST_LINE or HEADERS and an input
such that the buffer followed by the input holds no CR LF, `parse` returns
false, leaves the state and every field other than the carry-over buffer
unchanged, and leaves the buffer followed by the input in the carry-over
buffer; a later call with more bytes then gives what one call with the two
inputs together gives. -/
theorem pause_on_incomplete_line (d : Str) (r : Request)
    (hs : r.state = RequestState.REQUEST_LINE ∨ r.state = RequestState.HEADERS)
    (hf : findCRLF (r.read_buffer ++ d) = none) :
    Request.parse d r = some (false, { r with read_buffer := r.read_buffer ++ d }) ∧
    ∀ d2 : Str,
      Request.parse d2 { r with read_buffer := r.read_buffer ++ d } = Request.parse (d ++ d2) r := by
  refine ⟨?_, fun d2 => parse_split d d2 r⟩
  rcases hs with hs | hs
  · exact parse_request_line_pending d r hs hf
  · exact parse_headers_pending d r hs hf

theorem pause_on_incomplete_line_witness :
    Request.parse (str "ET /index.html HT") { Request.fresh with read_buffer := str "G" } =
      some (false, { Request.fresh with read_buffer := str "GET /index.html HT" }) ∧
    Request.parse (str "st: exam")
        { Request.fresh with
          method := str "GET", uri := str "/", state := RequestState.HEADERS,
          read_buffer := str "Ho" } =
      some (false, { Request.fresh with
        method := str "GET", uri := str "/", state := RequestState.HEADERS,
        read_buffer := str "Host: exam" }) ∧
    Request.parse (str "TP/1.1\r\n")
        { Request.fresh with read_buffer := str "GET /index.html HT" } =
      Request.parse (str "ET /index.html HT" ++ str "TP/1.1\r\n")
        { Request.fresh with read_buffer := str "G" } :=
  ⟨(pause_on_incomplete_line (str "ET /index.html HT")
      { Request.fresh with read_buffer := str "G" } (Or.inl rfl) (by decide)).1,
   (pause_on_incomplete_line (str "st: exam")
      { Request.fresh with
        method := str "GET", uri := str "/", state := RequestState.HEADERS,
        read_buffer := str "Ho" } (Or.inr rfl) (by decide)).1,
   (pause_on_incomplete_line (str "ET /index.html HT")
      { Request.fresh with read_buffer := str "G" } (Or.inl rfl) (by decide)).2
      (str "TP/1.1\r\n")⟩

theorem parseChunkedBody_fuel_eq (f g : Nat) (r : Request)
    (hf : r.read_buffer.length + 1 ≤ f) (hg : r.read_buffer.length + 1 ≤ g) :
    Request.parseChunkedBody f r = Request.parseChunkedBody g r := by
  cases h1 : Request.parseChunkedBody f r with
  | none => exact (parseChunkedBody_adequate f r hf h1 g).symm
  | some x =>
    cases h2 : Request.parseChunkedBody g r with
    | none =>
      have := parseChunkedBody_adequate g r hg h2 f
      rw [h1] at this
      simp at this
    | some y =>
      have e1 := parseChunkedBody_mono f r x h1 (max f g) (Nat.le_max_left _ _)
      have e2 := parseChunkedBody_mono g r y h2 (max f g) (Nat.le_max_right _ _)
      rw [e1] at e2
      exact e2

theorem parseLoop_chunked_eq (f g : Nat) (r : Request)
    (hs : r.state = RequestState.CHUNKED_BODY)
    (hf : r.read_buffer.length + 1 ≤ f) (hg : r.read_buffer.length + 1 ≤ g) :
    Request.parseLoop (f + 1) r = Request.parseChunkedBody g r := by
  rw [Request.parseLoop, parseChunkedBody_fuel_eq g f r hg hf]
  obtain ⟨f1, rfl⟩ : ∃ f1, f = f1 + 1 := ⟨f - 1, by omega⟩
  split
  · rename_i h; exact absurd (hs.symm.trans h) (by decide)
  · rename_i h; exact absurd (hs.symm.trans h) (by decide)
  · rename_i h; exact absurd (hs.symm.trans h) (by decide)
  · rename_i h; exact absurd (hs.symm.trans h) (by decide)
  · rename_i h; exact absurd (hs.symm.trans h) (by decide)
  · split
    · rename_i hp; rw [hp]
    · rename_i r1 hp; rw [hp]
    · rename_i r1 hp
      have hst := parseChunkedBody_state _ _ _ _ hp
      simp only [if_true] at hst
      rw [hp, parseLoop_terminal f1 r1 (Or.inl hst), hst]
      simp

/-- One call of `parse` in state CHUNKED_BODY is one run of the chunk loop on
the buffer followed by the input. -/
theorem parse_chunked (raw : Str) (r : Request) (hs : r.state = RequestState.CHUNKED_BODY) :
    Request.parse raw r =
      Request.parseChunkedBody (r.read_buffer.length + raw.length + 1)
        { r with read_buffer := r.read_buffer ++ raw } := by
  unfold Request.parse Request.parseFuel
  exact parseLoop_chunked_eq (r.read_buffer.length + raw.length + 3) _
    { r with read_buffer := r.read_buffer ++ raw } hs
    (by simp only [List.length_append]; omega) (by simp only [List.length_append]; omega)

/-- Claim C35. For a Request in state CHUNKED_BODY whose buffer,
with the data of the call, begins with a size line of `pos` bytes ended by
CR LF that `strtol` in base 16 converts to a size `n` other than 0, with
`pos + 2 + n + 2` below 2 ^ 64: when fewer than `n + 2` bytes follow the CR LF
of the size line, `parse` returns false and changes nothing but the buffer, to
which the data is appended; otherwise the chunk is consumed and `parse` goes on
as on the Request whose body has the `n` bytes after the size line appended and
whose buffer has lost its first `pos + 2 + n + 2` bytes. -/
theorem chunk_consumed_when_buffered (raw : Str) (r : Request) (pos n : Nat)
    (hs : r.state = RequestState.CHUNKED_BODY)
    (hf : findCRLF (r.read_buffer ++ raw) = some pos)
    (hn : toSizeT (strtol16 (substr (r.read_buffer ++ raw) 0 pos)) = n) (hn0 : n ≠ 0)
    (hw : pos + 2 + n + 2 < SIZE_MOD) :
    ((r.read_buffer ++ raw).length < pos + 2 + n + 2 →
      Request.parse raw r = some (false, { r with read_buffer := r.read_buffer ++ raw })) ∧
    (pos + 2 + n + 2 ≤ (r.read_buffer ++ raw).length →
      Request.parse raw r =
        Request.parse []
          { r with
            body := r.body ++ substr (r.read_buffer ++ raw) (pos + 2) n,
            read_buffer := (r.read_buffer ++ raw).drop (pos + 2 + n + 2) } ∧
      (substr (r.read_buffer ++ raw) (pos + 2) n).length = n ∧
      ((r.read_buffer ++ raw).drop (pos + 2 + n + 2)).length + (pos + 2 + n + 2) =
        (r.read_buffer ++ raw).length) := by
  have hmod : (pos + 2 + n + 2) % SIZE_MOD = pos + 2 + n + 2 := Nat.mod_eq_of_lt hw
  have hlen : (r.read_buffer ++ raw).length = r.read_buffer.length + raw.length :=
    List.length_append _ _
  constructor
  · intro hlt
    rw [parse_chunked raw r hs, Request.parseChunkedBody]
    simp only [hf, hn, hmod]
    rw [if_neg hn0, if_pos hlt]
  · intro hge
    refine ⟨?_, ?_, ?_⟩
    · rw [parse_chunked raw r hs, Request.parseChunkedBody]
      simp only [hf, hn, hmod]
      rw [if_neg hn0, if_neg (by omega)]
      have e := parse_chunked []
        { r with
          body := r.body ++ substr (r.read_buffer ++ raw) (pos + 2) n,
          read_buffer := (r.read_buffer ++ raw).drop (pos + 2 + n + 2) } hs
      rw [e]
      simp only [List.append_nil, List.length_nil, Nat.add_zero, erase0]
      apply parseChunkedBody_fuel_eq
      · simp only [List.length_drop]; omega
      · simp only [List.length_drop]; omega
    · simp only [substr, List.length_take, List.length_drop]
      omega
    · simp only [List.length_drop]
      omega

theorem chunk_consumed_when_buffered_witness :
    Request.parse (str "oo")
        { Request.fresh with state := RequestState.CHUNKED_BODY, read_buffer := str "3\r\nf" } =
      some (false, { Request.fresh with
        state := RequestState.CHUNKED_BODY, read_buffer := str "3\r\nfoo" }) ∧
    Request.parse (str "o\r\n7")
        { Request.fresh with state := RequestState.CHUNKED_BODY, read_buffer := str "3\r\nfo" } =
      Request.parse []
        { Request.fresh with
          state := RequestState.CHUNKED_BODY,
          body := [] ++ substr (str "3\r\nfo" ++ str "o\r\n7") (1 + 2) 3,
          read_buffer := (str "3\r\nfo" ++ str "o\r\n7").drop (1 + 2 + 3 + 2) } ∧
    Request.parse (str "o\r\n7")
        { Request.fresh with state := RequestState.CHUNKED_BODY, read_buffer := str "3\r\nfo" } =
      some (false, { Request.fresh with
        state := RequestState.CHUNKED_BODY, body := str "foo", read_buffer := str "7" }) :=
  ⟨(chunk_consumed_when_buffered (str "oo")
      { Request.fresh with state := RequestState.CHUNKED_BODY, read_buffer := str "3\r\nf" }
      1 3 rfl (by decide) (by decide) (by decide) (by decide)).1 (by decide),
   ((chunk_consumed_when_buffered (str "o\r\n7")
      { Request.fresh with state := RequestState.CHUNKED_BODY, read_buffer := str "3\r\nfo" }
      1 3 rfl (by decide) (by decide) (by decide) (by decide)).2 (by decide)).1,
   by decide⟩

/-- Claim C35, failing input. The size line "-1" is converted by `strtol` to
-1, the size 2 ^ 64 - 1 as a `size_t`, and `pos + 2 + n + 2` wraps to 5: with
only the three bytes "abc" buffered after the size line, the chunk is consumed
all the same; three bytes are appended to the body and five bytes are removed
from the buffer. -/
theorem chunk_size_wraps :
    findCRLF (str "-1\r\nabc") = some 2 ∧
    toSizeT (strtol16 (substr (str "-1\r\nabc") 0 2)) = 2 ^ 64 - 1 ∧
    (2 + 2 + (2 ^ 64 - 1) + 2) % SIZE_MOD = 5 ∧
    Request.parse (str "abc")
        { Request.fresh with state := RequestState.CHUNKED_BODY, read_buffer := str "-1\r\n" } =
      some (false, { Request.fresh with
        state := RequestState.CHUNKED_BODY, body := str "abc", read_buffer := str "bc" }) := by
  decide

/-- Claim C36. For a Request in state CHUNKED_BODY whose buffer, with the data
of the call, begins with a size line that `strtol` converts to 0: `parse`
returns true in state COMPLETE, having removed the size line with its CR LF
and, only when the next two bytes are already buffered and are CR LF, these two
bytes as well; all else is unchanged. -/
theorem zero_chunk_completes (raw : Str) (r : Request) (pos : Nat)
    (hs : r.state = RequestState.CHUNKED_BODY)
    (hf : findCRLF (r.read_buffer ++ raw) = some pos)
    (hz : toSizeT (strtol16 (substr (r.read_buffer ++ raw) 0 pos)) = 0) :
    Request.parse raw r =
      some (true, { r with
        read_buffer :=
          if ((r.read_buffer ++ raw).drop (pos + 2)).take 2 = CRLF
          then (r.read_buffer ++ raw).drop (pos + 2 + 2)
          else (r.read_buffer ++ raw).drop (pos + 2),
        state := RequestState.COMPLETE }) := by
  rw [parse_chunked raw r hs, Request.parseChunkedBody]
  simp only [hf, hz, if_true]
  simp only [erase0, substr, List.drop_zero, List.drop_drop]
  by_cases hc : List.take 2 (List.drop (pos + 2) (r.read_buffer ++ raw)) = CRLF
  · have hl : (List.drop (pos + 2) (r.read_buffer ++ raw)).length ≥ 2 := by
      have := congrArg List.length hc
      simp only [List.length_take, CRLF, List.length_cons, List.length_nil] at this
      omega
    rw [if_pos hc, if_pos ⟨hl, hc⟩]
  · rw [if_neg hc, if_neg (fun h => hc h.2)]

theorem zero_chunk_completes_witness :
    Request.parse (str "\n\r\nGET")
        { Request.fresh with
          state := RequestState.CHUNKED_BODY, body := str "foo", read_buffer := str "0\r" } =
      some (true, { Request.fresh with
        state := RequestState.COMPLETE, body := str "foo", read_buffer := str "GET" }) ∧
    Request.parse (str "\n\r")
        { Request.fresh with
          state := RequestState.CHUNKED_BODY, body := str "foo", read_buffer := str "0\r" } =
      some (true, { Request.fresh with
        state := RequestState.COMPLETE, body := str "foo", read_buffer := str "\r" }) :=
  ⟨(zero_chunk_completes (str "\n\r\nGET")
      { Request.fresh with
        state := RequestState.CHUNKED_BODY, body := str "foo", read_buffer := str "0\r" }
      1 rfl (by decide) (by decide)).trans (by decide),
   (zero_chunk_completes (str "\n\r")
      { Request.fresh with
        state := RequestState.CHUNKED_BODY, body := str "foo", read_buffer := str "0\r" }
      1 rfl (by decide) (by decide)).trans (by decide)⟩

/-- Claim C36, failing input. A complete chunked message fed in one call ends
in state COMPLETE with an empty carry-over buffer; fed in two fragments, the
first one ending right after the size line "0" CR LF or one byte later, it ends
in state COMPLETE with CR LF left in the carry-over buffer. -/
theorem final_crlf_left_in_buffer :
    (Request.parse
        (str "POST /up HTTP/1.1\r\nTransfer-Encoding: chunked\r\n\r\n5\r\nhello\r\n0\r\n\r\n")
        Request.fresh).map (fun x => (x.1, x.2.state, x.2.body, x.2.read_buffer)) =
      some (true, RequestState.COMPLETE, str "hello", []) ∧
    (Request.parseAll
        [str "POST /up HTTP/1.1\r\nTransfer-Encoding: chunked\r\n\r\n5\r\nhello\r\n0\r\n",
         str "\r\n"]
        Request.fresh).map (fun x => (x.state, x.body, x.read_buffer)) =
      some (RequestState.COMPLETE, str "hello", str "\r\n") ∧
    (Request.parseAll
        [str "POST /up HTTP/1.1\r\nTransfer-Encoding: chunked\r\n\r\n5\r\nhello\r\n0\r\n\r",
         str "\n"]
        Request.fresh).map (fun x => (x.state, x.body, x.read_buffer)) =
      some (RequestState.COMPLETE, str "hello", str "\r\n") := by
  decide

theorem stuckLine_false (s : Str) (pos : Nat) (h : stuckLine s = false)
    (hf : findCRLF s = some pos) (hn : toSizeT (strtol16 (substr s 0 pos)) ≠ 0) :
    (pos + 2 + toSizeT (strtol16 (substr s 0 pos)) + 2) % SIZE_MOD ≠ 0 := by
  unfold stuckLine at h
  rw [hf] at h
  simp only [decide_eq_false_iff_not, not_and] at h
  exact h hn

theorem parseChunkedBody_returns (f : Nat) :
    ∀ r : Request, r.read_buffer.length + 1 ≤ f →
      (∀ s, s <:+ r.read_buffer → stuckLine s = false) →
      (Request.parseChunkedBody f r).isSome = true := by
  induction f with
  | zero => intro r h; omega
  | succ f ih =>
    intro r hf hns
    rw [Request.parseChunkedBody]
    split
    · rfl
    · rename_i pos hc
      simp only
      split
      · rfl
      · rename_i hcs
        split
        · rfl
        · rename_i hlen
          have hne := stuckLine_false r.read_buffer pos (hns _ (List.suffix_refl _)) hc hcs
          apply ih
          · simp only [erase0, List.length_drop]
            omega
          · intro s hs
            exact hns s (hs.trans (List.drop_suffix _ _))

theorem parseLoop_returns (f : Nat) :
    ∀ r : Request, loopFuel r ≤ f →
      (∀ s, s <:+ r.read_buffer → stuckLine s = false) →
      (Request.parseLoop f r).isSome = true := by
  induction f with
  | zero =>
    intro r hf
    unfold loopFuel at hf
    split at hf <;> omega
  | succ f ih =>
    intro r hf hns
    rw [Request.parseLoop]
    split
    · rfl
    · rfl
    · rename_i hs
      have hfuel := loopFuel_ge r (by rw [hs]; simp)
      split
      · rfl
      · rename_i pos hc
        have hlen := findCRLF_length _ _ hc
        simp only
        split
        · rfl
        · rename_i r2 hp
          have hbuf := (parseRequestLine_frame (substr r.read_buffer 0 pos)
            { r with read_buffer := erase0 r.read_buffer (pos + 2) }).1.2.1
          rw [hp] at hbuf
          simp only at hbuf
          apply ih
          · refine le_trans (loopFuel_le_of _ (r.read_buffer.length - 2) ?_) (by omega)
            show r2.read_buffer.length ≤ _
            rw [hbuf]
            simp only [erase0, List.length_drop]
            omega
          · intro s hsuf
            have hsuf2 : s <:+ r2.read_buffer := hsuf
            rw [hbuf] at hsuf2
            exact hns s (hsuf2.trans (List.drop_suffix _ _))
    · rename_i hs
      have hfuel := loopFuel_ge r (by rw [hs]; simp)
      split
      · rfl
      · rename_i pos hc
        have hlen := findCRLF_length _ _ hc
        split
        · simp only
          have hstep : ∀ st : RequestState,
              (Request.parseLoop f
                { r with read_buffer := erase0 r.read_buffer 2, state := st }).isSome = true := by
            intro st
            apply ih
            · refine le_trans (loopFuel_le_of _ (r.read_buffer.length - 2) ?_) (by omega)
              show (erase0 r.read_buffer 2).length ≤ _
              simp only [erase0, List.length_drop, le_refl]
            · intro s hsuf
              exact hns s (List.IsSuffix.trans hsuf (List.drop_suffix _ _))
          split
          · exact hstep _
          · split
            · exact hstep _
            · exact hstep _
        · simp only
          split
          · rfl
          · rename_i r2 hp
            have hbuf := (parseHeader_frame (substr r.read_buffer 0 pos)
              { r with read_buffer := erase0 r.read_buffer (pos + 2) }).2.1
            rw [hp] at hbuf
            simp only at hbuf
            apply ih
            · refine le_trans (loopFuel_le_of _ (r.read_buffer.length - 2) ?_) (by omega)
              rw [hbuf]
              simp only [erase0, List.length_drop]
              omega
            · intro s hsuf
              rw [hbuf] at hsuf
              exact hns s (hsuf.trans (List.drop_suffix _ _))
    · rename_i hs
      have hfuel := loopFuel_ge r (by rw [hs]; simp)
      split
      · rfl
      · rename_i r1 hp
        have hst := parseBody_state r
        rw [hp] at hst
        simp only [if_true] at hst
        obtain ⟨f1, rfl⟩ : ∃ f1, f = f1 + 1 := ⟨f - 1, by omega⟩
        rw [parseLoop_terminal f1 r1 (Or.inl hst)]
        rfl
    · rename_i hs
      have hfuel := loopFuel_ge r (by rw [hs]; simp)
      have hret := parseChunkedBody_returns f r (by omega) hns
      split
      · rename_i hp
        rw [hp] at hret
        simp at hret
      · rfl
      · rename_i r1 hp
        have hst := parseChunkedBody_state _ _ _ _ hp
        simp only [if_true] at hst
        obtain ⟨f1, rfl⟩ : ∃ f1, f = f1 + 1 := ⟨f - 1, by omega⟩
        rw [parseLoop_terminal f1 r1 (Or.inl hst)]
        rfl

theorem parseLoop_stuck (f : Nat) (r : Request) (hs : r.state = RequestState.CHUNKED_BODY)
    (hst : stuckLine r.read_buffer = true) : Request.parseLoop f r = none := by
  unfold stuckLine at hst
  cases hf : findCRLF r.read_buffer with
  | none => simp [hf] at hst
  | some pos =>
    simp only [hf, decide_eq_true_eq] at hst
    cases f with
    | zero => rfl
    | succ f =>
      rw [Request.parseLoop]
      simp only [hs, parseChunkedBody_stuck f r pos hf hst.1 hst.2]

/-- Claim C38. `parse` returns for every Request and every input
such that no part of the buffer followed by the input, from some byte to the
end, begins with a chunk-size line on which the chunk loop makes no progress
(a size other than 0 for which the length of the line plus 2 plus the size plus
2 is 0 as a `size_t`). And in state CHUNKED_BODY, when the buffer followed by
the input begins with such a line, `parse` does not return: the state loop
has no result for any bound on its iterations. -/
theorem parse_returns_unless_stuck (raw : Str) (r : Request) :
    ((∀ s ∈ (r.read_buffer ++ raw).tails, stuckLine s = false) →
      (Request.parse raw r).isSome = true) ∧
    (r.state = RequestState.CHUNKED_BODY → stuckLine (r.read_buffer ++ raw) = true →
      Request.parse raw r = none ∧ ∀ fuel, Request.parseFuel fuel raw r = none) := by
  constructor
  · intro h
    unfold Request.parse Request.parseFuel
    apply parseLoop_returns
    · refine le_trans (loopFuel_le _) ?_
      simp only [List.length_append]
      omega
    · intro s hs
      exact h s ((List.mem_tails s _).mpr hs)
  · intro hs hst
    exact ⟨parseLoop_stuck _ _ hs hst, fun fuel => parseLoop_stuck fuel _ hs hst⟩

theorem parse_returns_unless_stuck_witness :
    (Request.parse (str "TP/1.1\r\nTransfer-Encoding: chunked\r\n\r\n-5\r\nab")
      { Request.fresh with read_buffer := str "POST / HT" }).isSome = true ∧
    (Request.parse (str "\r\nabc")
        { Request.fresh with state := RequestState.CHUNKED_BODY, read_buffer := str "-6" } =
        none ∧
      ∀ fuel, Request.parseFuel fuel (str "\r\nabc")
        { Request.fresh with state := RequestState.CHUNKED_BODY, read_buffer := str "-6" } =
        none) :=
  ⟨(parse_returns_unless_stuck (str "TP/1.1\r\nTransfer-Encoding: chunked\r\n\r\n-5\r\nab")
      { Request.fresh with read_buffer := str "POST / HT" }).1 (by decide),
   (parse_returns_unless_stuck (str "\r\nabc")
      { Request.fresh with state := RequestState.CHUNKED_BODY, read_buffer := str "-6" }).2
      rfl (by decide)⟩

/-- Claim C38, failing input. The chunk-size line "-6" is converted by
`strtol` to -6, the size 2 ^ 64 - 6 as a `size_t`; the number of bytes to
remove, 2 + 2 + (2 ^ 64 - 6) + 2, is 0 as a `size_t`, so an iteration of the
chunk loop removes nothing and the loop never ends: `parse` on the request
below does not return, for any bound on the iterations of its loop. -/
theorem chunk_size_line_never_returns :
    toSizeT (strtol16 (str "-6")) = 2 ^ 64 - 6 ∧
    (2 + 2 + (2 ^ 64 - 6) + 2) % SIZE_MOD = 0 ∧
    Request.parse (str "POST /up HTTP/1.1\r\nTransfer-Encoding: chunked\r\n\r\n-6\r\n")
      Request.fresh = none ∧
    ∀ fuel,
      Request.parseFuel fuel
        (str "POST /up HTTP/1.1\r\nTransfer-Encoding: chunked\r\n\r\n-6\r\n") Request.fresh =
        none := by
  have hp : Request.parse (str "POST /up HTTP/1.1\r\nTransfer-Encoding: chunked\r\n\r\n-6\r\n")
      Request.fresh = none := by decide
  refine ⟨by decide, by decide, hp, ?_⟩
  intro fuel
  cases h : Request.parseFuel fuel
      (str "POST /up HTTP/1.1\r\nTransfer-Encoding: chunked\r\n\r\n-6\r\n") Request.fresh with
  | none => rfl
  | some x =>
    have := (parse_eq_some_iff _ _ x).mpr ⟨fuel, h⟩
    rw [hp] at this
    simp at this

end Webserv
